import Mathlib

/-!
# Ethernet frame pool of the Open Fronthaul transmitter

A shallow embedding of `include/srsran/ofh/ethernet/ethernet_frame_pool.h`
(`frame_buffer`, `frame_buffer_array`, `eth_frame_pool`) and of
`gtpu_tunnel_ngu_rx::handle_pdu` of `lib/gtpu/gtpu_tunnel_ngu_rx.h`, and the
properties proved about them.

Conventions of the embedding.

* A `std::array<T, N>` is a `List T`; that its length is `N` is part of the
  well-formedness predicates (`wf`), which hold after construction and are
  preserved by every operation of the pool.
* A `span<frame_buffer>` over the storage of a circular array is the index of
  its first buffer inside `buf_array` together with its number of buffers.
* C++ `unsigned` arithmetic is arithmetic modulo `2 ^ 32`.
* Undefined behaviour and failed assertions (division by zero, access outside
  an array, `push_back` on a full `static_vector`, `srsran_assert`) are the
  result `none`.
* The pool-wide mutex serialises the public operations; the embedding is the
  sequential semantics of one operation executed under the lock.
-/

namespace srsran
namespace ether

/-! ## Constants -/

/-- Length of Ethernet Jumbo frame. -/
def MAX_ETH_FRAME_LENGTH : Nat := 9600

/-- Minimal Ethernet frame length. -/
def MIN_ETH_FRAME_LENGTH : Nat := 64

/-- Number of values of the C++ type `unsigned` (32 bits). -/
def UNSIGNED_MOD : Nat := 2 ^ 32

/-- The two constants of `srsran/ofh/ofh_constants.h` used by the pool. The header is not
part of the sources, so their values are parameters of the development. -/
structure ofh_constants where
  MAX_CP_MESSAGES_PER_SYMBOL : Nat
  MAX_UP_MESSAGES_PER_SYMBOL : Nat
deriving DecidableEq

/-- Modelled from the spec: `ofh::message_type` of `srsran/ofh/ofh_constants.h` (absent).
There are exactly two traffic categories, control-plane and user-plane. -/
inductive message_type where
  | control_plane
  | user_plane
deriving DecidableEq

/-- The value of `static_cast<unsigned>(type)`: control-plane is 0, user-plane is 1. -/
def message_type.toNat : message_type → Nat
  | .control_plane => 0
  | .user_plane => 1

/-- Modelled from the spec: `ofh::message_type::num_ofh_types`, the number of categories. -/
def num_ofh_types : Nat := 2

/-- Modelled from the spec: `NOF_OFDM_SYM_PER_SLOT_NORMAL_CP` of `srsran/ran/frame_types.h`
(absent), the number of OFDM symbols per slot. -/
def NOF_OFDM_SYM_PER_SLOT_NORMAL_CP : Nat := 14

/-- Modelled from the spec: `slot_point` of `srsran/ran/slot_point.h` (absent). The pool only
calls `slot_index()`, so a slot point is represented by that value. -/
structure slot_point where
  slot_index : Nat
deriving DecidableEq

/-! ## frame_buffer -/

/-- Storage for one Ethernet frame buffer: the logical size `sz` and the byte array. -/
structure frame_buffer where
  sz : Nat
  buffer : List Nat
deriving DecidableEq

/-- The default member initialisers: `sz = 0` and a zero-initialised byte array. -/
def frame_buffer.init : frame_buffer :=
  { sz := 0, buffer := List.replicate MAX_ETH_FRAME_LENGTH 0 }

/-- The byte array has the length fixed by its type `std::array<uint8_t, MAX_ETH_FRAME_LENGTH>`. -/
def frame_buffer.wf (fb : frame_buffer) : Prop :=
  fb.buffer.length = MAX_ETH_FRAME_LENGTH

/-- Loop of `std::fill`: writes `value` at `count` consecutive positions starting at `first`. -/
def fill (l : List Nat) (first : Nat) (value : Nat) : Nat → List Nat
  | 0 => l
  | count + 1 => fill (l.set first value) (first + 1) value count

/-- Value of `frame_buffer::empty`. -/
def frame_buffer.empty (fb : frame_buffer) : Bool := fb.sz == 0

/-- Value of `frame_buffer::size`. -/
def frame_buffer.size (fb : frame_buffer) : Nat := fb.sz

/-- Effect of `frame_buffer::set_size`; `none` when the assertion `new_size <= MAX_ETH_FRAME_LENGTH`
fails. The range filled with zeros is `[new_size, MIN_ETH_FRAME_LENGTH)`. -/
def frame_buffer.set_size (fb : frame_buffer) (new_size : Nat) : Option frame_buffer :=
  if new_size ≤ MAX_ETH_FRAME_LENGTH then
    let written_size := if new_size < MIN_ETH_FRAME_LENGTH then MIN_ETH_FRAME_LENGTH else new_size
    let buffer :=
      if new_size < MIN_ETH_FRAME_LENGTH then
        fill fb.buffer new_size 0 (MIN_ETH_FRAME_LENGTH - new_size)
      else fb.buffer
    some { sz := written_size, buffer := buffer }
  else none

/-- Effect of `frame_buffer::clear`. -/
def frame_buffer.clear (fb : frame_buffer) : frame_buffer := { fb with sz := 0 }

/-- Bytes viewed by the mutable `frame_buffer::data`: the span over the whole byte array. -/
def frame_buffer.data (fb : frame_buffer) : List Nat := fb.buffer

/-- Bytes viewed by the immutable `frame_buffer::data`: the span `{buffer.data(), sz}`, the
first `sz` bytes of the array. -/
def frame_buffer.data_const (fb : frame_buffer) : List Nat := fb.buffer.take fb.sz

/-- Execution of `frame_buffer::set_size` with the state in which it stops: the assertion is
the first statement, so a failed assertion stops in the state of the call (`false`); otherwise
the body runs to its end (`true`). -/
def frame_buffer.set_size_exec (fb : frame_buffer) (new_size : Nat) : frame_buffer × Bool :=
  if new_size ≤ MAX_ETH_FRAME_LENGTH then
    let written_size := if new_size < MIN_ETH_FRAME_LENGTH then MIN_ETH_FRAME_LENGTH else new_size
    let buffer :=
      if new_size < MIN_ETH_FRAME_LENGTH then
        fill fb.buffer new_size 0 (MIN_ETH_FRAME_LENGTH - new_size)
      else fb.buffer
    ({ sz := written_size, buffer := buffer }, true)
  else (fb, false)

/-- The operations that change a frame buffer. -/
inductive buffer_op where
  | set_size (new_size : Nat)
  | clear
deriving DecidableEq

/-- State of the buffer after one operation; `none` when the assertion of `set_size` fails. -/
def frame_buffer.step (fb : frame_buffer) : buffer_op → Option frame_buffer
  | .set_size n => fb.set_size n
  | .clear => some fb.clear

/-- State of the buffer after a sequence of operations, executed from left to right. -/
def frame_buffer.run (fb : frame_buffer) : List buffer_op → Option frame_buffer
  | [] => some fb
  | op :: ops =>
    match fb.step op with
    | none => none
    | some fb1 => fb1.run ops

/-! ## frame_buffer_array -/

/-- A `span<frame_buffer>`: position of the first buffer in the storage array and number of
buffers viewed. -/
structure span where
  data : Nat
  size : Nat
deriving DecidableEq

/-- Maximum number of ethernet frames of each OFH type stored for each slot symbol. -/
def MAX_ETH_FRAMES_PER_SYMBOL (c : ofh_constants) : Nat :=
  max (2 * c.MAX_CP_MESSAGES_PER_SYMBOL) (2 * c.MAX_UP_MESSAGES_PER_SYMBOL)

/-- Maximum number of buffer arrays with prepared ethernet frames. -/
def MAX_NOF_PREPARED_FRAME_BATCHES : Nat := 2

/-- Modelled from the spec: `static_vector<T, N>::push_back` of `srsran/adt/static_vector.h`
(absent). The vector is a list bounded by its capacity; appending to a full vector fails. -/
def static_vector.push_back {α : Type} (capacity : Nat) (v : List α) (x : α) : Option (List α) :=
  if v.length < capacity then some (v ++ [x]) else none

/-- Structure used to count number of written and read elements in the circular array. -/
structure rd_wr_counter where
  count : Nat
  boundary : Nat
deriving DecidableEq

/-- Constructor of `rd_wr_counter`: receives the upper boundary. -/
def rd_wr_counter.init (b : Nat) : rd_wr_counter := { count := 0, boundary := b }

/-- Effect of `rd_wr_counter::increment`: `count += n` on a 32-bit unsigned. -/
def rd_wr_counter.increment (w : rd_wr_counter) (n : Nat) : rd_wr_counter :=
  { w with count := (w.count + n) % UNSIGNED_MOD }

/-- Value of `rd_wr_counter::value`: `count % boundary`; `none` is the division by zero. -/
def rd_wr_counter.value (w : rd_wr_counter) : Option Nat :=
  if w.boundary = 0 then none else some (w.count % w.boundary)

/-- State of the circular array of frame buffers. -/
structure frame_buffer_array where
  buf_array : List frame_buffer
  ready_frames : List span
  write_position : rd_wr_counter
  increment_quant : Nat
deriving DecidableEq

/-- Constructor of `frame_buffer_array`: the boundary of the write counter is the unsigned
product `2 * n_packets`, the storage holds `MAX_ETH_FRAMES_PER_SYMBOL` default buffers. -/
def frame_buffer_array.init (c : ofh_constants) (n_packets : Nat) : frame_buffer_array :=
  { buf_array := List.replicate (MAX_ETH_FRAMES_PER_SYMBOL c) frame_buffer.init
    ready_frames := []
    write_position := rd_wr_counter.init ((2 * n_packets) % UNSIGNED_MOD)
    increment_quant := n_packets }

/-- Effect and result of `frame_buffer_array::get_wr_buffers`: the view starts at the value of
the write counter and has `increment_quant` buffers; the counter is then incremented. -/
def frame_buffer_array.get_wr_buffers (a : frame_buffer_array) :
    Option (span × frame_buffer_array) :=
  match a.write_position.value with
  | none => none
  | some v =>
    some ({ data := v, size := a.increment_quant },
          { a with write_position := a.write_position.increment a.increment_quant })

/-- Effect of `frame_buffer_array::clear_buffers`. -/
def frame_buffer_array.clear_buffers (a : frame_buffer_array) : frame_buffer_array :=
  { a with ready_frames := [] }

/-- Effect of `frame_buffer_array::push_buffers`: a full ready list is cleared first, then the
batch is appended with `push_back`. -/
def frame_buffer_array.push_buffers (a : frame_buffer_array) (prepared_buffers : span) :
    Option frame_buffer_array :=
  let a1 := if a.ready_frames.length = MAX_NOF_PREPARED_FRAME_BATCHES then a.clear_buffers else a
  match static_vector.push_back MAX_NOF_PREPARED_FRAME_BATCHES a1.ready_frames prepared_buffers with
  | none => none
  | some r => some { a1 with ready_frames := r }

/-- Result of `frame_buffer_array::get_rd_buffers`: the ready batches in order, an empty view
when there is none. -/
def frame_buffer_array.get_rd_buffers (a : frame_buffer_array) : List span :=
  if a.ready_frames.isEmpty then [] else a.ready_frames

/-! ## eth_frame_pool -/

/-- Maximum number of entries contained by the pool, one entry per OFDM symbol, sized to
accommodate 20 slots. -/
def NUM_ENTRIES : Nat := NOF_OFDM_SYM_PER_SLOT_NORMAL_CP * 20

/-- Number of circular arrays of a pool entry. -/
def POOL_ENTRY_SIZE : Nat := num_ofh_types

/-- Pool entry storing circular arrays of ethernet frame buffers, one per OFH type. -/
structure pool_entry where
  buffers : List frame_buffer_array
deriving DecidableEq

/-- Default member initialiser of `pool_entry::buffers`. -/
def pool_entry.init (c : ofh_constants) : pool_entry :=
  { buffers := [frame_buffer_array.init c c.MAX_CP_MESSAGES_PER_SYMBOL,
                frame_buffer_array.init c c.MAX_UP_MESSAGES_PER_SYMBOL] }

/-- Result of `pool_entry::get_ofh_type_buffers`: the array at index `static_cast<unsigned>(type)`. -/
def pool_entry.get_ofh_type_buffers (e : pool_entry) (type : message_type) :
    Option frame_buffer_array :=
  e.buffers[type.toNat]?

/-- Loop `for (auto& buf : buffs) buf.clear();` over the `count` buffers starting at `first`. -/
def clear_each (bufs : List frame_buffer) (first : Nat) : Nat → Option (List frame_buffer)
  | 0 => some bufs
  | count + 1 =>
    match bufs[first]? with
    | none => none
    | some b => clear_each (bufs.set first b.clear) (first + 1) count

/-- Effect and result of `pool_entry::get_write_buffers`. -/
def pool_entry.get_write_buffers (e : pool_entry) (type : message_type) :
    Option (span × pool_entry) :=
  match e.get_ofh_type_buffers type with
  | none => none
  | some entry_buf =>
    match entry_buf.get_wr_buffers with
    | none => none
    | some (buffs, entry_buf1) =>
      match clear_each entry_buf1.buf_array buffs.data buffs.size with
      | none => none
      | some bufs =>
        some (buffs, { e with buffers := e.buffers.set type.toNat { entry_buf1 with buf_array := bufs } })

/-- Effect of `pool_entry::push_buffers`. -/
def pool_entry.push_buffers (e : pool_entry) (type : message_type) (prepared_buffers : span) :
    Option pool_entry :=
  match e.get_ofh_type_buffers type with
  | none => none
  | some entry_buf =>
    match entry_buf.push_buffers prepared_buffers with
    | none => none
    | some entry_buf1 => some { e with buffers := e.buffers.set type.toNat entry_buf1 }

/-- Effect of `pool_entry::clear_buffers`. -/
def pool_entry.clear_buffers (e : pool_entry) (type : message_type) : Option pool_entry :=
  match e.get_ofh_type_buffers type with
  | none => none
  | some entry_buf => some { e with buffers := e.buffers.set type.toNat entry_buf.clear_buffers }

/-- Result of `pool_entry::get_read_buffers`. -/
def pool_entry.get_read_buffers (e : pool_entry) (type : message_type) : Option (List span) :=
  match e.get_ofh_type_buffers type with
  | none => none
  | some entry_buf => some entry_buf.get_rd_buffers

/-- Pool of Ethernet frames pre-allocated for each slot symbol. -/
structure eth_frame_pool where
  pool : List pool_entry
deriving DecidableEq

/-- A default-constructed pool: `NUM_ENTRIES` default pool entries. -/
def eth_frame_pool.init (c : ofh_constants) : eth_frame_pool :=
  { pool := List.replicate NUM_ENTRIES (pool_entry.init c) }

/-- The index `sym_index` computed by `eth_frame_pool::get_pool_entry`. The sum is taken in
exact arithmetic: `NUM_ENTRIES` is a `size_t` constant and the symbols-per-slot constant comes
from the specification, which gives the index as `(slot_index * 14 + symbol) mod 280`. -/
def sym_index (slot : slot_point) (symbol : Nat) : Nat :=
  (slot.slot_index * NOF_OFDM_SYM_PER_SLOT_NORMAL_CP + symbol) % NUM_ENTRIES

/-- Result of `eth_frame_pool::get_pool_entry`: `pool[sym_index]`. -/
def eth_frame_pool.get_pool_entry (p : eth_frame_pool) (slot : slot_point) (symbol : Nat) :
    Option pool_entry :=
  p.pool[sym_index slot symbol]?

/-- Effect and result of `eth_frame_pool::get_frame_buffers`. -/
def eth_frame_pool.get_frame_buffers (p : eth_frame_pool) (slot : slot_point) (symbol : Nat)
    (type : message_type) : Option (span × eth_frame_pool) :=
  match p.get_pool_entry slot symbol with
  | none => none
  | some p_entry =>
    match p_entry.get_write_buffers type with
    | none => none
    | some (buffs, p_entry1) =>
      some (buffs, { p with pool := p.pool.set (sym_index slot symbol) p_entry1 })

/-- Effect of `eth_frame_pool::eth_frames_ready`. -/
def eth_frame_pool.eth_frames_ready (p : eth_frame_pool) (slot : slot_point) (symbol : Nat)
    (type : message_type) (prepared_buffers : span) : Option eth_frame_pool :=
  match p.get_pool_entry slot symbol with
  | none => none
  | some p_entry =>
    match p_entry.push_buffers type prepared_buffers with
    | none => none
    | some p_entry1 => some { p with pool := p.pool.set (sym_index slot symbol) p_entry1 }

/-- Result of `eth_frame_pool::read_frame_buffers`. -/
def eth_frame_pool.read_frame_buffers (p : eth_frame_pool) (slot : slot_point) (symbol : Nat)
    (type : message_type) : Option (List span) :=
  match p.get_pool_entry slot symbol with
  | none => none
  | some p_entry => p_entry.get_read_buffers type

/-- Effect of `eth_frame_pool::eth_frames_sent`. -/
def eth_frame_pool.eth_frames_sent (p : eth_frame_pool) (slot : slot_point) (symbol : Nat)
    (type : message_type) : Option eth_frame_pool :=
  match p.get_pool_entry slot symbol with
  | none => none
  | some p_entry =>
    match p_entry.clear_buffers type with
    | none => none
    | some p_entry1 => some { p with pool := p.pool.set (sym_index slot symbol) p_entry1 }

/-! ## Well-formed states and sequences of operations -/

/-- A circular array is well formed when its storage has the length of its array type, every
buffer has a byte array of the right length, and the ready list respects the capacity of its
`static_vector`. -/
def frame_buffer_array.wf (c : ofh_constants) (a : frame_buffer_array) : Prop :=
  a.buf_array.length = MAX_ETH_FRAMES_PER_SYMBOL c ∧
  (∀ fb ∈ a.buf_array, fb.wf) ∧
  a.ready_frames.length ≤ MAX_NOF_PREPARED_FRAME_BATCHES

/-- A pool entry is well formed when it holds one well-formed circular array per OFH type. -/
def pool_entry.wf (c : ofh_constants) (e : pool_entry) : Prop :=
  e.buffers.length = POOL_ENTRY_SIZE ∧ ∀ a ∈ e.buffers, a.wf c

/-- A pool is well formed when it holds `NUM_ENTRIES` well-formed entries. -/
def eth_frame_pool.wf (c : ofh_constants) (p : eth_frame_pool) : Prop :=
  p.pool.length = NUM_ENTRIES ∧ ∀ e ∈ p.pool, e.wf c

/-- The per-symbol capacity of a category, the argument of the constructor of its array. -/
def capacity (c : ofh_constants) : message_type → Nat
  | .control_plane => c.MAX_CP_MESSAGES_PER_SYMBOL
  | .user_plane => c.MAX_UP_MESSAGES_PER_SYMBOL

/-- A circular array is configured for `n` packets when it has the increment and the boundary
its constructor sets for `n`, with `n` positive and `2 * n` representable, and its write
counter is a multiple of the increment. -/
def frame_buffer_array.configured (n : Nat) (a : frame_buffer_array) : Prop :=
  1 ≤ n ∧ 2 * n < UNSIGNED_MOD ∧ a.increment_quant = n ∧ a.write_position.boundary = 2 * n ∧
  a.write_position.count % n = 0

/-- Every array of the entry is configured for the capacity of its category. -/
def pool_entry.configured (c : ofh_constants) (e : pool_entry) : Prop :=
  ∀ type a, e.get_ofh_type_buffers type = some a → a.configured (capacity c type)

/-- Every entry of the pool is configured. -/
def eth_frame_pool.configured (c : ofh_constants) (p : eth_frame_pool) : Prop :=
  ∀ e ∈ p.pool, e.configured c

/-- The public operations of a circular array. -/
inductive array_op where
  | get_wr_buffers
  | push_buffers (prepared_buffers : span)
  | clear_buffers
  | get_rd_buffers
deriving DecidableEq

/-- State of the array after one operation; `none` when the operation fails. -/
def frame_buffer_array.step (a : frame_buffer_array) : array_op → Option frame_buffer_array
  | .get_wr_buffers => (a.get_wr_buffers).map Prod.snd
  | .push_buffers b => a.push_buffers b
  | .clear_buffers => some a.clear_buffers
  | .get_rd_buffers => some a

/-- State of the array after a sequence of operations, executed from left to right. -/
def frame_buffer_array.run (a : frame_buffer_array) : List array_op → Option frame_buffer_array
  | [] => some a
  | op :: ops =>
    match a.step op with
    | none => none
    | some a1 => a1.run ops

/-- State of the array after `k` successive calls of `get_wr_buffers`. -/
def frame_buffer_array.after_writes (a : frame_buffer_array) (k : Nat) : Option frame_buffer_array :=
  a.run (List.replicate k array_op.get_wr_buffers)

/-- The index ranges of two views of the storage have no buffer in common. -/
def span.disjoint (s t : span) : Prop :=
  ∀ i, ¬ (s.data ≤ i ∧ i < s.data + s.size ∧ t.data ≤ i ∧ i < t.data + t.size)

/-- The views passed to `push_buffers` after the most recent `clear_buffers` in a sequence of
operations, in the order of the calls; `acc` holds the views seen so far. -/
def pushed_since_clear (acc : List span) : List array_op → List span
  | [] => acc
  | .push_buffers b :: ops => pushed_since_clear (acc ++ [b]) ops
  | .clear_buffers :: ops => pushed_since_clear [] ops
  | .get_wr_buffers :: ops => pushed_since_clear acc ops
  | .get_rd_buffers :: ops => pushed_since_clear acc ops

/-- The circular array the pool uses for a coordinate: the array of `type` in the entry
returned by `get_pool_entry`. -/
def eth_frame_pool.array_at (p : eth_frame_pool) (slot : slot_point) (symbol : Nat)
    (type : message_type) : Option frame_buffer_array :=
  match p.get_pool_entry slot symbol with
  | none => none
  | some e => e.get_ofh_type_buffers type

/-- The producer filling a buffer it was handed: `buffs[..].set_size(new_size)` through the
mutable span, on the buffer at position `i` of the storage of the coordinate. -/
def eth_frame_pool.producer_set_size (p : eth_frame_pool) (slot : slot_point) (symbol : Nat)
    (type : message_type) (i : Nat) (new_size : Nat) : Option eth_frame_pool :=
  match p.get_pool_entry slot symbol with
  | none => none
  | some e =>
    match e.get_ofh_type_buffers type with
    | none => none
    | some a =>
      match a.buf_array[i]? with
      | none => none
      | some fb =>
        match fb.set_size new_size with
        | none => none
        | some fb1 =>
          let a1 : frame_buffer_array := { a with buf_array := a.buf_array.set i fb1 }
          let e1 : pool_entry := { e with buffers := e.buffers.set type.toNat a1 }
          some { p with pool := p.pool.set (sym_index slot symbol) e1 }

/-- The public operations of the pool. -/
inductive pool_op where
  | get_frame_buffers (slot : slot_point) (symbol : Nat) (type : message_type)
  | eth_frames_ready (slot : slot_point) (symbol : Nat) (type : message_type)
      (prepared_buffers : span)
  | read_frame_buffers (slot : slot_point) (symbol : Nat) (type : message_type)
  | eth_frames_sent (slot : slot_point) (symbol : Nat) (type : message_type)
deriving DecidableEq

/-- State of the pool after one operation; `none` when the operation fails. -/
def eth_frame_pool.step (p : eth_frame_pool) : pool_op → Option eth_frame_pool
  | .get_frame_buffers slot symbol type => (p.get_frame_buffers slot symbol type).map Prod.snd
  | .eth_frames_ready slot symbol type b => p.eth_frames_ready slot symbol type b
  | .read_frame_buffers slot symbol type =>
    (p.read_frame_buffers slot symbol type).map fun _ => p
  | .eth_frames_sent slot symbol type => p.eth_frames_sent slot symbol type

/-- State of the pool after a sequence of operations, executed from left to right. -/
def eth_frame_pool.run (p : eth_frame_pool) : List pool_op → Option eth_frame_pool
  | [] => some p
  | op :: ops =>
    match p.step op with
    | none => none
    | some p1 => p1.run ops

/-- The operation publishes a batch to the array of `type` in the pool entry `index`. -/
def pool_op.publishes_to (index : Nat) (type : message_type) : pool_op → Bool
  | .eth_frames_ready slot symbol t _ => sym_index slot symbol == index && t == type
  | _ => false

/-- The arrays of a coordinate in two pool states have the same write counter and the same
increment: no `get_frame_buffers` for the coordinate separates the two states. -/
def same_cursor (p1 p2 : eth_frame_pool) (slot : slot_point) (symbol : Nat)
    (type : message_type) : Prop :=
  ∃ a1 a2, p1.array_at slot symbol type = some a1 ∧ p2.array_at slot symbol type = some a2 ∧
    a2.write_position = a1.write_position ∧ a2.increment_quant = a1.increment_quant

/-- Between the pool states `p` and `p1` nothing but the array of `type` in the pool entry
`index` may have changed: the pool has the same number of entries, every other entry is the
same, and in the entry `index` the number of arrays and every array of another type are the
same. -/
def only_array_changed (p p1 : eth_frame_pool) (index : Nat) (type : message_type) : Prop :=
  p1.pool.length = p.pool.length ∧
  (∀ j : Nat, j ≠ index → p1.pool[j]? = p.pool[j]?) ∧
  (∀ e e1, p.pool[index]? = some e → p1.pool[index]? = some e1 →
    e1.buffers.length = e.buffers.length ∧
    ∀ t : Nat, t ≠ type.toNat → e1.buffers[t]? = e.buffers[t]?)

/-- Number of `get_wr_buffers` calls in a sequence of operations. -/
def count_writes : List array_op → Nat
  | [] => 0
  | .get_wr_buffers :: ops => count_writes ops + 1
  | _ :: ops => count_writes ops

/-- Result of the non-const overload of `eth_frame_pool::get_pool_entry`, which casts the
result of the const overload. -/
def eth_frame_pool.get_pool_entry_mut (p : eth_frame_pool) (slot : slot_point) (symbol : Nat) :
    Option pool_entry :=
  p.get_pool_entry slot symbol

/-- The entry of slot 0, symbol 0 of a pool with capacities 3 and 3 (storage of 6 buffers per
array) in which `get_write_buffers` was called `k` times for the control-plane category and
nothing else was done: the buffers cleared were empty, so only the write counter of the
control-plane array, incremented `k` times by 3 on 32 bits, differs from the fresh entry. -/
def entry_after_writes (k : Nat) : pool_entry :=
  { buffers := [{ frame_buffer_array.init ⟨3, 3⟩ 3 with
                    write_position := ⟨(k * 3) % UNSIGNED_MOD, 6⟩ },
                frame_buffer_array.init ⟨3, 3⟩ 3] }

/-- The pool with capacities 3 and 3 whose entry of slot 0, symbol 0 is `entry_after_writes k`
and whose other entries are fresh. -/
def pool_after_writes (k : Nat) : eth_frame_pool :=
  { pool := (eth_frame_pool.init ⟨3, 3⟩).pool.set 0 (entry_after_writes k) }

/-- Number of `get_frame_buffers` calls for one coordinate after which, with capacity 3, the
32-bit write counter has wrapped and holds 5: `1431655767 * 3 = 2 ^ 32 + 5`. -/
def WRAP_CALLS : Nat := 1431655767

/-! ### The pool operations as the specification words them -/

/-- Index of the array of a category in a pool entry, in the words of the specification:
0 for control-plane, 1 for user-plane. -/
def spec_category_index : message_type → Nat
  | .control_plane => 0
  | .user_plane => 1

/-- Index of the pool entry of a coordinate, in the words of the specification:
`(slot_index * 14 + symbol) mod 280`. -/
def spec_entry_index (slot : slot_point) (symbol : Nat) : Nat :=
  (slot.slot_index * 14 + symbol) % 280

/-- The pool after the array `array_index` of the entry `entry_index` was replaced by the
result of an operation `f` of the circular array. -/
def spec_update_array (p : eth_frame_pool) (entry_index array_index : Nat)
    (f : frame_buffer_array → Option frame_buffer_array) : Option eth_frame_pool :=
  match p.pool[entry_index]? with
  | none => none
  | some e =>
    match e.buffers[array_index]? with
    | none => none
    | some a =>
      match f a with
      | none => none
      | some a1 =>
        some (eth_frame_pool.mk (p.pool.set entry_index
          (pool_entry.mk (e.buffers.set array_index a1))))

/-- Specification of `eth_frames_ready`: `push_buffers` on the array of the coordinate. -/
def spec_eth_frames_ready (p : eth_frame_pool) (slot : slot_point) (symbol : Nat)
    (type : message_type) (b : span) : Option eth_frame_pool :=
  spec_update_array p (spec_entry_index slot symbol) (spec_category_index type)
    fun a => a.push_buffers b

/-- Specification of `eth_frames_sent`: `clear_buffers` on the array of the coordinate. -/
def spec_eth_frames_sent (p : eth_frame_pool) (slot : slot_point) (symbol : Nat)
    (type : message_type) : Option eth_frame_pool :=
  spec_update_array p (spec_entry_index slot symbol) (spec_category_index type)
    fun a => some a.clear_buffers

/-- Specification of `read_frame_buffers`: `get_rd_buffers` of the array of the coordinate. -/
def spec_read_frame_buffers (p : eth_frame_pool) (slot : slot_point) (symbol : Nat)
    (type : message_type) : Option (List span) :=
  match p.pool[spec_entry_index slot symbol]? with
  | none => none
  | some e =>
    match e.buffers[spec_category_index type]? with
    | none => none
    | some a => some a.get_rd_buffers

end ether

/-! ## gtpu_tunnel_ngu_rx -/

/-- Modelled from the spec: `gtpu_extension_header_type` of `lib/gtpu/gtpu_pdu.h` (absent).
`handle_pdu` distinguishes the PDU session container from every other type. -/
inductive gtpu_extension_header_type where
  | pdu_session_container
  | other (value : Nat)
deriving DecidableEq

/-- Modelled from the spec: an extension header of `gtpu_header::ext_list` (`gtpu_pdu.h` is
absent), with the two members `handle_pdu` reads. -/
structure gtpu_extension_header where
  extension_header_type : gtpu_extension_header_type
  container : List Nat
deriving DecidableEq

/-- Modelled from the spec: `gtpu_header` (`gtpu_pdu.h` is absent), with the two members
`handle_pdu` reads. -/
structure gtpu_header where
  teid : Nat
  ext_list : List gtpu_extension_header
deriving DecidableEq

/-- Modelled from the spec: `psup_dl_pdu_session_information` (`srsran/psup` is absent). Of
its members `handle_pdu` reads the QoS flow id. -/
structure psup_dl_pdu_session_information where
  qos_flow_id : Nat
deriving DecidableEq

/-- The packer `psup_packing` of `srsran/psup/psup_packing.h`, which is absent: its `unpack`
is a parameter. `unpack info container` gives the returned flag and the content of the
in-out argument `info` after the call. -/
structure psup_packing where
  unpack : psup_dl_pdu_session_information → List Nat → Bool × psup_dl_pdu_session_information

/-- The messages `handle_pdu` writes to its logger. -/
inductive gtpu_log where
  | error_failed_unpack
  | warning_multiple_container
  | warning_unexpected_extension (type : gtpu_extension_header_type)
  | warning_incomplete_pdu (sdu_len teid : Nat)
  | info_rx_sdu (sdu_len teid qos_flow : Nat)
deriving DecidableEq

/-- Local state of `handle_pdu` during the loop over the extension headers, with the log
written so far and the containers passed to `unpack` so far. -/
structure handle_pdu_state where
  pdu_session_info : psup_dl_pdu_session_information
  have_pdu_session_info : Bool
  log : List gtpu_log
  unpacked : List (List Nat)

/-- Body of the loop of `handle_pdu` for one extension header. -/
def handle_pdu_ext (psup_packer : psup_packing) (st : handle_pdu_state)
    (ext_hdr : gtpu_extension_header) : handle_pdu_state :=
  match ext_hdr.extension_header_type with
  | .pdu_session_container =>
    if !st.have_pdu_session_info then
      let r := psup_packer.unpack st.pdu_session_info ext_hdr.container
      { pdu_session_info := r.2
        have_pdu_session_info := r.1
        log := if !r.1 then st.log ++ [gtpu_log.error_failed_unpack] else st.log
        unpacked := st.unpacked ++ [ext_hdr.container] }
    else
      { st with log := st.log ++ [gtpu_log.warning_multiple_container] }
  | t => { st with log := st.log ++ [gtpu_log.warning_unexpected_extension t] }

/-- The loop `for (auto ext_hdr : hdr.ext_list)` of `handle_pdu`. -/
def handle_pdu_loop (psup_packer : psup_packing) (st : handle_pdu_state) :
    List gtpu_extension_header → handle_pdu_state
  | [] => st
  | ext_hdr :: rest => handle_pdu_loop psup_packer (handle_pdu_ext psup_packer st ext_hdr) rest

/-- What a call of `handle_pdu` does: the call of `lower_dn.on_new_sdu` if there is one, with
its two arguments, the messages logged and the containers passed to `unpack`. -/
structure handle_pdu_result where
  on_new_sdu : Option (List Nat × Nat)
  log : List gtpu_log
  unpacked : List (List Nat)

/-- Effect of `gtpu_tunnel_ngu_rx::handle_pdu` on the buffer `buf` of a PDU and its header. -/
def gtpu_tunnel_ngu_rx.handle_pdu (psup_packer : psup_packing) (buf : List Nat)
    (hdr : gtpu_header) : handle_pdu_result :=
  let st := handle_pdu_loop psup_packer
    { pdu_session_info := ⟨0⟩, have_pdu_session_info := false, log := [], unpacked := [] }
    hdr.ext_list
  if !st.have_pdu_session_info then
    { on_new_sdu := none
      log := st.log ++ [gtpu_log.warning_incomplete_pdu buf.length hdr.teid]
      unpacked := st.unpacked }
  else
    { on_new_sdu := some (buf, st.pdu_session_info.qos_flow_id)
      log := st.log ++ [gtpu_log.info_rx_sdu buf.length hdr.teid st.pdu_session_info.qos_flow_id]
      unpacked := st.unpacked }

/-- The flag returned by `unpack` is decided by the container alone, whatever the in-out
argument holds. -/
def psup_packing.decided_by_container (psup_packer : psup_packing) : Prop :=
  ∀ i1 i2 container, (psup_packer.unpack i1 container).1 = (psup_packer.unpack i2 container).1

/-- A packer for examples, in place of the absent `psup_packing::unpack`: a container of at
least two bytes whose first byte has the PDU type 0 in its high four bits unpacks, and the QoS
flow id is the low six bits of the second byte. -/
def example_psup_packing : psup_packing where
  unpack := fun info container =>
    match container with
    | b0 :: b1 :: _ => if b0 / 16 = 0 then (true, ⟨b1 % 64⟩) else (false, info)
    | _ => (false, info)

/-- The extension header has the type PDU session container. -/
def gtpu_extension_header.is_pdu_session_container (e : gtpu_extension_header) : Bool :=
  match e.extension_header_type with
  | .pdu_session_container => true
  | _ => false

/-- The extension headers of type PDU session container of an extension list, in order. -/
def pdu_session_containers (exts : List gtpu_extension_header) : List gtpu_extension_header :=
  exts.filter gtpu_extension_header.is_pdu_session_container

/-- A header for examples: TEID 2, an extension header of another type, a PDU session
container of PDU type 1, which `example_psup_packing` does not unpack, and two PDU session
containers of PDU type 0 with the QoS flow ids 7 and 9. -/
def example_gtpu_header : gtpu_header :=
  { teid := 2
    ext_list :=
      [⟨gtpu_extension_header_type.other 32, [0, 0]⟩,
       ⟨gtpu_extension_header_type.pdu_session_container, [16, 5]⟩,
       ⟨gtpu_extension_header_type.pdu_session_container, [0, 7]⟩,
       ⟨gtpu_extension_header_type.pdu_session_container, [0, 9]⟩] }

namespace ether

/-! ## Lemmas on the frame buffer -/

theorem fill_length (l : List Nat) (first value count : Nat) :
    (fill l first value count).length = l.length := by
  induction count generalizing l first with
  | zero => rfl
  | succ n ih => simp [fill, ih]

theorem fill_getElem? (l : List Nat) (first value count i : Nat) :
    (fill l first value count)[i]? =
      if first ≤ i ∧ i < first + count then l[i]?.map (fun _ => value) else l[i]? := by
  induction count generalizing l first with
  | zero => rw [fill, if_neg (by omega)]
  | succ n ih =>
    rw [fill, ih, List.getElem?_set]
    by_cases h1 : first = i
    · subst h1
      have : ¬ (first + 1 ≤ first ∧ first < first + 1 + n) := by omega
      rw [if_neg this]
      by_cases h2 : first < l.length
      · simp [h2]
      · have h3 : l[first]? = none := List.getElem?_eq_none (by omega)
        simp [h2, h3]
    · rw [if_neg h1]
      by_cases h2 : first ≤ i ∧ i < first + (n + 1)
      · have : first + 1 ≤ i ∧ i < first + 1 + n := by omega
        simp [h2, this, List.getElem?_set, h1]
      · have : ¬ (first + 1 ≤ i ∧ i < first + 1 + n) := by omega
        simp [h2, this]

theorem set_size_eq_exec (fb : frame_buffer) (n : Nat) :
    fb.set_size n =
      if (fb.set_size_exec n).2 = true then some (fb.set_size_exec n).1 else none := by
  unfold frame_buffer.set_size frame_buffer.set_size_exec
  by_cases h : n ≤ MAX_ETH_FRAME_LENGTH <;> simp [h]

theorem set_size_some_size (fb fb1 : frame_buffer) (n : Nat) (h : fb.set_size n = some fb1) :
    fb1.sz ≤ MAX_ETH_FRAME_LENGTH ∧ MIN_ETH_FRAME_LENGTH ≤ fb1.sz := by
  unfold frame_buffer.set_size at h
  by_cases h1 : n ≤ MAX_ETH_FRAME_LENGTH
  · simp only [h1, if_true, Option.some.injEq] at h
    subst h
    by_cases h2 : n < MIN_ETH_FRAME_LENGTH
    · simp only [h2, if_true]
      exact ⟨by decide, Nat.le_refl _⟩
    · simp only [h2, if_false]
      exact ⟨h1, by omega⟩
  · simp [h1] at h

theorem frame_buffer_run_size (ops : List buffer_op) (fb0 fb : frame_buffer)
    (h0 : fb0.sz ≤ MAX_ETH_FRAME_LENGTH ∧ (fb0.sz = 0 ∨ MIN_ETH_FRAME_LENGTH ≤ fb0.sz))
    (hr : fb0.run ops = some fb) :
    fb.sz ≤ MAX_ETH_FRAME_LENGTH ∧ (fb.sz = 0 ∨ MIN_ETH_FRAME_LENGTH ≤ fb.sz) := by
  induction ops generalizing fb0 with
  | nil =>
    simp only [frame_buffer.run, Option.some.injEq] at hr
    subst hr
    exact h0
  | cons op ops ih =>
    unfold frame_buffer.run at hr
    cases hst : fb0.step op with
    | none => simp [hst] at hr
    | some fb1 =>
      simp only [hst] at hr
      refine ih fb1 ?_ hr
      cases op with
      | set_size n =>
        obtain ⟨h1, h2⟩ := set_size_some_size fb0 fb1 n hst
        exact ⟨h1, Or.inr h2⟩
      | clear =>
        simp only [frame_buffer.step, Option.some.injEq] at hst
        subst hst
        exact ⟨Nat.zero_le _, Or.inl rfl⟩

/-- A sequence of `clear` and of `set_size` calls within the capacity never fails. -/
theorem frame_buffer_run_succeeds (ops : List buffer_op) (fb0 : frame_buffer)
    (h : ∀ n, buffer_op.set_size n ∈ ops → n ≤ MAX_ETH_FRAME_LENGTH) :
    ∃ fb, fb0.run ops = some fb := by
  induction ops generalizing fb0 with
  | nil => exact ⟨fb0, rfl⟩
  | cons op ops ih =>
    have hstep : ∃ fb1, fb0.step op = some fb1 := by
      cases op with
      | set_size n =>
        have hn : n ≤ MAX_ETH_FRAME_LENGTH := h n (List.mem_cons_self _ _)
        simp only [frame_buffer.step, frame_buffer.set_size, hn, if_true]
        exact ⟨_, rfl⟩
      | clear => exact ⟨_, rfl⟩
    obtain ⟨fb1, h1⟩ := hstep
    obtain ⟨fb, h2⟩ := ih fb1 (fun n hn => h n (List.mem_cons_of_mem _ hn))
    exact ⟨fb, by simp only [frame_buffer.run, h1, h2]⟩

theorem frame_buffer_run_append (l1 l2 : List buffer_op) (fb : frame_buffer) :
    fb.run (l1 ++ l2) = (fb.run l1).bind fun fb1 => fb1.run l2 := by
  induction l1 generalizing fb with
  | nil => rfl
  | cons op l1 ih =>
    simp only [List.cons_append, frame_buffer.run]
    cases fb.step op with
    | none => rfl
    | some fb1 => exact ih fb1

/-! ## Lemmas on the circular array -/

theorem push_buffers_eq (a : frame_buffer_array) (b : span)
    (h : a.ready_frames.length ≤ MAX_NOF_PREPARED_FRAME_BATCHES) :
    a.push_buffers b =
      some { a with ready_frames :=
        if a.ready_frames.length = MAX_NOF_PREPARED_FRAME_BATCHES then [b]
        else a.ready_frames ++ [b] } := by
  unfold frame_buffer_array.push_buffers
  by_cases h2 : a.ready_frames.length = MAX_NOF_PREPARED_FRAME_BATCHES
  · simp [h2, frame_buffer_array.clear_buffers, static_vector.push_back,
      MAX_NOF_PREPARED_FRAME_BATCHES]
  · have h3 : a.ready_frames.length < MAX_NOF_PREPARED_FRAME_BATCHES := by omega
    simp [h2, h3, static_vector.push_back]

theorem push_buffers_ready_length (a a1 : frame_buffer_array) (b : span)
    (h : a.push_buffers b = some a1) :
    a1.ready_frames.length ≤ MAX_NOF_PREPARED_FRAME_BATCHES ∧ a1.buf_array = a.buf_array ∧
      a1.write_position = a.write_position ∧ a1.increment_quant = a.increment_quant := by
  unfold frame_buffer_array.push_buffers at h
  by_cases h2 : a.ready_frames.length = MAX_NOF_PREPARED_FRAME_BATCHES
  · simp [h2, frame_buffer_array.clear_buffers, static_vector.push_back,
      MAX_NOF_PREPARED_FRAME_BATCHES] at h
    subst h
    simp [MAX_NOF_PREPARED_FRAME_BATCHES]
  · simp only [h2, if_false, static_vector.push_back] at h
    by_cases h3 : a.ready_frames.length < MAX_NOF_PREPARED_FRAME_BATCHES
    · simp [h3] at h
      subst h
      simp
      omega
    · simp [h3] at h

theorem get_rd_buffers_eq (a : frame_buffer_array) : a.get_rd_buffers = a.ready_frames := by
  unfold frame_buffer_array.get_rd_buffers
  cases h : a.ready_frames <;> simp

theorem step_ready_length (a a1 : frame_buffer_array) (op : array_op)
    (h : a.ready_frames.length ≤ MAX_NOF_PREPARED_FRAME_BATCHES) (hs : a.step op = some a1) :
    a1.ready_frames.length ≤ MAX_NOF_PREPARED_FRAME_BATCHES := by
  cases op with
  | get_wr_buffers =>
    unfold frame_buffer_array.step frame_buffer_array.get_wr_buffers at hs
    cases hv : a.write_position.value with
    | none => simp [hv] at hs
    | some v =>
      simp [hv] at hs
      subst hs
      exact h
  | push_buffers b => exact (push_buffers_ready_length a a1 b hs).1
  | clear_buffers =>
    simp [frame_buffer_array.step, frame_buffer_array.clear_buffers] at hs
    subst hs
    simp
  | get_rd_buffers =>
    simp [frame_buffer_array.step] at hs
    subst hs
    exact h

theorem run_ready_length (ops : List array_op) (a a1 : frame_buffer_array)
    (h : a.ready_frames.length ≤ MAX_NOF_PREPARED_FRAME_BATCHES) (hr : a.run ops = some a1) :
    a1.ready_frames.length ≤ MAX_NOF_PREPARED_FRAME_BATCHES := by
  induction ops generalizing a with
  | nil =>
    simp [frame_buffer_array.run] at hr
    subst hr
    exact h
  | cons op ops ih =>
    unfold frame_buffer_array.run at hr
    cases hs : a.step op with
    | none => simp [hs] at hr
    | some a2 =>
      simp only [hs] at hr
      exact ih a2 (step_ready_length a a2 op h hs) hr

theorem run_append (l1 l2 : List array_op) (a : frame_buffer_array) :
    a.run (l1 ++ l2) = (a.run l1).bind fun a1 => a1.run l2 := by
  induction l1 generalizing a with
  | nil => rfl
  | cons op l1 ih =>
    simp only [List.cons_append, frame_buffer_array.run]
    cases a.step op with
    | none => rfl
    | some a2 => exact ih a2

theorem after_writes_succ (a : frame_buffer_array) (k : Nat) :
    a.after_writes (k + 1) =
      (a.after_writes k).bind fun a1 => a1.step array_op.get_wr_buffers := by
  unfold frame_buffer_array.after_writes
  rw [List.replicate_succ', run_append]
  cases a.run (List.replicate k array_op.get_wr_buffers) with
  | none => rfl
  | some a1 =>
    simp only [Option.bind, frame_buffer_array.run]
    cases a1.step array_op.get_wr_buffers <;> rfl

/-- Closed form of the state after `k` calls of `get_wr_buffers` on a fresh array: only the
write counter has changed, and it is `k * n_packets` reduced modulo `2 ^ 32`. -/
theorem after_writes_init (c : ofh_constants) (n k : Nat) (hb : (2 * n) % UNSIGNED_MOD ≠ 0) :
    (frame_buffer_array.init c n).after_writes k =
      some { frame_buffer_array.init c n with
        write_position := ⟨(k * n) % UNSIGNED_MOD, (2 * n) % UNSIGNED_MOD⟩ } := by
  induction k with
  | zero =>
    simp [frame_buffer_array.after_writes, frame_buffer_array.run, frame_buffer_array.init,
      rd_wr_counter.init, UNSIGNED_MOD]
  | succ k ih =>
    rw [after_writes_succ, ih]
    simp only [Option.bind, frame_buffer_array.step, frame_buffer_array.get_wr_buffers,
      rd_wr_counter.value, hb, if_false, Option.map, frame_buffer_array.init,
      rd_wr_counter.increment, Nat.mod_add_mod]
    rw [show (k + 1) * n = k * n + n from Nat.succ_mul k n]

/-- Closed form of the call number `k` (counted from 0) of `get_wr_buffers` on a fresh array,
with the 32-bit wrap of the counter: the view starts at `((k * n) % 2 ^ 32) % (2 * n % 2 ^ 32)`. -/
theorem get_wr_buffers_after_writes (c : ofh_constants) (n k : Nat)
    (hb : (2 * n) % UNSIGNED_MOD ≠ 0) :
    ((frame_buffer_array.init c n).after_writes k).bind frame_buffer_array.get_wr_buffers =
      some (⟨((k * n) % UNSIGNED_MOD) % ((2 * n) % UNSIGNED_MOD), n⟩,
        { frame_buffer_array.init c n with
          write_position := ⟨((k + 1) * n) % UNSIGNED_MOD, (2 * n) % UNSIGNED_MOD⟩ }) := by
  rw [after_writes_init c n k hb]
  simp only [Option.bind, frame_buffer_array.get_wr_buffers,
    rd_wr_counter.value, hb, if_false, frame_buffer_array.init,
    rd_wr_counter.increment, Nat.mod_add_mod]
  rw [show (k + 1) * n = k * n + n from Nat.succ_mul k n]

/-- Without overflow the call number `k` returns the view `[(k % 2) * n, (k % 2) * n + n)`. -/
theorem kth_write_view (c : ofh_constants) (n k : Nat) (hn : 1 ≤ n)
    (h2 : 2 * n < UNSIGNED_MOD) (hk : (k + 1) * n < UNSIGNED_MOD) :
    ((frame_buffer_array.init c n).after_writes k).bind frame_buffer_array.get_wr_buffers =
      some (⟨(k % 2) * n, n⟩,
        { frame_buffer_array.init c n with
          write_position := ⟨(k + 1) * n, 2 * n⟩ }) := by
  have hb : (2 * n) % UNSIGNED_MOD ≠ 0 := by
    rw [Nat.mod_eq_of_lt h2]; omega
  have hk0 : k * n < UNSIGNED_MOD := by
    rw [Nat.succ_mul] at hk; omega
  rw [get_wr_buffers_after_writes c n k hb, Nat.mod_eq_of_lt h2, Nat.mod_eq_of_lt hk,
    Nat.mod_eq_of_lt hk0, Nat.mul_mod_mul_right]

/-- Without overflow of the counter, the views of two consecutive calls are disjoint. -/
theorem consecutive_views_disjoint_of_no_overflow (n k : Nat) :
    span.disjoint ⟨(k % 2) * n, n⟩ ⟨((k + 1) % 2) * n, n⟩ := by
  intro i
  rcases Nat.mod_two_eq_zero_or_one k with h | h
  · have h1 : (k + 1) % 2 = 1 := by omega
    simp only [h, h1]
    omega
  · have h1 : (k + 1) % 2 = 0 := by omega
    simp only [h, h1]
    omega

/-- A sequence of operations never fails on an array whose boundary is not zero and whose
ready list respects its capacity. -/
theorem run_succeeds (ops : List array_op) (a : frame_buffer_array)
    (hb : a.write_position.boundary ≠ 0)
    (hr : a.ready_frames.length ≤ MAX_NOF_PREPARED_FRAME_BATCHES) :
    ∃ a1, a.run ops = some a1 := by
  induction ops generalizing a with
  | nil => exact ⟨a, rfl⟩
  | cons op ops ih =>
    have hstep : ∃ a2, a.step op = some a2 ∧ a2.write_position.boundary ≠ 0 := by
      cases op with
      | get_wr_buffers =>
        refine ⟨{ a with write_position := a.write_position.increment a.increment_quant },
          ?_, hb⟩
        simp [frame_buffer_array.step, frame_buffer_array.get_wr_buffers,
          rd_wr_counter.value, hb]
      | push_buffers b => exact ⟨_, push_buffers_eq a b hr, hb⟩
      | clear_buffers => exact ⟨_, rfl, hb⟩
      | get_rd_buffers => exact ⟨_, rfl, hb⟩
    obtain ⟨a2, h2, hb2⟩ := hstep
    obtain ⟨a1, h1⟩ := ih a2 hb2 (step_ready_length a a2 op hr h2)
    exact ⟨a1, by simp only [frame_buffer_array.run, h2, h1]⟩

theorem push_buffers_ready_cases (a a1 : frame_buffer_array) (b : span)
    (h : a.push_buffers b = some a1) :
    a1.ready_frames = [b] ∨ a1.ready_frames = a.ready_frames ++ [b] := by
  unfold frame_buffer_array.push_buffers at h
  by_cases h2 : a.ready_frames.length = MAX_NOF_PREPARED_FRAME_BATCHES
  · simp [h2, frame_buffer_array.clear_buffers, static_vector.push_back,
      MAX_NOF_PREPARED_FRAME_BATCHES] at h
    subst h
    exact Or.inl rfl
  · simp only [h2, if_false, static_vector.push_back] at h
    by_cases h3 : a.ready_frames.length < MAX_NOF_PREPARED_FRAME_BATCHES
    · simp [h3] at h
      subst h
      exact Or.inr rfl
    · simp [h3] at h

theorem get_wr_buffers_ready (a a1 : frame_buffer_array) (s : span)
    (h : a.get_wr_buffers = some (s, a1)) :
    a1.ready_frames = a.ready_frames ∧ a1.buf_array = a.buf_array ∧
      a1.increment_quant = a.increment_quant := by
  unfold frame_buffer_array.get_wr_buffers at h
  cases hv : a.write_position.value with
  | none => simp [hv] at h
  | some v =>
    simp only [hv, Option.some.injEq, Prod.mk.injEq] at h
    obtain ⟨_, h2⟩ := h
    subst h2
    exact ⟨rfl, rfl, rfl⟩

theorem run_pushed (ops : List array_op) (a0 a : frame_buffer_array) (acc : List span)
    (hs : List.IsSuffix a0.ready_frames acc) (hr : a0.run ops = some a) :
    List.IsSuffix a.ready_frames (pushed_since_clear acc ops) := by
  induction ops generalizing a0 acc with
  | nil =>
    simp only [frame_buffer_array.run, Option.some.injEq] at hr
    subst hr
    exact hs
  | cons op ops ih =>
    unfold frame_buffer_array.run at hr
    cases hst : a0.step op with
    | none => simp [hst] at hr
    | some a2 =>
      simp only [hst] at hr
      cases op with
      | get_wr_buffers =>
        simp only [frame_buffer_array.step, Option.map_eq_some'] at hst
        obtain ⟨⟨s, a3⟩, h1, h2⟩ := hst
        simp only at h2
        subst h2
        rw [pushed_since_clear]
        exact ih a3 acc (by rw [(get_wr_buffers_ready a0 a3 s h1).1]; exact hs) hr
      | push_buffers b =>
        rw [pushed_since_clear]
        refine ih a2 (acc ++ [b]) ?_ hr
        rcases push_buffers_ready_cases a0 a2 b hst with h1 | h1
        · rw [h1]
          exact List.suffix_append acc [b]
        · rw [h1]
          obtain ⟨t, ht⟩ := hs
          exact ⟨t, by rw [← List.append_assoc, ht]⟩
      | clear_buffers =>
        simp only [frame_buffer_array.step, Option.some.injEq] at hst
        subst hst
        rw [pushed_since_clear]
        exact ih _ [] List.nil_suffix hr
      | get_rd_buffers =>
        simp only [frame_buffer_array.step, Option.some.injEq] at hst
        subst hst
        rw [pushed_since_clear]
        exact ih _ acc hs hr

theorem count_writes_append (l1 l2 : List array_op) :
    count_writes (l1 ++ l2) = count_writes l1 + count_writes l2 := by
  induction l1 with
  | nil => simp [count_writes]
  | cons op l1 ih =>
    cases op <;> simp only [List.cons_append, count_writes, List.append_eq, ih]
    omega

/-- The write counter after a sequence of operations: every `get_wr_buffers` adds the
increment modulo `2 ^ 32`, no other operation touches it; the storage is not touched. -/
theorem run_write_position (ops : List array_op) (a0 a : frame_buffer_array)
    (h0 : a0.write_position.count < UNSIGNED_MOD) (hr : a0.run ops = some a) :
    a.write_position =
        ⟨(a0.write_position.count + count_writes ops * a0.increment_quant) % UNSIGNED_MOD,
          a0.write_position.boundary⟩ ∧
      a.increment_quant = a0.increment_quant ∧ a.buf_array = a0.buf_array := by
  induction ops generalizing a0 with
  | nil =>
    simp only [frame_buffer_array.run, Option.some.injEq] at hr
    subst hr
    simp only [count_writes, Nat.zero_mul, Nat.add_zero, Nat.mod_eq_of_lt h0, and_self, and_true]
  | cons op ops ih =>
    unfold frame_buffer_array.run at hr
    cases hst : a0.step op with
    | none => simp [hst] at hr
    | some a2 =>
      simp only [hst] at hr
      cases op with
      | get_wr_buffers =>
        simp only [frame_buffer_array.step, frame_buffer_array.get_wr_buffers,
          Option.map_eq_some'] at hst
        obtain ⟨⟨s, a3⟩, h1, h2⟩ := hst
        simp only at h2
        subst h2
        cases hv : a0.write_position.value with
        | none => simp [hv] at h1
        | some v =>
          simp only [hv, Option.some.injEq, Prod.mk.injEq] at h1
          obtain ⟨_, h3⟩ := h1
          subst h3
          obtain ⟨i1, i2, i3⟩ := ih _ (Nat.mod_lt _ (by decide)) hr
          refine ⟨?_, i2, i3⟩
          rw [i1]
          simp only [rd_wr_counter.increment, count_writes, Nat.mod_add_mod]
          rw [Nat.succ_mul]
          congr 2
          omega
      | push_buffers b =>
        obtain ⟨_, h2, h3, h4⟩ := push_buffers_ready_length a0 a2 b hst
        obtain ⟨i1, i2, i3⟩ := ih a2 (by rw [h3]; exact h0) hr
        rw [h3, h4] at i1
        exact ⟨i1, i2.trans h4, i3.trans h2⟩
      | clear_buffers =>
        simp only [frame_buffer_array.step, Option.some.injEq] at hst
        subst hst
        exact ih a0.clear_buffers h0 hr
      | get_rd_buffers =>
        simp only [frame_buffer_array.step, Option.some.injEq] at hst
        subst hst
        exact ih a0 h0 hr

/-- The ready list after a series of pushes on an empty ready list. -/
theorem run_pushes (a : frame_buffer_array) (h : a.ready_frames = []) (bs : List span) :
    ∃ a1, a.run (bs.map array_op.push_buffers) = some a1 ∧
      a1.ready_frames =
        if bs.length = 0 then []
        else bs.drop (bs.length - (if bs.length % 2 = 0 then 2 else 1)) := by
  induction bs using List.reverseRecOn with
  | nil => exact ⟨a, rfl, by simp [h]⟩
  | append_singleton bs b ih =>
    obtain ⟨a1, hr, hready⟩ := ih
    have hlen : a1.ready_frames.length ≤ MAX_NOF_PREPARED_FRAME_BATCHES := by
      rw [hready]
      simp only [MAX_NOF_PREPARED_FRAME_BATCHES]
      by_cases h0 : bs.length = 0
      · simp [h0]
      · rw [if_neg h0, List.length_drop]
        by_cases hev : bs.length % 2 = 0
        · rw [if_pos hev]; omega
        · rw [if_neg hev]; omega
    obtain ⟨a2, hpush, hr2⟩ : ∃ a2, a1.push_buffers b = some a2 ∧
        a2.ready_frames = if a1.ready_frames.length = MAX_NOF_PREPARED_FRAME_BATCHES then [b]
          else a1.ready_frames ++ [b] := ⟨_, push_buffers_eq a1 b hlen, rfl⟩
    refine ⟨a2, ?_, ?_⟩
    · rw [List.map_append, run_append, hr]
      simp only [Option.bind, List.map, frame_buffer_array.run, frame_buffer_array.step, hpush]
    · simp only [List.length_append, List.length_singleton]
      have hne : ¬ (bs.length + 1 = 0) := by omega
      rw [if_neg hne]
      by_cases h0 : bs.length = 0
      · have hnil : bs = [] := List.length_eq_zero.mp h0
        subst hnil
        rw [hr2]
        simp [hready, MAX_NOF_PREPARED_FRAME_BATCHES]
      · rw [if_neg h0] at hready
        by_cases hev : bs.length % 2 = 0
        · rw [if_pos hev] at hready
          have h1 : a1.ready_frames.length = MAX_NOF_PREPARED_FRAME_BATCHES := by
            rw [hready]
            simp only [List.length_drop, MAX_NOF_PREPARED_FRAME_BATCHES]
            omega
          have hodd : ¬ ((bs.length + 1) % 2 = 0) := by omega
          rw [hr2, if_pos h1, if_neg hodd]
          have h2 : bs.length + 1 - 1 = bs.length := by omega
          rw [h2, List.drop_left]
        · rw [if_neg hev] at hready
          have h1 : a1.ready_frames.length ≠ MAX_NOF_PREPARED_FRAME_BATCHES := by
            rw [hready]
            simp only [List.length_drop, MAX_NOF_PREPARED_FRAME_BATCHES]
            omega
          have hevn : (bs.length + 1) % 2 = 0 := by omega
          rw [hr2, if_neg h1, if_pos hevn, hready]
          have h2 : bs.length + 1 - 2 = bs.length - 1 := by omega
          rw [h2, List.drop_append_of_le_length (by omega)]

/-! ## Lemmas on the pool -/

theorem sym_index_lt (slot : slot_point) (symbol : Nat) : sym_index slot symbol < NUM_ENTRIES :=
  Nat.mod_lt _ (by decide)

theorem toNat_lt (type : message_type) : type.toNat < POOL_ENTRY_SIZE := by
  cases type <;> decide

theorem frame_buffer_init_wf : frame_buffer.init.wf := by
  simp [frame_buffer.wf, frame_buffer.init]

theorem frame_buffer_array_init_wf (c : ofh_constants) (n : Nat) :
    (frame_buffer_array.init c n).wf c := by
  refine ⟨by simp [frame_buffer_array.init], ?_, by simp [frame_buffer_array.init]⟩
  intro fb hfb
  simp only [frame_buffer_array.init] at hfb
  rw [List.eq_of_mem_replicate hfb]
  exact frame_buffer_init_wf

theorem pool_entry_init_wf (c : ofh_constants) : (pool_entry.init c).wf c := by
  refine ⟨rfl, ?_⟩
  intro a ha
  simp only [pool_entry.init, List.mem_cons, List.mem_singleton, List.not_mem_nil, or_false] at ha
  rcases ha with h | h <;> subst h <;> exact frame_buffer_array_init_wf c _

theorem eth_frame_pool_init_wf (c : ofh_constants) : (eth_frame_pool.init c).wf c := by
  refine ⟨by simp [eth_frame_pool.init], ?_⟩
  intro e he
  simp only [eth_frame_pool.init] at he
  rw [List.eq_of_mem_replicate he]
  exact pool_entry_init_wf c

theorem wf_get_pool_entry (c : ofh_constants) (p : eth_frame_pool) (hwf : p.wf c)
    (slot : slot_point) (symbol : Nat) :
    ∃ e, p.get_pool_entry slot symbol = some e ∧ e.wf c := by
  have hlt : sym_index slot symbol < p.pool.length := by
    rw [hwf.1]
    exact sym_index_lt slot symbol
  refine ⟨p.pool[sym_index slot symbol], ?_, hwf.2 _ (List.getElem_mem hlt)⟩
  simp [eth_frame_pool.get_pool_entry, hlt]

theorem wf_get_ofh_type_buffers (c : ofh_constants) (e : pool_entry) (hwf : e.wf c)
    (type : message_type) :
    ∃ a, e.get_ofh_type_buffers type = some a ∧ a.wf c := by
  have hlt : type.toNat < e.buffers.length := by
    rw [hwf.1]
    exact toNat_lt type
  refine ⟨e.buffers[type.toNat], ?_, hwf.2 _ (List.getElem_mem hlt)⟩
  simp [pool_entry.get_ofh_type_buffers, hlt]

theorem read_frame_buffers_set (p : eth_frame_pool) (e : pool_entry) (a1 : frame_buffer_array)
    (slot : slot_point) (symbol : Nat) (type : message_type)
    (hp : sym_index slot symbol < p.pool.length) (he : type.toNat < e.buffers.length) :
    eth_frame_pool.read_frame_buffers
        (eth_frame_pool.mk (p.pool.set (sym_index slot symbol)
          (pool_entry.mk (e.buffers.set type.toNat a1)))) slot symbol type
      = some a1.ready_frames := by
  simp [eth_frame_pool.read_frame_buffers, eth_frame_pool.get_pool_entry, hp,
    pool_entry.get_read_buffers, pool_entry.get_ofh_type_buffers, he, get_rd_buffers_eq]

theorem clear_each_spec (bufs : List frame_buffer) (first count : Nat)
    (h : first + count ≤ bufs.length) :
    ∃ r, clear_each bufs first count = some r ∧ r.length = bufs.length ∧
      ∀ i, r[i]? =
        if first ≤ i ∧ i < first + count then bufs[i]?.map frame_buffer.clear else bufs[i]? := by
  induction count generalizing bufs first with
  | zero =>
    refine ⟨bufs, rfl, rfl, ?_⟩
    intro i
    rw [if_neg (by omega)]
  | succ n ih =>
    have hlt : first < bufs.length := by omega
    obtain ⟨r, hr, hlen, hget⟩ := ih (bufs.set first bufs[first].clear) (first + 1)
      (by rw [List.length_set]; omega)
    refine ⟨r, ?_, by rw [hlen, List.length_set], ?_⟩
    · rw [clear_each, List.getElem?_eq_getElem hlt]
      exact hr
    · intro i
      rw [hget i]
      by_cases h1 : first = i
      · subst h1
        rw [if_neg (by omega), if_pos (by omega), List.getElem?_set_self hlt,
          List.getElem?_eq_getElem hlt]
        rfl
      · rw [List.getElem?_set_ne h1]
        by_cases h2 : first ≤ i ∧ i < first + (n + 1)
        · rw [if_pos h2, if_pos (by omega)]
        · rw [if_neg h2, if_neg (by omega)]

theorem get_wr_buffers_configured (n : Nat) (a : frame_buffer_array) (h : a.configured n) :
    ∃ v, a.get_wr_buffers =
        some (⟨v, n⟩, { a with write_position := a.write_position.increment n }) ∧
      v + n ≤ 2 * n := by
  obtain ⟨h1, _, hq, hb, hc⟩ := h
  refine ⟨a.write_position.count % (2 * n), ?_, ?_⟩
  · have hn0 : n ≠ 0 := by omega
    simp [frame_buffer_array.get_wr_buffers, rd_wr_counter.value, hn0, hq, hb]
  · obtain ⟨q, hq2⟩ := Nat.dvd_of_mod_eq_zero hc
    have h3 : a.write_position.count % (2 * n) = n * (q % 2) := by
      rw [hq2, Nat.mul_comm 2 n, Nat.mul_mod_mul_left]
    have h4 : q % 2 < 2 := Nat.mod_lt _ (by decide)
    have h5 : n * (q % 2) ≤ n * 1 := Nat.mul_le_mul_left n (by omega)
    omega

theorem two_capacity_le (c : ofh_constants) (type : message_type) :
    2 * capacity c type ≤ MAX_ETH_FRAMES_PER_SYMBOL c := by
  cases type <;> simp only [capacity, MAX_ETH_FRAMES_PER_SYMBOL] <;> omega

theorem pool_entry_get_write_buffers_cleared (c : ofh_constants) (e : pool_entry)
    (hwf : e.wf c) (hcfg : e.configured c) (type : message_type) :
    ∃ buffs e1 a1, e.get_write_buffers type = some (buffs, e1) ∧
      buffs.size = capacity c type ∧
      e1.get_ofh_type_buffers type = some a1 ∧
      ∀ i, buffs.data ≤ i → i < buffs.data + buffs.size →
        ∃ fb, a1.buf_array[i]? = some fb ∧ fb.size = 0 ∧ fb.empty = true := by
  obtain ⟨a, ha, hawf⟩ := wf_get_ofh_type_buffers c e hwf type
  have hb : type.toNat < e.buffers.length := by
    rw [hwf.1]; exact toNat_lt type
  obtain ⟨v, hv, hle⟩ := get_wr_buffers_configured _ a (hcfg type a ha)
  have hin : v + capacity c type ≤ a.buf_array.length := by
    rw [hawf.1]
    have := two_capacity_le c type
    omega
  obtain ⟨r, hr, hlen, hget⟩ := clear_each_spec a.buf_array v (capacity c type) hin
  refine ⟨⟨v, capacity c type⟩, pool_entry.mk (e.buffers.set type.toNat
      { a with write_position := a.write_position.increment (capacity c type), buf_array := r }),
    { a with write_position := a.write_position.increment (capacity c type), buf_array := r },
    ?_, rfl, ?_, ?_⟩
  · simp only [pool_entry.get_write_buffers, ha, hv, hr]
  · simp [pool_entry.get_ofh_type_buffers, hb]
  · intro i h1 h2
    have hi : i < a.buf_array.length := by
      simp only at h2
      omega
    refine ⟨(a.buf_array[i]).clear, ?_, rfl, rfl⟩
    simp only at h1 h2
    simp only [hget i]
    rw [if_pos ⟨h1, h2⟩, List.getElem?_eq_getElem hi]
    rfl

theorem frame_buffer_array_init_configured (c : ofh_constants) (n : Nat) (hn : 1 ≤ n)
    (h2 : 2 * n < UNSIGNED_MOD) : (frame_buffer_array.init c n).configured n := by
  refine ⟨hn, h2, rfl, ?_, ?_⟩
  · simp only [frame_buffer_array.init, rd_wr_counter.init]
    exact Nat.mod_eq_of_lt h2
  · simp [frame_buffer_array.init, rd_wr_counter.init]

theorem eth_frame_pool_init_configured (c : ofh_constants)
    (hcp : 1 ≤ c.MAX_CP_MESSAGES_PER_SYMBOL) (hup : 1 ≤ c.MAX_UP_MESSAGES_PER_SYMBOL)
    (hcp2 : 2 * c.MAX_CP_MESSAGES_PER_SYMBOL < UNSIGNED_MOD)
    (hup2 : 2 * c.MAX_UP_MESSAGES_PER_SYMBOL < UNSIGNED_MOD) :
    (eth_frame_pool.init c).configured c := by
  intro e he
  simp only [eth_frame_pool.init] at he
  rw [List.eq_of_mem_replicate he]
  intro type a ha
  cases type with
  | control_plane =>
    simp [pool_entry.get_ofh_type_buffers, pool_entry.init, message_type.toNat] at ha
    subst ha
    exact frame_buffer_array_init_configured c _ hcp hcp2
  | user_plane =>
    simp [pool_entry.get_ofh_type_buffers, pool_entry.init, message_type.toNat] at ha
    subst ha
    exact frame_buffer_array_init_configured c _ hup hup2

/-! ## The array of a coordinate and the shape of the pool after an operation -/

theorem array_at_eq (p : eth_frame_pool) (slot : slot_point) (symbol : Nat)
    (type : message_type) :
    p.array_at slot symbol type =
      (p.pool[sym_index slot symbol]?).bind fun e => e.buffers[type.toNat]? := by
  unfold eth_frame_pool.array_at eth_frame_pool.get_pool_entry
  cases p.pool[sym_index slot symbol]? <;> rfl

theorem read_frame_buffers_eq (p : eth_frame_pool) (slot : slot_point) (symbol : Nat)
    (type : message_type) :
    p.read_frame_buffers slot symbol type =
      (p.array_at slot symbol type).map fun a => a.ready_frames := by
  unfold eth_frame_pool.read_frame_buffers eth_frame_pool.array_at
  cases p.get_pool_entry slot symbol with
  | none => rfl
  | some e =>
    simp only [pool_entry.get_read_buffers]
    cases e.get_ofh_type_buffers type with
    | none => rfl
    | some a => simp [get_rd_buffers_eq]

theorem toNat_injective (t1 t2 : message_type) (h : t1.toNat = t2.toNat) : t1 = t2 := by
  cases t1 <;> cases t2 <;> simp [message_type.toNat] at h <;> rfl

/-- The array of a coordinate after the array `type1` of the entry `index` was replaced. -/
theorem array_at_set (p : eth_frame_pool) (e : pool_entry) (a a1 : frame_buffer_array)
    (slot1 : slot_point) (symbol1 : Nat) (type1 : message_type)
    (he : p.pool[sym_index slot1 symbol1]? = some e) (ha : e.buffers[type1.toNat]? = some a)
    (slot : slot_point) (symbol : Nat) (type : message_type) :
    (eth_frame_pool.mk (p.pool.set (sym_index slot1 symbol1)
        (pool_entry.mk (e.buffers.set type1.toNat a1)))).array_at slot symbol type =
      if sym_index slot symbol = sym_index slot1 symbol1 ∧ type = type1 then some a1
      else p.array_at slot symbol type := by
  obtain ⟨hp, _⟩ := List.getElem?_eq_some.mp he
  obtain ⟨ht, _⟩ := List.getElem?_eq_some.mp ha
  rw [array_at_eq, array_at_eq]
  by_cases h1 : sym_index slot symbol = sym_index slot1 symbol1
  · rw [h1]
    simp only [List.getElem?_set_self hp, Option.bind, he]
    by_cases h2 : type = type1
    · subst h2
      simp only [List.getElem?_set_self ht, and_self, if_true]
    · have h3 : type1.toNat ≠ type.toNat := fun h => h2 (toNat_injective _ _ h.symm)
      simp only [List.getElem?_set_ne h3, h2, and_false, if_false]
  · have h3 : sym_index slot1 symbol1 ≠ sym_index slot symbol := fun h => h1 h.symm
    simp only [List.getElem?_set_ne h3, h1, false_and, if_false]

theorem eth_frames_ready_shape (p p1 : eth_frame_pool) (slot : slot_point) (symbol : Nat)
    (type : message_type) (b : span) (h : p.eth_frames_ready slot symbol type b = some p1) :
    ∃ e a a1, p.pool[sym_index slot symbol]? = some e ∧ e.buffers[type.toNat]? = some a ∧
      a.push_buffers b = some a1 ∧
      p1 = eth_frame_pool.mk (p.pool.set (sym_index slot symbol)
        (pool_entry.mk (e.buffers.set type.toNat a1))) := by
  unfold eth_frame_pool.eth_frames_ready eth_frame_pool.get_pool_entry at h
  cases he : p.pool[sym_index slot symbol]? with
  | none => simp [he] at h
  | some e =>
    simp only [he, pool_entry.push_buffers, pool_entry.get_ofh_type_buffers] at h
    cases ha : e.buffers[type.toNat]? with
    | none => simp [ha] at h
    | some a =>
      simp only [ha] at h
      cases hp : a.push_buffers b with
      | none => simp [hp] at h
      | some a1 =>
        simp only [hp, Option.some.injEq] at h
        exact ⟨e, a, a1, rfl, ha, hp, h.symm⟩

theorem eth_frames_sent_shape (p p1 : eth_frame_pool) (slot : slot_point) (symbol : Nat)
    (type : message_type) (h : p.eth_frames_sent slot symbol type = some p1) :
    ∃ e a, p.pool[sym_index slot symbol]? = some e ∧ e.buffers[type.toNat]? = some a ∧
      p1 = eth_frame_pool.mk (p.pool.set (sym_index slot symbol)
        (pool_entry.mk (e.buffers.set type.toNat a.clear_buffers))) := by
  unfold eth_frame_pool.eth_frames_sent eth_frame_pool.get_pool_entry at h
  cases he : p.pool[sym_index slot symbol]? with
  | none => simp [he] at h
  | some e =>
    simp only [he, pool_entry.clear_buffers, pool_entry.get_ofh_type_buffers] at h
    cases ha : e.buffers[type.toNat]? with
    | none => simp [ha] at h
    | some a =>
      simp only [ha, Option.some.injEq] at h
      exact ⟨e, a, rfl, ha, h.symm⟩

theorem get_frame_buffers_shape (p p1 : eth_frame_pool) (slot : slot_point) (symbol : Nat)
    (type : message_type) (s : span) (h : p.get_frame_buffers slot symbol type = some (s, p1)) :
    ∃ e a v r, p.pool[sym_index slot symbol]? = some e ∧ e.buffers[type.toNat]? = some a ∧
      a.write_position.value = some v ∧
      clear_each a.buf_array v a.increment_quant = some r ∧
      s = ⟨v, a.increment_quant⟩ ∧
      p1 = eth_frame_pool.mk (p.pool.set (sym_index slot symbol)
        (pool_entry.mk (e.buffers.set type.toNat
          (frame_buffer_array.mk r a.ready_frames
            (a.write_position.increment a.increment_quant) a.increment_quant)))) := by
  unfold eth_frame_pool.get_frame_buffers eth_frame_pool.get_pool_entry at h
  cases he : p.pool[sym_index slot symbol]? with
  | none => simp [he] at h
  | some e =>
    simp only [he, pool_entry.get_write_buffers, pool_entry.get_ofh_type_buffers] at h
    cases ha : e.buffers[type.toNat]? with
    | none => simp [ha] at h
    | some a =>
      simp only [ha, frame_buffer_array.get_wr_buffers] at h
      cases hv : a.write_position.value with
      | none => simp [hv] at h
      | some v =>
        simp only [hv] at h
        cases hc : clear_each a.buf_array v a.increment_quant with
        | none => simp [hc] at h
        | some r =>
          simp only [hc, Option.some.injEq, Prod.mk.injEq] at h
          exact ⟨e, a, v, r, rfl, ha, hv, hc, h.1.symm, h.2.symm⟩

theorem array_at_init (c : ofh_constants) (slot : slot_point) (symbol : Nat)
    (type : message_type) :
    (eth_frame_pool.init c).array_at slot symbol type =
      some (frame_buffer_array.init c (capacity c type)) := by
  rw [array_at_eq]
  simp only [eth_frame_pool.init, List.getElem?_replicate_of_lt (sym_index_lt slot symbol),
    Option.bind, pool_entry.init]
  cases type <;> rfl

theorem step_ready_empty (p p1 : eth_frame_pool) (op : pool_op) (h : p.step op = some p1)
    (slot : slot_point) (symbol : Nat) (type : message_type)
    (hnp : op.publishes_to (sym_index slot symbol) type = false)
    (a : frame_buffer_array) (ha : p.array_at slot symbol type = some a)
    (hempty : a.ready_frames = []) :
    ∃ a1, p1.array_at slot symbol type = some a1 ∧ a1.ready_frames = [] := by
  cases op with
  | get_frame_buffers slot1 symbol1 type1 =>
    simp only [eth_frame_pool.step, Option.map_eq_some'] at h
    obtain ⟨⟨s, p2⟩, h1, h2⟩ := h
    simp only at h2
    subst h2
    obtain ⟨e, a0, v, r, he, ha0, _, _, _, hp⟩ := get_frame_buffers_shape p p2 _ _ _ s h1
    rw [hp, array_at_set p e a0 _ slot1 symbol1 type1 he ha0]
    by_cases hc : sym_index slot symbol = sym_index slot1 symbol1 ∧ type = type1
    · rw [if_pos hc]
      refine ⟨_, rfl, ?_⟩
      have h3 : p.array_at slot symbol type = some a0 := by
        rw [array_at_eq, hc.1, hc.2, he]
        exact ha0
      rw [ha] at h3
      simp only [Option.some.injEq] at h3
      rw [← h3]
      exact hempty
    · rw [if_neg hc]
      exact ⟨a, ha, hempty⟩
  | eth_frames_ready slot1 symbol1 type1 b =>
    simp only [eth_frame_pool.step] at h
    obtain ⟨e, a0, a1, he, ha0, _, hp⟩ := eth_frames_ready_shape p p1 _ _ _ b h
    rw [hp, array_at_set p e a0 _ slot1 symbol1 type1 he ha0]
    have hc : ¬ (sym_index slot symbol = sym_index slot1 symbol1 ∧ type = type1) := by
      rintro ⟨h1, h2⟩
      simp [pool_op.publishes_to, h1, h2] at hnp
    rw [if_neg hc]
    exact ⟨a, ha, hempty⟩
  | read_frame_buffers slot1 symbol1 type1 =>
    simp only [eth_frame_pool.step, Option.map_eq_some'] at h
    obtain ⟨_, _, h2⟩ := h
    subst h2
    exact ⟨a, ha, hempty⟩
  | eth_frames_sent slot1 symbol1 type1 =>
    simp only [eth_frame_pool.step] at h
    obtain ⟨e, a0, he, ha0, hp⟩ := eth_frames_sent_shape p p1 _ _ _ h
    rw [hp, array_at_set p e a0 _ slot1 symbol1 type1 he ha0]
    by_cases hc : sym_index slot symbol = sym_index slot1 symbol1 ∧ type = type1
    · rw [if_pos hc]
      exact ⟨_, rfl, rfl⟩
    · rw [if_neg hc]
      exact ⟨a, ha, hempty⟩

theorem run_ready_empty (ops : List pool_op) (p p1 : eth_frame_pool)
    (slot : slot_point) (symbol : Nat) (type : message_type)
    (hops : ∀ op ∈ ops, op.publishes_to (sym_index slot symbol) type = false)
    (hr : p.run ops = some p1)
    (a : frame_buffer_array) (ha : p.array_at slot symbol type = some a)
    (hempty : a.ready_frames = []) :
    ∃ a1, p1.array_at slot symbol type = some a1 ∧ a1.ready_frames = [] := by
  induction ops generalizing p a with
  | nil =>
    simp only [eth_frame_pool.run, Option.some.injEq] at hr
    subst hr
    exact ⟨a, ha, hempty⟩
  | cons op ops ih =>
    unfold eth_frame_pool.run at hr
    cases hst : p.step op with
    | none => simp [hst] at hr
    | some p2 =>
      simp only [hst] at hr
      obtain ⟨a2, ha2, he2⟩ := step_ready_empty p p2 op hst slot symbol type
        (hops op (List.mem_cons_self op ops)) a ha hempty
      exact ih p2 (fun o ho => hops o (List.mem_cons_of_mem op ho)) hr a2 ha2 he2

theorem sym_index_add_mul (slot1 slot2 : slot_point) (symbol1 symbol2 m : Nat)
    (h : slot2.slot_index * 14 + symbol2 = slot1.slot_index * 14 + symbol1 + 280 * m) :
    sym_index slot1 symbol1 = sym_index slot2 symbol2 := by
  simp only [sym_index, NOF_OFDM_SYM_PER_SLOT_NORMAL_CP, NUM_ENTRIES]
  rw [h]
  exact (Nat.add_mul_mod_self_left _ _ _).symm

theorem read_frame_buffers_congr (p : eth_frame_pool) (slot1 slot2 : slot_point)
    (symbol1 symbol2 : Nat) (type : message_type)
    (h : sym_index slot1 symbol1 = sym_index slot2 symbol2) :
    p.read_frame_buffers slot1 symbol1 type = p.read_frame_buffers slot2 symbol2 type := by
  simp only [eth_frame_pool.read_frame_buffers, eth_frame_pool.get_pool_entry, h]

theorem eth_frames_ready_array_at (c : ofh_constants) (p : eth_frame_pool) (hwf : p.wf c)
    (slot : slot_point) (symbol : Nat) (type : message_type) (b : span) :
    ∃ p1 a a1, p.eth_frames_ready slot symbol type b = some p1 ∧
      p.array_at slot symbol type = some a ∧ a.push_buffers b = some a1 ∧
      p1.array_at slot symbol type = some a1 := by
  obtain ⟨e, he, hewf⟩ := wf_get_pool_entry c p hwf slot symbol
  obtain ⟨a, ha, hawf⟩ := wf_get_ofh_type_buffers c e hewf type
  obtain ⟨a1, hpush⟩ : ∃ a1, a.push_buffers b = some a1 := ⟨_, push_buffers_eq a b hawf.2.2⟩
  refine ⟨eth_frame_pool.mk (p.pool.set (sym_index slot symbol)
      (pool_entry.mk (e.buffers.set type.toNat a1))), a, a1, ?_, ?_, hpush, ?_⟩
  · simp only [eth_frame_pool.eth_frames_ready, he, pool_entry.push_buffers, ha, hpush]
  · simp only [eth_frame_pool.array_at, he, ha]
  · rw [array_at_set p e a a1 slot symbol type he ha]
    simp

theorem get_wr_buffers_configured_value (n : Nat) (a : frame_buffer_array)
    (h : a.configured n) :
    a.get_wr_buffers =
        some (⟨a.write_position.count % (2 * n), n⟩,
          { a with write_position := a.write_position.increment n }) ∧
      a.write_position.count % (2 * n) + n ≤ 2 * n := by
  obtain ⟨h1, _, hq, hb, hc⟩ := h
  constructor
  · have hn0 : n ≠ 0 := by omega
    simp [frame_buffer_array.get_wr_buffers, rd_wr_counter.value, hn0, hq, hb]
  · obtain ⟨q, hq2⟩ := Nat.dvd_of_mod_eq_zero hc
    have h3 : a.write_position.count % (2 * n) = n * (q % 2) := by
      rw [hq2, Nat.mul_comm 2 n, Nat.mul_mod_mul_left]
    have h4 : q % 2 < 2 := Nat.mod_lt _ (by decide)
    have h5 : n * (q % 2) ≤ n * 1 := Nat.mul_le_mul_left n (by omega)
    omega

/-- The write counter stays a multiple of the increment across `get_wr_buffers` as long as
the addition does not wrap, and across the wrap when the increment divides `2 ^ 32`. -/
theorem get_wr_buffers_keeps_configured (n : Nat) (a a1 : frame_buffer_array) (s : span)
    (h : a.configured n)
    (hno : a.write_position.count + n < UNSIGNED_MOD ∨ n ∣ UNSIGNED_MOD)
    (hw : a.get_wr_buffers = some (s, a1)) : a1.configured n := by
  obtain ⟨hv, _⟩ := get_wr_buffers_configured_value n a h
  rw [hv] at hw
  simp only [Option.some.injEq, Prod.mk.injEq] at hw
  obtain ⟨_, ha1⟩ := hw
  subst ha1
  obtain ⟨h1, h2, hq, hb, hc⟩ := h
  refine ⟨h1, h2, hq, hb, ?_⟩
  simp only [rd_wr_counter.increment]
  rcases hno with hlt | hdvd
  · rw [Nat.mod_eq_of_lt hlt, Nat.add_mod, hc]
    simp
  · rw [Nat.mod_mod_of_dvd _ hdvd, Nat.add_mod, hc]
    simp

/-- Publishing a batch keeps the array configured: the write counter does not move. -/
theorem push_buffers_keeps_configured (n : Nat) (a a1 : frame_buffer_array) (b : span)
    (h : a.configured n) (hp : a.push_buffers b = some a1) : a1.configured n := by
  obtain ⟨_, _, h3, h4⟩ := push_buffers_ready_length a a1 b hp
  obtain ⟨h1, h2, hq, hb, hc⟩ := h
  exact ⟨h1, h2, by rw [h4]; exact hq, by rw [h3]; exact hb, by rw [h3]; exact hc⟩

/-- Clearing the ready list keeps the array configured. -/
theorem clear_buffers_keeps_configured (n : Nat) (a : frame_buffer_array)
    (h : a.configured n) : a.clear_buffers.configured n := h

/-- Publishing a batch for a coordinate does not move the write cursor of the coordinate. -/
theorem same_cursor_eth_frames_ready (p p1 : eth_frame_pool) (slot : slot_point) (symbol : Nat)
    (type : message_type) (b : span) (h : p.eth_frames_ready slot symbol type b = some p1) :
    same_cursor p p1 slot symbol type := by
  obtain ⟨e, a, a1, he, ha, hpush, hp⟩ := eth_frames_ready_shape p p1 slot symbol type b h
  obtain ⟨_, _, h3, h4⟩ := push_buffers_ready_length a a1 b hpush
  refine ⟨a, a1, ?_, ?_, h3, h4⟩
  · rw [array_at_eq, he]
    exact ha
  · rw [hp, array_at_set p e a a1 slot symbol type he ha]
    simp only [and_self, if_true]

/-- Clearing the ready batches of a coordinate does not move its write cursor. -/
theorem same_cursor_eth_frames_sent (p p1 : eth_frame_pool) (slot : slot_point) (symbol : Nat)
    (type : message_type) (h : p.eth_frames_sent slot symbol type = some p1) :
    same_cursor p p1 slot symbol type := by
  obtain ⟨e, a, he, ha, hp⟩ := eth_frames_sent_shape p p1 slot symbol type h
  refine ⟨a, a.clear_buffers, ?_, ?_, rfl, rfl⟩
  · rw [array_at_eq, he]
    exact ha
  · rw [hp, array_at_set p e a _ slot symbol type he ha]
    simp only [and_self, if_true]

/-- The producer filling a buffer of a coordinate does not move its write cursor. -/
theorem same_cursor_producer_set_size (p p1 : eth_frame_pool) (slot : slot_point)
    (symbol : Nat) (type : message_type) (i new_size : Nat)
    (h : p.producer_set_size slot symbol type i new_size = some p1) :
    same_cursor p p1 slot symbol type := by
  unfold eth_frame_pool.producer_set_size eth_frame_pool.get_pool_entry at h
  cases he : p.pool[sym_index slot symbol]? with
  | none => simp [he] at h
  | some e =>
    simp only [he, pool_entry.get_ofh_type_buffers] at h
    cases ha : e.buffers[type.toNat]? with
    | none => simp [ha] at h
    | some a =>
      simp only [ha] at h
      cases hb : a.buf_array[i]? with
      | none => simp [hb] at h
      | some fb =>
        simp only [hb] at h
        cases hs : fb.set_size new_size with
        | none => simp [hs] at h
        | some fb1 =>
          simp only [hs, Option.some.injEq] at h
          refine ⟨a, { a with buf_array := a.buf_array.set i fb1 }, ?_, ?_, rfl, rfl⟩
          · rw [array_at_eq, he]
            exact ha
          · rw [← h, array_at_set p e a _ slot symbol type he ha]
            simp only [and_self, if_true]

theorem same_cursor_trans (p1 p2 p3 : eth_frame_pool) (slot : slot_point) (symbol : Nat)
    (type : message_type) (h12 : same_cursor p1 p2 slot symbol type)
    (h23 : same_cursor p2 p3 slot symbol type) : same_cursor p1 p3 slot symbol type := by
  obtain ⟨a1, a2, h1, h2, hw, hq⟩ := h12
  obtain ⟨b2, a3, h2b, h3, hw3, hq3⟩ := h23
  rw [h2] at h2b
  simp only [Option.some.injEq] at h2b
  subst h2b
  exact ⟨a1, a3, h1, h3, hw3.trans hw, hq3.trans hq⟩

theorem only_array_changed_set (p : eth_frame_pool) (e : pool_entry)
    (a1 : frame_buffer_array) (index : Nat) (type : message_type)
    (he : p.pool[index]? = some e) :
    only_array_changed p
      (eth_frame_pool.mk (p.pool.set index (pool_entry.mk (e.buffers.set type.toNat a1))))
      index type := by
  obtain ⟨hp, _⟩ := List.getElem?_eq_some.mp he
  refine ⟨List.length_set _ _ _, ?_, ?_⟩
  · intro j hj
    exact List.getElem?_set_ne (fun h => hj h.symm)
  · intro e0 e1 h0 h1
    rw [he] at h0
    simp only [Option.some.injEq] at h0
    subst h0
    simp only [List.getElem?_set_self hp, Option.some.injEq] at h1
    subst h1
    refine ⟨List.length_set _ _ _, ?_⟩
    intro t ht
    exact List.getElem?_set_ne (fun h => ht h.symm)

theorem clear_each_some_spec (bufs r : List frame_buffer) (first count : Nat)
    (h : clear_each bufs first count = some r) :
    r.length = bufs.length ∧
      ∀ i : Nat, r[i]? =
        if first ≤ i ∧ i < first + count then bufs[i]?.map frame_buffer.clear else bufs[i]? := by
  induction count generalizing bufs first with
  | zero =>
    simp only [clear_each, Option.some.injEq] at h
    subst h
    refine ⟨rfl, fun i => ?_⟩
    rw [if_neg (by omega)]
  | succ n ih =>
    rw [clear_each] at h
    cases hg : bufs[first]? with
    | none => simp [hg] at h
    | some b =>
      simp only [hg] at h
      obtain ⟨hlt, _⟩ := List.getElem?_eq_some.mp hg
      obtain ⟨hlen, hget⟩ := ih (bufs.set first b.clear) (first + 1) h
      refine ⟨by rw [hlen, List.length_set], fun i => ?_⟩
      rw [hget i]
      by_cases h1 : first = i
      · subst h1
        rw [if_neg (by omega), if_pos (by omega), List.getElem?_set_self hlt, hg]
        rfl
      · rw [List.getElem?_set_ne h1]
        by_cases h2 : first ≤ i ∧ i < first + (n + 1)
        · rw [if_pos h2, if_pos (by omega)]
        · rw [if_neg h2, if_neg (by omega)]

theorem pool_entry_get_write_buffers_shape (e e1 : pool_entry) (type : message_type)
    (s : span) (h : e.get_write_buffers type = some (s, e1)) :
    ∃ a v r, e.buffers[type.toNat]? = some a ∧ a.write_position.value = some v ∧
      clear_each a.buf_array v a.increment_quant = some r ∧
      s = ⟨v, a.increment_quant⟩ ∧
      e1 = pool_entry.mk (e.buffers.set type.toNat
        (frame_buffer_array.mk r a.ready_frames
          (a.write_position.increment a.increment_quant) a.increment_quant)) := by
  simp only [pool_entry.get_write_buffers, pool_entry.get_ofh_type_buffers] at h
  cases ha : e.buffers[type.toNat]? with
  | none => simp [ha] at h
  | some a =>
    simp only [ha, frame_buffer_array.get_wr_buffers] at h
    cases hv : a.write_position.value with
    | none => simp [hv] at h
    | some v =>
      simp only [hv] at h
      cases hc : clear_each a.buf_array v a.increment_quant with
      | none => simp [hc] at h
      | some r =>
        simp only [hc, Option.some.injEq, Prod.mk.injEq] at h
        exact ⟨a, v, r, rfl, hv, hc, h.1.symm, h.2.symm⟩

/-! ## Well-formedness is preserved by the operations of the pool -/

theorem clear_each_wf (bufs r : List frame_buffer) (first count : Nat)
    (h : clear_each bufs first count = some r) (hb : ∀ fb ∈ bufs, fb.wf) :
    r.length = bufs.length ∧ ∀ fb ∈ r, fb.wf := by
  induction count generalizing bufs first with
  | zero =>
    simp only [clear_each, Option.some.injEq] at h
    subst h
    exact ⟨rfl, hb⟩
  | succ n ih =>
    rw [clear_each] at h
    cases hg : bufs[first]? with
    | none => simp [hg] at h
    | some b =>
      simp only [hg] at h
      have hbw : b.wf := hb b (List.getElem?_mem hg)
      obtain ⟨h1, h2⟩ := ih (bufs.set first b.clear) (first + 1) h (by
        intro fb hfb
        rcases List.mem_or_eq_of_mem_set hfb with h3 | h3
        · exact hb fb h3
        · subst h3
          exact hbw)
      exact ⟨by rw [h1, List.length_set], h2⟩

theorem set_wf {α : Type} (P : α → Prop) (l : List α) (i : Nat) (x : α)
    (hl : ∀ y ∈ l, P y) (hx : P x) : ∀ y ∈ l.set i x, P y := by
  intro y hy
  rcases List.mem_or_eq_of_mem_set hy with h | h
  · exact hl y h
  · subst h
    exact hx

theorem pool_entry_push_buffers_wf (c : ofh_constants) (e e1 : pool_entry)
    (type : message_type) (b : span) (hwf : e.wf c) (h : e.push_buffers type b = some e1) :
    e1.wf c := by
  unfold pool_entry.push_buffers at h
  cases ha : e.get_ofh_type_buffers type with
  | none => simp [ha] at h
  | some a =>
    simp only [ha] at h
    cases hp : a.push_buffers b with
    | none => simp [hp] at h
    | some a1 =>
      simp only [hp, Option.some.injEq] at h
      subst h
      have hawf : a.wf c := hwf.2 a (List.getElem?_mem ha)
      obtain ⟨h1, h2, _, _⟩ := push_buffers_ready_length a a1 b hp
      refine ⟨by simp only [List.length_set]; exact hwf.1, ?_⟩
      exact set_wf _ _ _ _ hwf.2 ⟨by rw [h2]; exact hawf.1, by rw [h2]; exact hawf.2.1, h1⟩

theorem pool_entry_clear_buffers_wf (c : ofh_constants) (e e1 : pool_entry)
    (type : message_type) (hwf : e.wf c) (h : e.clear_buffers type = some e1) :
    e1.wf c := by
  unfold pool_entry.clear_buffers at h
  cases ha : e.get_ofh_type_buffers type with
  | none => simp [ha] at h
  | some a =>
    simp only [ha, Option.some.injEq] at h
    subst h
    have hawf : a.wf c := hwf.2 a (List.getElem?_mem ha)
    refine ⟨by simp only [List.length_set]; exact hwf.1, ?_⟩
    exact set_wf _ _ _ _ hwf.2
      ⟨hawf.1, hawf.2.1, by simp [frame_buffer_array.clear_buffers]⟩

theorem pool_entry_get_write_buffers_wf (c : ofh_constants) (e e1 : pool_entry)
    (type : message_type) (s : span) (hwf : e.wf c)
    (h : e.get_write_buffers type = some (s, e1)) : e1.wf c := by
  unfold pool_entry.get_write_buffers at h
  cases ha : e.get_ofh_type_buffers type with
  | none => simp [ha] at h
  | some a =>
    simp only [ha] at h
    have hawf : a.wf c := hwf.2 a (List.getElem?_mem ha)
    unfold frame_buffer_array.get_wr_buffers at h
    cases hv : a.write_position.value with
    | none => simp [hv] at h
    | some v =>
      simp only [hv] at h
      cases hc : clear_each a.buf_array v a.increment_quant with
      | none => simp [hc] at h
      | some r =>
        simp only [hc, Option.some.injEq, Prod.mk.injEq] at h
        obtain ⟨_, h2⟩ := h
        subst h2
        obtain ⟨hl, hm⟩ := clear_each_wf _ _ _ _ hc hawf.2.1
        refine ⟨by simp only [List.length_set]; exact hwf.1, ?_⟩
        exact set_wf _ _ _ _ hwf.2 ⟨by rw [← hawf.1]; exact hl, hm, hawf.2.2⟩

theorem eth_frames_ready_wf (c : ofh_constants) (p p1 : eth_frame_pool) (slot : slot_point)
    (symbol : Nat) (type : message_type) (b : span) (hwf : p.wf c)
    (h : p.eth_frames_ready slot symbol type b = some p1) : p1.wf c := by
  unfold eth_frame_pool.eth_frames_ready at h
  cases he : p.get_pool_entry slot symbol with
  | none => simp [he] at h
  | some e =>
    simp only [he] at h
    cases hp : e.push_buffers type b with
    | none => simp [hp] at h
    | some e1 =>
      simp only [hp, Option.some.injEq] at h
      subst h
      have hewf : e.wf c := hwf.2 e (List.getElem?_mem he)
      refine ⟨by simp only [List.length_set]; exact hwf.1, ?_⟩
      exact set_wf _ _ _ _ hwf.2 (pool_entry_push_buffers_wf c e e1 type b hewf hp)

theorem eth_frames_sent_wf (c : ofh_constants) (p p1 : eth_frame_pool) (slot : slot_point)
    (symbol : Nat) (type : message_type) (hwf : p.wf c)
    (h : p.eth_frames_sent slot symbol type = some p1) : p1.wf c := by
  unfold eth_frame_pool.eth_frames_sent at h
  cases he : p.get_pool_entry slot symbol with
  | none => simp [he] at h
  | some e =>
    simp only [he] at h
    cases hp : e.clear_buffers type with
    | none => simp [hp] at h
    | some e1 =>
      simp only [hp, Option.some.injEq] at h
      subst h
      have hewf : e.wf c := hwf.2 e (List.getElem?_mem he)
      refine ⟨by simp only [List.length_set]; exact hwf.1, ?_⟩
      exact set_wf _ _ _ _ hwf.2 (pool_entry_clear_buffers_wf c e e1 type hewf hp)

theorem get_frame_buffers_wf (c : ofh_constants) (p p1 : eth_frame_pool) (slot : slot_point)
    (symbol : Nat) (type : message_type) (s : span) (hwf : p.wf c)
    (h : p.get_frame_buffers slot symbol type = some (s, p1)) : p1.wf c := by
  unfold eth_frame_pool.get_frame_buffers at h
  cases he : p.get_pool_entry slot symbol with
  | none => simp [he] at h
  | some e =>
    simp only [he] at h
    cases hp : e.get_write_buffers type with
    | none => simp [hp] at h
    | some r =>
      obtain ⟨s1, e1⟩ := r
      simp only [hp, Option.some.injEq, Prod.mk.injEq] at h
      obtain ⟨_, h2⟩ := h
      subst h2
      have hewf : e.wf c := hwf.2 e (List.getElem?_mem he)
      refine ⟨by simp only [List.length_set]; exact hwf.1, ?_⟩
      exact set_wf _ _ _ _ hwf.2 (pool_entry_get_write_buffers_wf c e e1 type s1 hewf hp)

/-! ## The write view and the storage: when the clear loop stays inside the array -/

/-- Well-formedness is preserved by every operation of the pool. -/
theorem eth_frame_pool_step_wf (c : ofh_constants) (p p1 : eth_frame_pool) (op : pool_op)
    (hwf : p.wf c) (h : p.step op = some p1) : p1.wf c := by
  cases op with
  | get_frame_buffers slot symbol type =>
    simp only [eth_frame_pool.step] at h
    cases hg : p.get_frame_buffers slot symbol type with
    | none => simp [hg] at h
    | some r =>
      obtain ⟨s, p2⟩ := r
      simp only [hg, Option.map, Option.some.injEq] at h
      subst h
      exact get_frame_buffers_wf c p p2 slot symbol type s hwf hg
  | eth_frames_ready slot symbol type b =>
    exact eth_frames_ready_wf c p p1 slot symbol type b hwf h
  | read_frame_buffers slot symbol type =>
    simp only [eth_frame_pool.step] at h
    cases hg : p.read_frame_buffers slot symbol type with
    | none => simp [hg] at h
    | some r =>
      simp only [hg, Option.map, Option.some.injEq] at h
      subst h
      exact hwf
  | eth_frames_sent slot symbol type =>
    exact eth_frames_sent_wf c p p1 slot symbol type hwf h

/-- Well-formedness is an invariant of the pool: it holds after every sequence of operations
that returns. -/
theorem eth_frame_pool_run_wf (c : ofh_constants) (ops : List pool_op) (p p1 : eth_frame_pool)
    (hwf : p.wf c) (h : p.run ops = some p1) : p1.wf c := by
  induction ops generalizing p with
  | nil =>
    simp only [eth_frame_pool.run, Option.some.injEq] at h
    subst h
    exact hwf
  | cons op ops ih =>
    simp only [eth_frame_pool.run] at h
    cases hs : p.step op with
    | none => simp [hs] at h
    | some p2 =>
      simp only [hs] at h
      exact ih p2 (eth_frame_pool_step_wf c p p2 op hwf hs) h

/-- A sequence of pool operations runs its first part and then its second part. -/
theorem eth_frame_pool_run_append (l1 l2 : List pool_op) (p : eth_frame_pool) :
    p.run (l1 ++ l2) = (p.run l1).bind fun q => q.run l2 := by
  induction l1 generalizing p with
  | nil => rfl
  | cons op ops ih =>
    simp only [List.cons_append, eth_frame_pool.run]
    cases p.step op with
    | none => rfl
    | some p1 => exact ih p1

/-- The clear loop fails as soon as it is asked to go past the end of the array. -/
theorem clear_each_eq_none (bufs : List frame_buffer) (first count : Nat)
    (hf : first ≤ bufs.length) (h : bufs.length < first + count) :
    clear_each bufs first count = none := by
  induction count generalizing bufs first with
  | zero => omega
  | succ n ih =>
    rw [clear_each]
    cases hb : bufs[first]? with
    | none => rfl
    | some b =>
      simp only
      have hlt : first < bufs.length := (List.getElem?_eq_some.mp hb).1
      exact ih (bufs.set first b.clear) (first + 1) (by rw [List.length_set]; omega)
        (by rw [List.length_set]; omega)

/-- Where the write view lies inside the storage, `get_frame_buffers` returns it, clears its
buffers and advances the write counter of the array of the coordinate. -/
theorem get_frame_buffers_in_storage (p : eth_frame_pool) (e : pool_entry)
    (a : frame_buffer_array) (v : Nat) (slot : slot_point) (symbol : Nat) (type : message_type)
    (he : p.pool[sym_index slot symbol]? = some e) (ha : e.buffers[type.toNat]? = some a)
    (hv : a.write_position.value = some v)
    (hin : v + a.increment_quant ≤ a.buf_array.length) :
    ∃ r, clear_each a.buf_array v a.increment_quant = some r ∧
      r.length = a.buf_array.length ∧
      (∀ i, r[i]? =
        if v ≤ i ∧ i < v + a.increment_quant
        then a.buf_array[i]?.map frame_buffer.clear else a.buf_array[i]?) ∧
      p.get_frame_buffers slot symbol type =
        some (⟨v, a.increment_quant⟩,
          eth_frame_pool.mk (p.pool.set (sym_index slot symbol)
            (pool_entry.mk (e.buffers.set type.toNat
              (frame_buffer_array.mk r a.ready_frames
                (a.write_position.increment a.increment_quant) a.increment_quant))))) := by
  obtain ⟨r, hr, hrl, hget⟩ := clear_each_spec a.buf_array v a.increment_quant hin
  refine ⟨r, hr, hrl, hget, ?_⟩
  simp only [eth_frame_pool.get_frame_buffers, eth_frame_pool.get_pool_entry, he,
    pool_entry.get_write_buffers, pool_entry.get_ofh_type_buffers, ha,
    frame_buffer_array.get_wr_buffers, hv, hr]

/-- Where the write view ends past the storage, the clear loop of `get_write_buffers` leaves
the array: the call has no defined result. -/
theorem get_write_buffers_outside_storage (e : pool_entry) (a : frame_buffer_array) (v : Nat)
    (type : message_type) (ha : e.buffers[type.toNat]? = some a)
    (hv : a.write_position.value = some v) (hf : v ≤ a.buf_array.length)
    (hout : a.buf_array.length < v + a.increment_quant) :
    e.get_write_buffers type = none := by
  have hc := clear_each_eq_none a.buf_array v a.increment_quant hf hout
  simp only [pool_entry.get_write_buffers, pool_entry.get_ofh_type_buffers, ha,
    frame_buffer_array.get_wr_buffers, hv, hc]

/-- Clearing buffers of a fresh storage leaves it as it is: every buffer is empty already. -/
theorem clear_each_fresh (m first count : Nat) (h : first + count ≤ m) :
    clear_each (List.replicate m frame_buffer.init) first count
      = some (List.replicate m frame_buffer.init) := by
  obtain ⟨r, hr, _, hget⟩ := clear_each_spec (List.replicate m frame_buffer.init) first count
    (by rw [List.length_replicate]; exact h)
  rw [hr]
  congr 1
  apply List.ext_getElem?
  intro i
  rw [hget i]
  by_cases hi : first ≤ i ∧ i < first + count
  · rw [if_pos hi, List.getElem?_replicate]
    by_cases hm : i < m
    · rw [if_pos hm]; rfl
    · rw [if_neg hm]; rfl
  · rw [if_neg hi]

theorem entry_after_writes_zero : entry_after_writes 0 = pool_entry.init ⟨3, 3⟩ := rfl

theorem pool_after_writes_zero : pool_after_writes 0 = eth_frame_pool.init ⟨3, 3⟩ := by
  simp only [pool_after_writes, entry_after_writes_zero, eth_frame_pool.init,
    List.set_replicate_self]

theorem pool_after_writes_entry (k : Nat) :
    (pool_after_writes k).pool[sym_index ⟨0⟩ 0]? = some (entry_after_writes k) := by
  have hidx : sym_index ⟨0⟩ 0 = 0 := by decide
  have hlen : 0 < (eth_frame_pool.init ⟨3, 3⟩).pool.length := by
    rw [(eth_frame_pool_init_wf ⟨3, 3⟩).1]
    decide
  rw [hidx]
  simp only [pool_after_writes]
  exact List.getElem?_set_self hlen

/-- While the views stay inside the 6 buffers of the storage, which is the case for the first
1431655767 calls, a call of `get_frame_buffers` for slot 0, symbol 0, control-plane only
advances the write counter: the counter wraps from `2 ^ 32 - 1` to 2 at call 1431655765. -/
theorem pool_after_writes_step (k : Nat) (hk : k + 1 ≤ WRAP_CALLS) :
    (pool_after_writes k).get_frame_buffers ⟨0⟩ 0 message_type.control_plane
      = some (⟨(k * 3) % UNSIGNED_MOD % 6, 3⟩, pool_after_writes (k + 1)) := by
  have hin : (k * 3) % UNSIGNED_MOD % 6 + 3 ≤ 6 := by
    simp only [WRAP_CALLS] at hk
    show (k * 3) % 4294967296 % 6 + 3 ≤ 6
    by_cases h1 : k ≤ 1431655765
    · have h3 : k * 3 < 4294967296 := by omega
      rw [Nat.mod_eq_of_lt h3]
      omega
    · have h2 : k = 1431655766 := by omega
      subst h2
      norm_num
  have hc := clear_each_fresh 6 ((k * 3) % UNSIGNED_MOD % 6) 3 hin
  have hcount : ((k * 3) % UNSIGNED_MOD + 3) % UNSIGNED_MOD = ((k + 1) * 3) % UNSIGNED_MOD := by
    rw [Nat.mod_add_mod, Nat.succ_mul]
  have ha : (entry_after_writes k).buffers[message_type.control_plane.toNat]?
      = some (frame_buffer_array.mk (List.replicate 6 frame_buffer.init) []
          ⟨(k * 3) % UNSIGNED_MOD, 6⟩ 3) := rfl
  have hv : (rd_wr_counter.mk ((k * 3) % UNSIGNED_MOD) 6).value
      = some ((k * 3) % UNSIGNED_MOD % 6) := rfl
  obtain ⟨r, hr, _, _, hg⟩ := get_frame_buffers_in_storage (pool_after_writes k)
    (entry_after_writes k) _ _ ⟨0⟩ 0 message_type.control_plane (pool_after_writes_entry k) ha hv
    (by rw [List.length_replicate]; exact hin)
  rw [hg]
  have hrr : r = List.replicate 6 frame_buffer.init := by
    simp only at hr
    rw [hc] at hr
    exact (Option.some.inj hr).symm
  subst hrr
  have hent : pool_entry.mk ((entry_after_writes k).buffers.set
        message_type.control_plane.toNat
        (frame_buffer_array.mk (List.replicate 6 frame_buffer.init) []
          (rd_wr_counter.increment ⟨(k * 3) % UNSIGNED_MOD, 6⟩ 3) 3))
      = entry_after_writes (k + 1) := by
    show pool_entry.mk [frame_buffer_array.mk (List.replicate 6 frame_buffer.init) []
          ⟨((k * 3) % UNSIGNED_MOD + 3) % UNSIGNED_MOD, 6⟩ 3, frame_buffer_array.init ⟨3, 3⟩ 3]
      = pool_entry.mk [frame_buffer_array.mk (List.replicate 6 frame_buffer.init) []
          ⟨((k + 1) * 3) % UNSIGNED_MOD, 6⟩ 3, frame_buffer_array.init ⟨3, 3⟩ 3]
    rw [hcount]
  have hpool : (pool_after_writes k).pool.set (sym_index ⟨0⟩ 0) (entry_after_writes (k + 1))
      = (pool_after_writes (k + 1)).pool := by
    show ((eth_frame_pool.init ⟨3, 3⟩).pool.set 0 (entry_after_writes k)).set 0
        (entry_after_writes (k + 1))
      = (eth_frame_pool.init ⟨3, 3⟩).pool.set 0 (entry_after_writes (k + 1))
    exact List.set_set _ _ _ _
  simp only [hent, hpool]

/-- The pool reached from `pool_after_writes j` by `k` further calls of `get_frame_buffers`
for slot 0, symbol 0, control-plane, as long as `j + k` does not exceed 1431655767. -/
theorem pool_after_writes_run (k j : Nat) (h : j + k ≤ WRAP_CALLS) :
    (pool_after_writes j).run
        (List.replicate k (pool_op.get_frame_buffers ⟨0⟩ 0 message_type.control_plane))
      = some (pool_after_writes (j + k)) := by
  induction k generalizing j with
  | zero => simp only [List.replicate, eth_frame_pool.run, Nat.add_zero]
  | succ n ih =>
    have hs := pool_after_writes_step j (by omega)
    rw [List.replicate_succ, eth_frame_pool.run]
    simp only [eth_frame_pool.step, hs, Option.map]
    have hjn : j + 1 + n = j + (n + 1) := by omega
    rw [ih (j + 1) (by omega), hjn]

/-- The pool with capacities 3 and 3 on which `get_frame_buffers` was called 1431655767 times
for slot 0, symbol 0, control-plane is `pool_after_writes 1431655767`: every one of these
calls returns. -/
theorem wrapped_pool_reachable :
    (eth_frame_pool.init ⟨3, 3⟩).run
        (List.replicate WRAP_CALLS (pool_op.get_frame_buffers ⟨0⟩ 0 message_type.control_plane))
      = some (pool_after_writes WRAP_CALLS) := by
  have h := pool_after_writes_run WRAP_CALLS 0 (by omega)
  rw [pool_after_writes_zero, Nat.zero_add] at h
  exact h

theorem wrapped_pool_wf : (pool_after_writes WRAP_CALLS).wf ⟨3, 3⟩ :=
  eth_frame_pool_run_wf ⟨3, 3⟩ _ _ _ (eth_frame_pool_init_wf ⟨3, 3⟩) wrapped_pool_reachable

/-- The control-plane array of the wrapped entry: counter 5, cursor 5, 6 buffers. -/
theorem wrapped_entry_array :
    (entry_after_writes WRAP_CALLS).buffers[message_type.control_plane.toNat]?
      = some (frame_buffer_array.mk (List.replicate 6 frame_buffer.init) [] ⟨5, 6⟩ 3) := by
  simp [entry_after_writes, message_type.toNat, frame_buffer_array.init,
    MAX_ETH_FRAMES_PER_SYMBOL, WRAP_CALLS, UNSIGNED_MOD]

/-! ## Publishing, reading and clearing ready batches -/

/-- C1: in a well-formed pool, `eth_frames_ready(slot, symbol, type, b)` succeeds and the next
`read_frame_buffers(slot, symbol, type)` returns a list of batches whose last (most recent)
element is `b` itself; when the read returned the empty view before the publish, the list
returned after it is exactly `[b]`. -/
theorem eth_frames_ready_then_read (c : ofh_constants) (p : eth_frame_pool) (hwf : p.wf c)
    (slot : slot_point) (symbol : Nat) (type : message_type) (b : span) :
    ∃ p1 rd, p.eth_frames_ready slot symbol type b = some p1 ∧
      p1.read_frame_buffers slot symbol type = some rd ∧
      rd.getLast? = some b ∧
      (p.read_frame_buffers slot symbol type = some [] → rd = [b]) := by
  obtain ⟨e, he, hewf⟩ := wf_get_pool_entry c p hwf slot symbol
  obtain ⟨a, ha, hawf⟩ := wf_get_ofh_type_buffers c e hewf type
  have hp : sym_index slot symbol < p.pool.length := by
    rw [hwf.1]; exact sym_index_lt slot symbol
  have hb : type.toNat < e.buffers.length := by
    rw [hewf.1]; exact toNat_lt type
  obtain ⟨a1, hpush, hr⟩ : ∃ a1, a.push_buffers b = some a1 ∧
      a1.ready_frames = if a.ready_frames.length = MAX_NOF_PREPARED_FRAME_BATCHES then [b]
        else a.ready_frames ++ [b] := ⟨_, push_buffers_eq a b hawf.2.2, rfl⟩
  refine ⟨eth_frame_pool.mk (p.pool.set (sym_index slot symbol)
      (pool_entry.mk (e.buffers.set type.toNat a1))), a1.ready_frames, ?_,
    read_frame_buffers_set p e a1 slot symbol type hp hb, ?_, ?_⟩
  · simp only [eth_frame_pool.eth_frames_ready, he, pool_entry.push_buffers, ha, hpush]
  · rw [hr]
    by_cases h2 : a.ready_frames.length = MAX_NOF_PREPARED_FRAME_BATCHES
    · simp [h2]
    · simp [h2]
  · intro hrd
    simp only [eth_frame_pool.read_frame_buffers, he, pool_entry.get_read_buffers, ha,
      get_rd_buffers_eq, Option.some.injEq] at hrd
    rw [hr]
    simp [hrd, MAX_NOF_PREPARED_FRAME_BATCHES]

/-- Witness of C1 on the freshly constructed pool with capacities 2 and 4, at slot 10,
symbol 3, control-plane. -/
theorem eth_frames_ready_then_read_witness :
    (eth_frame_pool.init ⟨2, 4⟩).wf ⟨2, 4⟩ ∧
    ∃ p1 rd, (eth_frame_pool.init ⟨2, 4⟩).eth_frames_ready ⟨10⟩ 3 .control_plane ⟨0, 2⟩ = some p1 ∧
      p1.read_frame_buffers ⟨10⟩ 3 .control_plane = some rd ∧
      rd.getLast? = some ⟨0, 2⟩ ∧
      ((eth_frame_pool.init ⟨2, 4⟩).read_frame_buffers ⟨10⟩ 3 .control_plane = some [] →
        rd = [⟨0, 2⟩]) :=
  ⟨eth_frame_pool_init_wf ⟨2, 4⟩,
    eth_frames_ready_then_read ⟨2, 4⟩ (eth_frame_pool.init ⟨2, 4⟩) (eth_frame_pool_init_wf ⟨2, 4⟩)
      ⟨10⟩ 3 .control_plane ⟨0, 2⟩⟩

/-- C2: in a well-formed pool, `eth_frames_sent(slot, symbol, type)` succeeds and after it
`read_frame_buffers(slot, symbol, type)` returns an empty view, whatever was ready before. -/
theorem eth_frames_sent_then_read (c : ofh_constants) (p : eth_frame_pool) (hwf : p.wf c)
    (slot : slot_point) (symbol : Nat) (type : message_type) :
    ∃ p1, p.eth_frames_sent slot symbol type = some p1 ∧
      p1.read_frame_buffers slot symbol type = some [] := by
  obtain ⟨e, he, hewf⟩ := wf_get_pool_entry c p hwf slot symbol
  obtain ⟨a, ha, _⟩ := wf_get_ofh_type_buffers c e hewf type
  have hp : sym_index slot symbol < p.pool.length := by
    rw [hwf.1]; exact sym_index_lt slot symbol
  have hb : type.toNat < e.buffers.length := by
    rw [hewf.1]; exact toNat_lt type
  refine ⟨eth_frame_pool.mk (p.pool.set (sym_index slot symbol)
      (pool_entry.mk (e.buffers.set type.toNat a.clear_buffers))), ?_,
    read_frame_buffers_set p e a.clear_buffers slot symbol type hp hb⟩
  simp only [eth_frame_pool.eth_frames_sent, he, pool_entry.clear_buffers, ha]

/-- Witness of C2 on the freshly constructed pool with capacities 2 and 4. -/
theorem eth_frames_sent_then_read_witness :
    (eth_frame_pool.init ⟨2, 4⟩).wf ⟨2, 4⟩ ∧
    ∃ p1, (eth_frame_pool.init ⟨2, 4⟩).eth_frames_sent ⟨10⟩ 3 .control_plane = some p1 ∧
      p1.read_frame_buffers ⟨10⟩ 3 .control_plane = some [] :=
  ⟨eth_frame_pool_init_wf ⟨2, 4⟩,
    eth_frames_sent_then_read ⟨2, 4⟩ (eth_frame_pool.init ⟨2, 4⟩) (eth_frame_pool_init_wf ⟨2, 4⟩)
      ⟨10⟩ 3 .control_plane⟩

/-! ## The bounded list of ready batches -/

/-- C3, as stated, fails: on a fresh array the pushes of the three distinct batches
`(0,2)`, `(2,2)`, `(4,2)` leave the single batch `(4,2)` ready, not the last two. -/
theorem push_three_keeps_last_two_counterexample :
    ((frame_buffer_array.init ⟨2, 4⟩ 2).run
        [.push_buffers ⟨0, 2⟩, .push_buffers ⟨2, 2⟩, .push_buffers ⟨4, 2⟩]).map
      frame_buffer_array.get_rd_buffers = some [⟨4, 2⟩] ∧
    ((frame_buffer_array.init ⟨2, 4⟩ 2).run
        [.push_buffers ⟨0, 2⟩, .push_buffers ⟨2, 2⟩, .push_buffers ⟨4, 2⟩]).map
      frame_buffer_array.get_rd_buffers ≠ some [⟨2, 2⟩, ⟨4, 2⟩] := by
  constructor
  · rfl
  · intro h
    have h2 : (some [(⟨4, 2⟩ : span)] : Option (List span)) = some [⟨2, 2⟩, ⟨4, 2⟩] := h
    simp at h2

/-- C3, amended: starting from an empty ready list, three successive pushes `b1`, `b2`, `b3`
all succeed and `get_rd_buffers` then returns exactly `[b3]`: the third push finds the list
at capacity and clears both `b1` and `b2`. -/
theorem push_three_keeps_last_one (a : frame_buffer_array) (b1 b2 b3 : span)
    (h : a.ready_frames = []) :
    (a.run [.push_buffers b1, .push_buffers b2, .push_buffers b3]).map
      frame_buffer_array.get_rd_buffers = some [b3] := by
  simp [frame_buffer_array.run, frame_buffer_array.step, frame_buffer_array.push_buffers,
    frame_buffer_array.clear_buffers, static_vector.push_back, h,
    MAX_NOF_PREPARED_FRAME_BATCHES, frame_buffer_array.get_rd_buffers]

/-- Witness of the amended C3 on a fresh array. -/
theorem push_three_keeps_last_one_witness :
    (frame_buffer_array.init ⟨2, 4⟩ 2).ready_frames = [] ∧
    ((frame_buffer_array.init ⟨2, 4⟩ 2).run
        [.push_buffers ⟨0, 2⟩, .push_buffers ⟨2, 2⟩, .push_buffers ⟨4, 2⟩]).map
      frame_buffer_array.get_rd_buffers = some [⟨4, 2⟩] :=
  ⟨rfl, push_three_keeps_last_one (frame_buffer_array.init ⟨2, 4⟩ 2) ⟨0, 2⟩ ⟨2, 2⟩ ⟨4, 2⟩ rfl⟩

/-- C4: on an array whose ready list respects its capacity, `push_buffers(b)` succeeds and
changes only the ready list; when the list held 2 batches it is cleared first, so that
`get_rd_buffers` then returns `[b]`; when it held fewer than 2, `b` is appended after the
batches already there, which keep their order. -/
theorem push_buffers_full_or_not (a : frame_buffer_array) (b : span)
    (h : a.ready_frames.length ≤ MAX_NOF_PREPARED_FRAME_BATCHES) :
    ∃ a1, a.push_buffers b = some a1 ∧
      (a.ready_frames.length = 2 → a1.get_rd_buffers = [b]) ∧
      (a.ready_frames.length < 2 → a1.get_rd_buffers = a.get_rd_buffers ++ [b]) ∧
      a1.buf_array = a.buf_array ∧ a1.write_position = a.write_position ∧
      a1.increment_quant = a.increment_quant := by
  refine ⟨_, push_buffers_eq a b h, ?_, ?_, rfl, rfl, rfl⟩
  · intro h2
    simp [get_rd_buffers_eq, h2, MAX_NOF_PREPARED_FRAME_BATCHES]
  · intro h2
    have h3 : a.ready_frames.length ≠ MAX_NOF_PREPARED_FRAME_BATCHES := by
      simp only [MAX_NOF_PREPARED_FRAME_BATCHES]; omega
    simp [get_rd_buffers_eq, h3]

/-- Witness of C4 on an array with two ready batches. -/
theorem push_buffers_full_or_not_witness :
    (frame_buffer_array.mk [] [⟨0, 2⟩, ⟨2, 2⟩] ⟨4, 4⟩ 2).ready_frames.length
      ≤ MAX_NOF_PREPARED_FRAME_BATCHES ∧
    ∃ a1, (frame_buffer_array.mk [] [⟨0, 2⟩, ⟨2, 2⟩] ⟨4, 4⟩ 2).push_buffers ⟨0, 2⟩ = some a1 ∧
      ((frame_buffer_array.mk [] [⟨0, 2⟩, ⟨2, 2⟩] ⟨4, 4⟩ 2).ready_frames.length = 2 →
        a1.get_rd_buffers = [⟨0, 2⟩]) ∧
      ((frame_buffer_array.mk [] [⟨0, 2⟩, ⟨2, 2⟩] ⟨4, 4⟩ 2).ready_frames.length < 2 →
        a1.get_rd_buffers =
          (frame_buffer_array.mk [] [⟨0, 2⟩, ⟨2, 2⟩] ⟨4, 4⟩ 2).get_rd_buffers ++ [⟨0, 2⟩]) ∧
      a1.buf_array = (frame_buffer_array.mk [] [⟨0, 2⟩, ⟨2, 2⟩] ⟨4, 4⟩ 2).buf_array ∧
      a1.write_position = (frame_buffer_array.mk [] [⟨0, 2⟩, ⟨2, 2⟩] ⟨4, 4⟩ 2).write_position ∧
      a1.increment_quant = (frame_buffer_array.mk [] [⟨0, 2⟩, ⟨2, 2⟩] ⟨4, 4⟩ 2).increment_quant :=
  ⟨by decide,
    push_buffers_full_or_not (frame_buffer_array.mk [] [⟨0, 2⟩, ⟨2, 2⟩] ⟨4, 4⟩ 2) ⟨0, 2⟩
      (by decide)⟩

/-- C5: in every state reached from a freshly constructed circular array by a sequence of
`get_wr_buffers`, `push_buffers`, `clear_buffers` and `get_rd_buffers`, the ready list holds
at most 2 batches, and `push_buffers` succeeds there for every batch: the capacity check of
`push_back` never fails. -/
theorem reachable_ready_bounded (c : ofh_constants) (n : Nat) (ops : List array_op)
    (a : frame_buffer_array) (h : (frame_buffer_array.init c n).run ops = some a) :
    a.ready_frames.length ≤ MAX_NOF_PREPARED_FRAME_BATCHES ∧
      ∀ b, ∃ a1, a.push_buffers b = some a1 := by
  have hlen : a.ready_frames.length ≤ MAX_NOF_PREPARED_FRAME_BATCHES :=
    run_ready_length ops (frame_buffer_array.init c n) a (by simp [frame_buffer_array.init]) h
  exact ⟨hlen, fun b => ⟨_, push_buffers_eq a b hlen⟩⟩

/-- Witness of C5: three write/publish rounds on a fresh array of capacity 2. -/
theorem reachable_ready_bounded_witness :
    (frame_buffer_array.init ⟨2, 4⟩ 2).run
        [.get_wr_buffers, .push_buffers ⟨0, 2⟩, .get_wr_buffers, .push_buffers ⟨2, 2⟩,
         .get_rd_buffers, .get_wr_buffers, .push_buffers ⟨0, 2⟩]
      = some { frame_buffer_array.init ⟨2, 4⟩ 2 with
                ready_frames := [⟨0, 2⟩], write_position := ⟨6, 4⟩ } ∧
    (({ frame_buffer_array.init ⟨2, 4⟩ 2 with
          ready_frames := [⟨0, 2⟩], write_position := ⟨6, 4⟩ } : frame_buffer_array).ready_frames.length
        ≤ MAX_NOF_PREPARED_FRAME_BATCHES ∧
      ∀ b, ∃ a1, ({ frame_buffer_array.init ⟨2, 4⟩ 2 with
          ready_frames := [⟨0, 2⟩], write_position := ⟨6, 4⟩ } : frame_buffer_array).push_buffers b
        = some a1) :=
  ⟨rfl, reachable_ready_bounded ⟨2, 4⟩ 2
    [.get_wr_buffers, .push_buffers ⟨0, 2⟩, .get_wr_buffers, .push_buffers ⟨2, 2⟩,
     .get_rd_buffers, .get_wr_buffers, .push_buffers ⟨0, 2⟩] _ rfl⟩

/-! ## Write views -/

/-- As long as the write counters are multiples of their increments, which holds from the
construction of the pool until a counter wraps (`get_wr_buffers_keeps_configured`), in a
well-formed pool `get_frame_buffers(slot, symbol, type)` succeeds and returns a view of exactly
`capacity c type` buffers (`MAX_CP_MESSAGES_PER_SYMBOL` for control-plane,
`MAX_UP_MESSAGES_PER_SYMBOL` for user-plane); after the call every buffer of the view has
logical size 0 and is `empty`, whatever its size was before. -/
theorem get_frame_buffers_cleared (c : ofh_constants) (p : eth_frame_pool) (hwf : p.wf c)
    (hcfg : p.configured c) (slot : slot_point) (symbol : Nat) (type : message_type) :
    ∃ buffs p1 e1 a1, p.get_frame_buffers slot symbol type = some (buffs, p1) ∧
      buffs.size = capacity c type ∧
      p1.get_pool_entry slot symbol = some e1 ∧
      e1.get_ofh_type_buffers type = some a1 ∧
      ∀ i, buffs.data ≤ i → i < buffs.data + buffs.size →
        ∃ fb, a1.buf_array[i]? = some fb ∧ fb.size = 0 ∧ fb.empty = true := by
  obtain ⟨e, he, hewf⟩ := wf_get_pool_entry c p hwf slot symbol
  have hp : sym_index slot symbol < p.pool.length := by
    rw [hwf.1]; exact sym_index_lt slot symbol
  have hmem : e ∈ p.pool := by
    simp only [eth_frame_pool.get_pool_entry] at he
    exact List.getElem?_mem he
  obtain ⟨buffs, e1, a1, hw, hsize, ha1, hcl⟩ :=
    pool_entry_get_write_buffers_cleared c e hewf (hcfg e hmem) type
  refine ⟨buffs, eth_frame_pool.mk (p.pool.set (sym_index slot symbol) e1), e1, a1, ?_, hsize,
    ?_, ha1, hcl⟩
  · simp only [eth_frame_pool.get_frame_buffers, he, hw]
  · simp [eth_frame_pool.get_pool_entry, hp]

/-- The scenario of the specification, capacities 2 and 4, slot 10, symbol 3, control-plane,
as an instance of `get_frame_buffers_cleared`. -/
theorem get_frame_buffers_cleared_witness :
    (eth_frame_pool.init ⟨2, 4⟩).wf ⟨2, 4⟩ ∧ (eth_frame_pool.init ⟨2, 4⟩).configured ⟨2, 4⟩ ∧
    ∃ buffs p1 e1 a1,
      (eth_frame_pool.init ⟨2, 4⟩).get_frame_buffers ⟨10⟩ 3 .control_plane = some (buffs, p1) ∧
      buffs.size = capacity ⟨2, 4⟩ .control_plane ∧
      p1.get_pool_entry ⟨10⟩ 3 = some e1 ∧
      e1.get_ofh_type_buffers .control_plane = some a1 ∧
      ∀ i, buffs.data ≤ i → i < buffs.data + buffs.size →
        ∃ fb, a1.buf_array[i]? = some fb ∧ fb.size = 0 ∧ fb.empty = true :=
  ⟨eth_frame_pool_init_wf ⟨2, 4⟩,
    eth_frame_pool_init_configured ⟨2, 4⟩ (by decide) (by decide) (by decide) (by decide),
    get_frame_buffers_cleared ⟨2, 4⟩ (eth_frame_pool.init ⟨2, 4⟩) (eth_frame_pool_init_wf ⟨2, 4⟩)
      (eth_frame_pool_init_configured ⟨2, 4⟩ (by decide) (by decide) (by decide) (by decide))
      ⟨10⟩ 3 .control_plane⟩

/-! ## Logical size of a frame buffer -/

/-- C7: for every frame buffer with a byte array of 9600 bytes and every `n ≤ 9600`,
`set_size(n)` succeeds, afterwards `size()` is `max n 64`, and when `n < 64` every byte at an
index in `[n, 64)` is zero. -/
theorem set_size_pads (fb : frame_buffer) (hwf : fb.wf) (n : Nat) (h : n ≤ 9600) :
    ∃ fb1, fb.set_size n = some fb1 ∧ fb1.size = max n 64 ∧
      (n < 64 → ∀ i, n ≤ i → i < 64 → fb1.buffer[i]? = some 0) := by
  by_cases hlt : n < 64
  · refine ⟨⟨64, fill fb.buffer n 0 (64 - n)⟩, ?_, ?_, ?_⟩
    · simp [frame_buffer.set_size, MAX_ETH_FRAME_LENGTH, MIN_ETH_FRAME_LENGTH, h, hlt]
    · simp only [frame_buffer.size]
      omega
    · intro _ i h1 h2
      have hi : i < fb.buffer.length := by
        rw [hwf]; simp only [MAX_ETH_FRAME_LENGTH]; omega
      simp only [fill_getElem?]
      rw [if_pos (by omega), List.getElem?_eq_getElem hi]
      rfl
  · refine ⟨⟨n, fb.buffer⟩, ?_, ?_, ?_⟩
    · simp [frame_buffer.set_size, MAX_ETH_FRAME_LENGTH, MIN_ETH_FRAME_LENGTH, h, hlt]
    · simp only [frame_buffer.size]
      omega
    · intro h1
      exact absurd h1 hlt

/-- Witness of C7: `set_size(30)` on a buffer of size 100 filled with the byte 255 gives
`size() = 64` and zeros at the indices 30 to 63. -/
theorem set_size_pads_witness :
    (⟨100, List.replicate 9600 255⟩ : frame_buffer).wf ∧ 30 ≤ 9600 ∧
    ∃ fb1, (⟨100, List.replicate 9600 255⟩ : frame_buffer).set_size 30 = some fb1 ∧
      fb1.size = max 30 64 ∧
      (30 < 64 → ∀ i, 30 ≤ i → i < 64 → fb1.buffer[i]? = some 0) :=
  ⟨List.length_replicate 9600 255, by decide,
    set_size_pads ⟨100, List.replicate 9600 255⟩ (List.length_replicate 9600 255) 30 (by decide)⟩

/-! ## The write cursor -/

/-- C8: on an array constructed for `N ≥ 1` packets, as long as the 32-bit counter does not
overflow (`2 * N` and `(k + 1) * N` below `2 ^ 32`), the call number `k` (counted from 0) of
`get_wr_buffers` succeeds and returns the view of exactly `N` buffers that starts at
`(k % 2) * N`, which is the write counter modulo `2 * N`; the call advances the counter by
`N`. -/
theorem get_wr_buffers_kth_call (c : ofh_constants) (N k : Nat) (hN : 1 ≤ N)
    (h2 : 2 * N < UNSIGNED_MOD) (hk : (k + 1) * N < UNSIGNED_MOD) :
    ∃ ak ak1, (frame_buffer_array.init c N).after_writes k = some ak ∧
      ak.get_wr_buffers = some (⟨(k % 2) * N, N⟩, ak1) ∧
      (k % 2) * N = ak.write_position.count % (2 * N) ∧
      ak1.write_position.count = ak.write_position.count + N ∧
      (frame_buffer_array.init c N).after_writes (k + 1) = some ak1 := by
  have hb : (2 * N) % UNSIGNED_MOD ≠ 0 := by
    rw [Nat.mod_eq_of_lt h2]; omega
  have hk0 : k * N < UNSIGNED_MOD := by
    rw [Nat.succ_mul] at hk; omega
  have hview := kth_write_view c N k hN h2 hk
  have hst := after_writes_init c N k hb
  have hst1 := after_writes_init c N (k + 1) hb
  rw [hst] at hview
  rw [Nat.mod_eq_of_lt h2, Nat.mod_eq_of_lt hk] at hst1
  refine ⟨_, _, hst, hview, ?_, ?_, hst1⟩
  · simp only [Nat.mod_eq_of_lt hk0, Nat.mul_mod_mul_right]
  · simp only [Nat.mod_eq_of_lt hk0]
    exact Nat.succ_mul k N

/-- Witness of C8: the call number 3 on an array constructed for 2 packets. -/
theorem get_wr_buffers_kth_call_witness :
    1 ≤ 2 ∧ 2 * 2 < UNSIGNED_MOD ∧ (3 + 1) * 2 < UNSIGNED_MOD ∧
    ∃ ak ak1, (frame_buffer_array.init ⟨2, 4⟩ 2).after_writes 3 = some ak ∧
      ak.get_wr_buffers = some (⟨(3 % 2) * 2, 2⟩, ak1) ∧
      (3 % 2) * 2 = ak.write_position.count % (2 * 2) ∧
      ak1.write_position.count = ak.write_position.count + 2 ∧
      (frame_buffer_array.init ⟨2, 4⟩ 2).after_writes (3 + 1) = some ak1 :=
  ⟨by decide, by decide, by decide,
    get_wr_buffers_kth_call ⟨2, 4⟩ 2 3 (by decide) (by decide) (by decide)⟩

/-- C9 fails when the 32-bit write counter wraps: on an array constructed for 3 packets, the call
number 1431655765 (counter `2 ^ 32 - 1`) returns the view `[3, 6)` and the next call (counter
wrapped to 2) returns the view `[2, 5)`; the two views share the buffers 3 and 4. -/
theorem consecutive_views_overlap_after_wrap :
    (((frame_buffer_array.init ⟨3, 3⟩ 3).after_writes 1431655765).bind
        frame_buffer_array.get_wr_buffers).map Prod.fst = some ⟨3, 3⟩ ∧
    (((frame_buffer_array.init ⟨3, 3⟩ 3).after_writes 1431655766).bind
        frame_buffer_array.get_wr_buffers).map Prod.fst = some ⟨2, 3⟩ ∧
    ¬ span.disjoint ⟨3, 3⟩ ⟨2, 3⟩ := by
  have hb : (2 * 3) % UNSIGNED_MOD ≠ 0 := by decide
  refine ⟨?_, ?_, ?_⟩
  · rw [get_wr_buffers_after_writes ⟨3, 3⟩ 3 1431655765 hb]
    simp only [Option.map, UNSIGNED_MOD]
    norm_num
  · rw [get_wr_buffers_after_writes ⟨3, 3⟩ 3 1431655766 hb]
    simp only [Option.map, UNSIGNED_MOD]
    norm_num
  · intro h
    exact h 3 ⟨by decide, by decide, by decide, by decide⟩

/-! ## Indexing of the pool -/

/-- C10: `get_pool_entry(slot, symbol)` returns the entry of the pool at the index
`(slot_index * 14 + symbol) % 280`; the pool has `280 = 14 * 20` entries and the index is
below 280, so the lookup succeeds in every pool with `NUM_ENTRIES` entries. -/
theorem get_pool_entry_index (p : eth_frame_pool) (h : p.pool.length = NUM_ENTRIES)
    (slot : slot_point) (symbol : Nat) :
    NUM_ENTRIES = 280 ∧ NUM_ENTRIES = 14 * 20 ∧
    sym_index slot symbol = (slot.slot_index * 14 + symbol) % 280 ∧
    sym_index slot symbol < 280 ∧
    ∃ e, p.get_pool_entry slot symbol = some e ∧
      p.pool[(slot.slot_index * 14 + symbol) % 280]? = some e := by
  have hlt : sym_index slot symbol < p.pool.length := by
    rw [h]; exact sym_index_lt slot symbol
  refine ⟨rfl, rfl, rfl, sym_index_lt slot symbol, p.pool[sym_index slot symbol], ?_, ?_⟩
  · simp [eth_frame_pool.get_pool_entry, hlt]
  · exact List.getElem?_eq_getElem hlt

/-- Witness of C10 on the freshly constructed pool, slot index 25 and symbol 7. -/
theorem get_pool_entry_index_witness :
    (eth_frame_pool.init ⟨2, 4⟩).pool.length = NUM_ENTRIES ∧
    (NUM_ENTRIES = 280 ∧ NUM_ENTRIES = 14 * 20 ∧
    sym_index ⟨25⟩ 7 = (25 * 14 + 7) % 280 ∧
    sym_index ⟨25⟩ 7 < 280 ∧
    ∃ e, (eth_frame_pool.init ⟨2, 4⟩).get_pool_entry ⟨25⟩ 7 = some e ∧
      (eth_frame_pool.init ⟨2, 4⟩).pool[(25 * 14 + 7) % 280]? = some e) :=
  ⟨(eth_frame_pool_init_wf ⟨2, 4⟩).1,
    get_pool_entry_index (eth_frame_pool.init ⟨2, 4⟩) (eth_frame_pool_init_wf ⟨2, 4⟩).1 ⟨25⟩ 7⟩

/-! ## Overwriting of unread batches -/

/-- C13: in every state reached from a freshly constructed circular array, the list returned
by `get_rd_buffers` is a final segment of the list of the views passed to `push_buffers` since
the most recent `clear_buffers`, in the order of the pushes (it starts after the most recent
clear, explicit or triggered by a full list); and `get_wr_buffers` leaves the list returned by
`get_rd_buffers` as it is. -/
theorem ready_batches_were_pushed (c : ofh_constants) (n : Nat) (ops : List array_op)
    (a : frame_buffer_array) (h : (frame_buffer_array.init c n).run ops = some a) :
    List.IsSuffix a.get_rd_buffers (pushed_since_clear [] ops) ∧
      ∀ s a1, a.get_wr_buffers = some (s, a1) → a1.get_rd_buffers = a.get_rd_buffers := by
  constructor
  · rw [get_rd_buffers_eq]
    exact run_pushed ops (frame_buffer_array.init c n) a [] List.nil_suffix h
  · intro s a1 hg
    rw [get_rd_buffers_eq, get_rd_buffers_eq, (get_wr_buffers_ready a a1 s hg).1]

/-- Witness of C13: a write, a push, a clear, then three pushes and a write on a fresh array
for 2 packets; the views pushed since the clear are `(0,2)`, `(2,2)`, `(4,2)` and the last one
is ready. -/
theorem ready_batches_were_pushed_witness :
    (frame_buffer_array.init ⟨2, 4⟩ 2).run
        [.get_wr_buffers, .push_buffers ⟨6, 2⟩, .clear_buffers, .push_buffers ⟨0, 2⟩,
         .push_buffers ⟨2, 2⟩, .push_buffers ⟨4, 2⟩, .get_wr_buffers]
      = some { frame_buffer_array.init ⟨2, 4⟩ 2 with
                ready_frames := [⟨4, 2⟩], write_position := ⟨4, 4⟩ } ∧
    (List.IsSuffix ({ frame_buffer_array.init ⟨2, 4⟩ 2 with
          ready_frames := [⟨4, 2⟩], write_position := ⟨4, 4⟩ } : frame_buffer_array).get_rd_buffers
        (pushed_since_clear []
          [.get_wr_buffers, .push_buffers ⟨6, 2⟩, .clear_buffers, .push_buffers ⟨0, 2⟩,
           .push_buffers ⟨2, 2⟩, .push_buffers ⟨4, 2⟩, .get_wr_buffers]) ∧
      ∀ s a1, ({ frame_buffer_array.init ⟨2, 4⟩ 2 with
          ready_frames := [⟨4, 2⟩], write_position := ⟨4, 4⟩ } : frame_buffer_array).get_wr_buffers
            = some (s, a1) →
        a1.get_rd_buffers = ({ frame_buffer_array.init ⟨2, 4⟩ 2 with
          ready_frames := [⟨4, 2⟩], write_position := ⟨4, 4⟩ } : frame_buffer_array).get_rd_buffers) :=
  ⟨rfl, ready_batches_were_pushed ⟨2, 4⟩ 2
    [.get_wr_buffers, .push_buffers ⟨6, 2⟩, .clear_buffers, .push_buffers ⟨0, 2⟩,
     .push_buffers ⟨2, 2⟩, .push_buffers ⟨4, 2⟩, .get_wr_buffers] _ rfl⟩

/-! ## Frame buffer: assertion, invariant, clear and views -/

/-- C14: `set_size(n)` fails exactly when `n > 9600`; for `n ≤ 9600` it succeeds; and when it
fails, the execution stops at the assertion in the state of the call, with neither the logical
size nor the byte array modified. -/
theorem set_size_fails_iff (fb : frame_buffer) (n : Nat) :
    (fb.set_size n = none ↔ 9600 < n) ∧
    (n ≤ 9600 → ∃ fb1, fb.set_size n = some fb1) ∧
    (9600 < n → fb.set_size_exec n = (fb, false)) ∧
    (fb.set_size n =
      if (fb.set_size_exec n).2 = true then some (fb.set_size_exec n).1 else none) := by
  refine ⟨?_, ?_, ?_, set_size_eq_exec fb n⟩
  · unfold frame_buffer.set_size
    by_cases h : n ≤ MAX_ETH_FRAME_LENGTH
    · have h2 : ¬ 9600 < n := by simp only [MAX_ETH_FRAME_LENGTH] at h; omega
      simp [h, h2]
    · have h2 : 9600 < n := by simp only [MAX_ETH_FRAME_LENGTH] at h; omega
      simp [h, h2]
  · intro h
    have h2 : n ≤ MAX_ETH_FRAME_LENGTH := h
    simp only [frame_buffer.set_size, h2, if_true]
    exact ⟨_, rfl⟩
  · intro h
    have h2 : ¬ n ≤ MAX_ETH_FRAME_LENGTH := by simp only [MAX_ETH_FRAME_LENGTH]; omega
    simp only [frame_buffer.set_size_exec, h2, if_false]

/-- C15: in every state reached from a default-constructed frame buffer by `set_size` calls
that pass the assertion and `clear` calls, the logical size is at most 9600 and is either 0 or
at least 64. -/
theorem size_invariant (ops : List buffer_op) (fb : frame_buffer)
    (h : frame_buffer.init.run ops = some fb) :
    fb.size ≤ 9600 ∧ (fb.size = 0 ∨ 64 ≤ fb.size) :=
  frame_buffer_run_size ops frame_buffer.init fb ⟨Nat.zero_le _, Or.inl rfl⟩ h

/-- Witness of C15: `set_size(30)`, `clear`, `set_size(100)` on a default-constructed buffer. -/
theorem size_invariant_witness :
    frame_buffer.init.run [.set_size 30, .clear, .set_size 100]
      = some ⟨100, fill frame_buffer.init.buffer 30 0 34⟩ ∧
    ((⟨100, fill frame_buffer.init.buffer 30 0 34⟩ : frame_buffer).size ≤ 9600 ∧
      ((⟨100, fill frame_buffer.init.buffer 30 0 34⟩ : frame_buffer).size = 0 ∨
        64 ≤ (⟨100, fill frame_buffer.init.buffer 30 0 34⟩ : frame_buffer).size)) :=
  ⟨rfl, size_invariant [.set_size 30, .clear, .set_size 100] _ rfl⟩

/-- C16: `clear()` sets the logical size to 0, so that `size()` is 0 and `empty()` is true, and
leaves the byte array, hence every one of its bytes, unchanged. -/
theorem clear_resets_size_only (fb : frame_buffer) :
    fb.clear.size = 0 ∧ fb.clear.empty = true ∧ fb.clear.buffer = fb.buffer ∧
      ∀ i : Nat, fb.clear.buffer[i]? = fb.buffer[i]? :=
  ⟨rfl, rfl, rfl, fun _ => rfl⟩

/-- C17: for a frame buffer whose byte array has 9600 bytes and whose logical size is within
the capacity, the mutable `data()` view is the whole array of 9600 bytes whatever the logical
size, the immutable `data()` view is the first `size()` bytes of the array and has length
`size()`, and after `clear()` the immutable view is empty while the mutable view still has
9600 bytes. -/
theorem data_views (fb : frame_buffer) (hwf : fb.wf) (hsz : fb.size ≤ 9600) :
    fb.data.length = 9600 ∧ fb.data = fb.buffer ∧
    fb.data_const = fb.buffer.take fb.size ∧ fb.data_const.length = fb.size ∧
    fb.clear.data_const = [] ∧ fb.clear.data.length = 9600 := by
  refine ⟨hwf, rfl, rfl, ?_, rfl, hwf⟩
  simp only [frame_buffer.data_const, frame_buffer.size, List.length_take] at *
  rw [hwf]
  simp only [MAX_ETH_FRAME_LENGTH]
  omega

/-- Witness of C17: a buffer of logical size 100 over an array filled with the byte 255. -/
theorem data_views_witness :
    (⟨100, List.replicate 9600 255⟩ : frame_buffer).wf ∧
    (⟨100, List.replicate 9600 255⟩ : frame_buffer).size ≤ 9600 ∧
    ((⟨100, List.replicate 9600 255⟩ : frame_buffer).data.length = 9600 ∧
      (⟨100, List.replicate 9600 255⟩ : frame_buffer).data = List.replicate 9600 255 ∧
      (⟨100, List.replicate 9600 255⟩ : frame_buffer).data_const
        = (List.replicate 9600 255).take 100 ∧
      (⟨100, List.replicate 9600 255⟩ : frame_buffer).data_const.length = 100 ∧
      (⟨100, List.replicate 9600 255⟩ : frame_buffer).clear.data_const = [] ∧
      (⟨100, List.replicate 9600 255⟩ : frame_buffer).clear.data.length = 9600) :=
  ⟨List.length_replicate 9600 255, by decide,
    data_views ⟨100, List.replicate 9600 255⟩ (List.length_replicate 9600 255) (by decide)⟩

/-! ## Reading and clearing the ready list of a circular array -/

/-- C18: `get_rd_buffers` is a pure read: the call leaves the array (ready list, write counter,
buffers) as it is, so a second call returns the same list; the list is the ready list, and it
is the empty view exactly when the ready list is empty. -/
theorem get_rd_buffers_pure (a : frame_buffer_array) :
    a.step .get_rd_buffers = some a ∧
    a.run [.get_rd_buffers, .get_rd_buffers] = some a ∧
    (∀ a1, a.step .get_rd_buffers = some a1 → a1.get_rd_buffers = a.get_rd_buffers) ∧
    a.get_rd_buffers = a.ready_frames ∧
    (a.get_rd_buffers = [] ↔ a.ready_frames = []) := by
  refine ⟨rfl, rfl, ?_, get_rd_buffers_eq a, ?_⟩
  · intro a1 h
    simp only [frame_buffer_array.step, Option.some.injEq] at h
    rw [h]
  · rw [get_rd_buffers_eq]

/-- C19: `clear_buffers()` empties the ready list, so that `get_rd_buffers` returns an empty
view, and leaves the write counter, the increment and the storage (the size and the bytes of
every buffer) unchanged. -/
theorem clear_buffers_only_ready (a : frame_buffer_array) :
    a.clear_buffers.ready_frames = [] ∧ a.clear_buffers.get_rd_buffers = [] ∧
    a.clear_buffers.write_position = a.write_position ∧
    a.clear_buffers.buf_array = a.buf_array ∧
    a.clear_buffers.increment_quant = a.increment_quant :=
  ⟨rfl, rfl, rfl, rfl, rfl⟩

/-! ## Aliased coordinates and empty reads -/

/-- C11: when the unwrapped indices `slot_index * 14 + symbol` of two coordinates differ by a
multiple of 280, both coordinates have the same `sym_index` and `get_pool_entry` returns the
same entry of a well-formed pool for both; a batch published under the first coordinate is
then the most recent batch returned by `read_frame_buffers` under the second. -/
theorem aliased_coordinates (c : ofh_constants) (p : eth_frame_pool) (hwf : p.wf c)
    (slot1 slot2 : slot_point) (symbol1 symbol2 m : Nat)
    (h : slot2.slot_index * 14 + symbol2 = slot1.slot_index * 14 + symbol1 + 280 * m ∨
      slot1.slot_index * 14 + symbol1 = slot2.slot_index * 14 + symbol2 + 280 * m) :
    sym_index slot1 symbol1 = sym_index slot2 symbol2 ∧
    p.get_pool_entry slot1 symbol1 = p.get_pool_entry slot2 symbol2 ∧
    (∃ e, p.get_pool_entry slot1 symbol1 = some e) ∧
    ∀ type b, ∃ p1 rd, p.eth_frames_ready slot1 symbol1 type b = some p1 ∧
      p1.read_frame_buffers slot2 symbol2 type = some rd ∧ rd.getLast? = some b := by
  have hidx : sym_index slot1 symbol1 = sym_index slot2 symbol2 := by
    rcases h with h | h
    · exact sym_index_add_mul slot1 slot2 symbol1 symbol2 m h
    · exact (sym_index_add_mul slot2 slot1 symbol2 symbol1 m h).symm
  obtain ⟨e, he, _⟩ := wf_get_pool_entry c p hwf slot1 symbol1
  refine ⟨hidx, by simp only [eth_frame_pool.get_pool_entry, hidx], ⟨e, he⟩, ?_⟩
  intro type b
  obtain ⟨p1, a, a1, hr, _, hpush, ha1⟩ := eth_frames_ready_array_at c p hwf slot1 symbol1 type b
  refine ⟨p1, a1.ready_frames, hr, ?_, ?_⟩
  · rw [← read_frame_buffers_congr p1 slot1 slot2 symbol1 symbol2 type hidx,
      read_frame_buffers_eq, ha1]
    rfl
  · rcases push_buffers_ready_cases a a1 b hpush with h1 | h1
    · rw [h1]; rfl
    · rw [h1]; exact List.getLast?_concat _

/-- Witness of C11: slot index 0, symbol 3 and slot index 20, symbol 3 are 280 apart. -/
theorem aliased_coordinates_witness :
    (eth_frame_pool.init ⟨2, 4⟩).wf ⟨2, 4⟩ ∧
    ((20 * 14 + 3 = 0 * 14 + 3 + 280 * 1 ∨ 0 * 14 + 3 = 20 * 14 + 3 + 280 * 1) ∧
    (sym_index ⟨0⟩ 3 = sym_index ⟨20⟩ 3 ∧
    (eth_frame_pool.init ⟨2, 4⟩).get_pool_entry ⟨0⟩ 3
      = (eth_frame_pool.init ⟨2, 4⟩).get_pool_entry ⟨20⟩ 3 ∧
    (∃ e, (eth_frame_pool.init ⟨2, 4⟩).get_pool_entry ⟨0⟩ 3 = some e) ∧
    ∀ type b, ∃ p1 rd, (eth_frame_pool.init ⟨2, 4⟩).eth_frames_ready ⟨0⟩ 3 type b = some p1 ∧
      p1.read_frame_buffers ⟨20⟩ 3 type = some rd ∧ rd.getLast? = some b)) :=
  ⟨eth_frame_pool_init_wf ⟨2, 4⟩, Or.inl (by decide),
    aliased_coordinates ⟨2, 4⟩ (eth_frame_pool.init ⟨2, 4⟩) (eth_frame_pool_init_wf ⟨2, 4⟩)
      ⟨0⟩ ⟨20⟩ 3 3 1 (Or.inl (by decide))⟩

/-- C20: `read_frame_buffers` returns an empty view, and does not fail, for every slot, symbol
and category on a freshly constructed pool, and in every state reached from a freshly
constructed pool, or from the state left by `eth_frames_sent` for the coordinate, by
operations none of which publishes a batch to the array of the coordinate. -/
theorem read_empty_until_published (c : ofh_constants) (p0 : eth_frame_pool)
    (slot : slot_point) (symbol : Nat) (type : message_type)
    (hbase : p0 = eth_frame_pool.init c ∨
      ∃ q : eth_frame_pool, q.eth_frames_sent slot symbol type = some p0)
    (ops : List pool_op)
    (hops : ∀ op ∈ ops, op.publishes_to (sym_index slot symbol) type = false)
    (p : eth_frame_pool) (hrun : p0.run ops = some p) :
    (eth_frame_pool.init c).read_frame_buffers slot symbol type = some [] ∧
    p.read_frame_buffers slot symbol type = some [] := by
  constructor
  · rw [read_frame_buffers_eq, array_at_init]
    rfl
  · have h0 : ∃ a, p0.array_at slot symbol type = some a ∧ a.ready_frames = [] := by
      rcases hbase with h | ⟨q, hq⟩
      · subst h
        exact ⟨_, array_at_init c slot symbol type, rfl⟩
      · obtain ⟨e, a0, he, ha0, hp⟩ := eth_frames_sent_shape q p0 slot symbol type hq
        refine ⟨a0.clear_buffers, ?_, rfl⟩
        rw [hp, array_at_set q e a0 _ slot symbol type he ha0]
        simp
    obtain ⟨a, ha, hempty⟩ := h0
    obtain ⟨a1, ha1, he1⟩ := run_ready_empty ops p0 p slot symbol type hops hrun a ha hempty
    rw [read_frame_buffers_eq, ha1]
    simp [he1]

set_option maxRecDepth 100000 in
/-- Witness of C20: on a fresh pool, a batch published to the user-plane array of slot 10,
symbol 3 and a read leave the control-plane array of that coordinate without ready batch. -/
theorem read_empty_until_published_witness :
    (eth_frame_pool.init ⟨2, 4⟩ = eth_frame_pool.init ⟨2, 4⟩ ∨
      ∃ q : eth_frame_pool,
        q.eth_frames_sent ⟨10⟩ 3 .control_plane = some (eth_frame_pool.init ⟨2, 4⟩)) ∧
    (∀ op ∈ [pool_op.eth_frames_ready ⟨10⟩ 3 .user_plane ⟨0, 4⟩,
          pool_op.read_frame_buffers ⟨10⟩ 3 .control_plane],
        op.publishes_to (sym_index ⟨10⟩ 3) .control_plane = false) ∧
    (eth_frame_pool.init ⟨2, 4⟩).run
        [pool_op.eth_frames_ready ⟨10⟩ 3 .user_plane ⟨0, 4⟩,
          pool_op.read_frame_buffers ⟨10⟩ 3 .control_plane]
      = some (eth_frame_pool.mk ((eth_frame_pool.init ⟨2, 4⟩).pool.set 143
          (pool_entry.mk ((pool_entry.init ⟨2, 4⟩).buffers.set 1
            { frame_buffer_array.init ⟨2, 4⟩ 4 with ready_frames := [⟨0, 4⟩] })))) ∧
    ((eth_frame_pool.init ⟨2, 4⟩).read_frame_buffers ⟨10⟩ 3 .control_plane = some [] ∧
      (eth_frame_pool.mk ((eth_frame_pool.init ⟨2, 4⟩).pool.set 143
          (pool_entry.mk ((pool_entry.init ⟨2, 4⟩).buffers.set 1
            { frame_buffer_array.init ⟨2, 4⟩ 4 with ready_frames := [⟨0, 4⟩] })))).read_frame_buffers
        ⟨10⟩ 3 .control_plane = some []) :=
  ⟨Or.inl rfl, by decide, rfl,
    read_empty_until_published ⟨2, 4⟩ (eth_frame_pool.init ⟨2, 4⟩) ⟨10⟩ 3 .control_plane
      (Or.inl rfl)
      [pool_op.eth_frames_ready ⟨10⟩ 3 .user_plane ⟨0, 4⟩,
        pool_op.read_frame_buffers ⟨10⟩ 3 .control_plane]
      (by decide) _ rfl⟩

/-! ## Storage bounds, stale buffers and reuse of the write views -/

/-- C22: for `N ≥ 1` with `2 * N ≤ MAX_ETH_FRAMES_PER_SYMBOL`, which holds for the capacity of
either category, and as long as the counter does not overflow (`2 * N` and `(k + 1) * N` below
`2 ^ 32`), the call number `k` of `get_wr_buffers` on a fresh array succeeds, so the modulo
does not divide by zero, and the view it returns lies inside the storage array. -/
theorem write_view_inside_storage (c : ofh_constants) (N k : Nat) (hN : 1 ≤ N)
    (hmax : 2 * N ≤ MAX_ETH_FRAMES_PER_SYMBOL c) (h2 : 2 * N < UNSIGNED_MOD)
    (hk : (k + 1) * N < UNSIGNED_MOD) :
    (∀ type, 2 * capacity c type ≤ MAX_ETH_FRAMES_PER_SYMBOL c) ∧
    ∃ ak s ak1, (frame_buffer_array.init c N).after_writes k = some ak ∧
      ak.get_wr_buffers = some (s, ak1) ∧
      ak.write_position.boundary ≠ 0 ∧
      ak.buf_array.length = MAX_ETH_FRAMES_PER_SYMBOL c ∧
      s.size = N ∧ s.data + s.size ≤ ak.buf_array.length := by
  refine ⟨two_capacity_le c, ?_⟩
  have hb : (2 * N) % UNSIGNED_MOD ≠ 0 := by
    rw [Nat.mod_eq_of_lt h2]; omega
  have hview := kth_write_view c N k hN h2 hk
  have hst := after_writes_init c N k hb
  rw [hst] at hview
  refine ⟨_, _, _, hst, hview, hb, ?_, rfl, ?_⟩
  · simp [frame_buffer_array.init]
  · simp only [frame_buffer_array.init, List.length_replicate]
    have h3 : k % 2 < 2 := Nat.mod_lt _ (by decide)
    have h4 : k % 2 * N ≤ 1 * N := Nat.mul_le_mul_right N (by omega)
    omega

/-- Witness of C22: the call number 5 on the control-plane array of capacities 2 and 4. -/
theorem write_view_inside_storage_witness :
    1 ≤ 2 ∧ 2 * 2 ≤ MAX_ETH_FRAMES_PER_SYMBOL ⟨2, 4⟩ ∧ 2 * 2 < UNSIGNED_MOD ∧
    (5 + 1) * 2 < UNSIGNED_MOD ∧
    ((∀ type, 2 * capacity ⟨2, 4⟩ type ≤ MAX_ETH_FRAMES_PER_SYMBOL ⟨2, 4⟩) ∧
    ∃ ak s ak1, (frame_buffer_array.init ⟨2, 4⟩ 2).after_writes 5 = some ak ∧
      ak.get_wr_buffers = some (s, ak1) ∧
      ak.write_position.boundary ≠ 0 ∧
      ak.buf_array.length = MAX_ETH_FRAMES_PER_SYMBOL ⟨2, 4⟩ ∧
      s.size = 2 ∧ s.data + s.size ≤ ak.buf_array.length) :=
  ⟨by decide, by decide, by decide, by decide,
    write_view_inside_storage ⟨2, 4⟩ 2 5 (by decide) (by decide) (by decide) (by decide)⟩

/-- C26: `get_wr_buffers` of the circular array changes only the count of the write counter:
the storage (logical size and bytes of every buffer, those of the returned view included),
the ready list, the increment and the boundary are the same after the call as before. -/
theorem get_wr_buffers_only_cursor (a a1 : frame_buffer_array) (s : span)
    (h : a.get_wr_buffers = some (s, a1)) :
    a1.buf_array = a.buf_array ∧ a1.ready_frames = a.ready_frames ∧
    a1.increment_quant = a.increment_quant ∧
    a1.write_position.boundary = a.write_position.boundary ∧
    ∀ i : Nat, a1.buf_array[i]? = a.buf_array[i]? := by
  obtain ⟨h1, h2, h3⟩ := get_wr_buffers_ready a a1 s h
  refine ⟨h2, h1, h3, ?_, fun i => by rw [h2]⟩
  unfold frame_buffer_array.get_wr_buffers at h
  cases hv : a.write_position.value with
  | none => simp [hv] at h
  | some v =>
    simp only [hv, Option.some.injEq, Prod.mk.injEq] at h
    obtain ⟨_, h4⟩ := h
    subst h4
    rfl

/-- Witness of C26: an array for one packet whose first buffer holds a stale size of 100 and
stale bytes; the view returned covers that buffer and nothing of it is changed. -/
theorem get_wr_buffers_only_cursor_witness :
    (frame_buffer_array.mk [⟨100, [7, 7, 7]⟩, ⟨0, [0, 0, 0]⟩] [⟨1, 1⟩] ⟨0, 2⟩ 1).get_wr_buffers
      = some (⟨0, 1⟩,
          frame_buffer_array.mk [⟨100, [7, 7, 7]⟩, ⟨0, [0, 0, 0]⟩] [⟨1, 1⟩] ⟨1, 2⟩ 1) ∧
    ((frame_buffer_array.mk [⟨100, [7, 7, 7]⟩, ⟨0, [0, 0, 0]⟩] [⟨1, 1⟩] ⟨1, 2⟩ 1).buf_array
        = (frame_buffer_array.mk [⟨100, [7, 7, 7]⟩, ⟨0, [0, 0, 0]⟩] [⟨1, 1⟩] ⟨0, 2⟩ 1).buf_array ∧
      (frame_buffer_array.mk [⟨100, [7, 7, 7]⟩, ⟨0, [0, 0, 0]⟩] [⟨1, 1⟩] ⟨1, 2⟩ 1).ready_frames
        = (frame_buffer_array.mk [⟨100, [7, 7, 7]⟩, ⟨0, [0, 0, 0]⟩] [⟨1, 1⟩] ⟨0, 2⟩ 1).ready_frames ∧
      (frame_buffer_array.mk [⟨100, [7, 7, 7]⟩, ⟨0, [0, 0, 0]⟩] [⟨1, 1⟩] ⟨1, 2⟩ 1).increment_quant
        = (frame_buffer_array.mk [⟨100, [7, 7, 7]⟩, ⟨0, [0, 0, 0]⟩] [⟨1, 1⟩] ⟨0, 2⟩ 1).increment_quant ∧
      (frame_buffer_array.mk [⟨100, [7, 7, 7]⟩, ⟨0, [0, 0, 0]⟩] [⟨1, 1⟩] ⟨1, 2⟩ 1).write_position.boundary
        = (frame_buffer_array.mk [⟨100, [7, 7, 7]⟩, ⟨0, [0, 0, 0]⟩] [⟨1, 1⟩] ⟨0, 2⟩ 1).write_position.boundary ∧
      ∀ i : Nat,
        (frame_buffer_array.mk [⟨100, [7, 7, 7]⟩, ⟨0, [0, 0, 0]⟩] [⟨1, 1⟩] ⟨1, 2⟩ 1).buf_array[i]?
          = (frame_buffer_array.mk [⟨100, [7, 7, 7]⟩, ⟨0, [0, 0, 0]⟩] [⟨1, 1⟩] ⟨0, 2⟩ 1).buf_array[i]?) :=
  ⟨by decide, get_wr_buffers_only_cursor _ _ ⟨0, 1⟩ (by decide)⟩

/-- C27: on an array constructed for `N ≥ 1` packets and without overflow of the counter,
the call of `get_wr_buffers` made after a sequence `ops` of operations and the call made two
writes later return the same view `((k % 2) * N, N)`, `k` being the number of writes in `ops`,
whatever pushes, reads and clears `ops` and the operations `mid` in between contain. -/
theorem view_reused_after_two_cycles (c : ofh_constants) (N : Nat) (hN : 1 ≤ N)
    (h2 : 2 * N < UNSIGNED_MOD) (ops mid : List array_op) (hmid : count_writes mid = 1)
    (hk : (count_writes ops + 3) * N < UNSIGNED_MOD) (a a2 : frame_buffer_array)
    (h1 : (frame_buffer_array.init c N).run ops = some a)
    (h3 : (frame_buffer_array.init c N).run (ops ++ [array_op.get_wr_buffers] ++ mid) = some a2) :
    ∃ a1 a3, a.get_wr_buffers = some (⟨(count_writes ops % 2) * N, N⟩, a1) ∧
      a2.get_wr_buffers = some (⟨(count_writes ops % 2) * N, N⟩, a3) := by
  have h0 : (frame_buffer_array.init c N).write_position.count < UNSIGNED_MOD := by
    simp [frame_buffer_array.init, rd_wr_counter.init, UNSIGNED_MOD]
  obtain ⟨w1, q1, _⟩ := run_write_position ops _ a h0 h1
  obtain ⟨w2, q2, _⟩ := run_write_position _ _ a2 h0 h3
  have hcw : count_writes (ops ++ [array_op.get_wr_buffers] ++ mid) = count_writes ops + 2 := by
    rw [count_writes_append, count_writes_append, hmid]
    rfl
  rw [hcw] at w2
  simp only [frame_buffer_array.init, rd_wr_counter.init, Nat.zero_add,
    Nat.mod_eq_of_lt h2] at w1 w2 q1 q2
  have hlt1 : count_writes ops * N < UNSIGNED_MOD := by
    have : count_writes ops * N ≤ (count_writes ops + 3) * N :=
      Nat.mul_le_mul_right N (by omega)
    omega
  have hlt2 : (count_writes ops + 2) * N < UNSIGNED_MOD := by
    have : (count_writes ops + 2) * N ≤ (count_writes ops + 3) * N :=
      Nat.mul_le_mul_right N (by omega)
    omega
  rw [Nat.mod_eq_of_lt hlt1] at w1
  rw [Nat.mod_eq_of_lt hlt2] at w2
  have hn0 : 2 * N ≠ 0 := by omega
  have hv1 : (count_writes ops * N) % (2 * N) = (count_writes ops % 2) * N :=
    Nat.mul_mod_mul_right _ _ _
  have hv2 : ((count_writes ops + 2) * N) % (2 * N) = (count_writes ops % 2) * N := by
    rw [Nat.mul_mod_mul_right, Nat.add_mod_right]
  refine ⟨{ a with write_position := a.write_position.increment a.increment_quant },
    { a2 with write_position := a2.write_position.increment a2.increment_quant }, ?_, ?_⟩
  · simp only [frame_buffer_array.get_wr_buffers, rd_wr_counter.value, w1, q1, hn0, if_false,
      hv1]
  · simp only [frame_buffer_array.get_wr_buffers, rd_wr_counter.value, w2, q2, hn0, if_false,
      hv2]

/-- Witness of C27: on an array for 2 packets, the write after one write and a push, and the
write two writes later, with a push and a clear in between. -/
theorem view_reused_after_two_cycles_witness :
    1 ≤ 2 ∧ 2 * 2 < UNSIGNED_MOD ∧
    count_writes [array_op.push_buffers ⟨2, 2⟩, array_op.get_wr_buffers,
      array_op.clear_buffers] = 1 ∧
    (count_writes [array_op.get_wr_buffers, array_op.push_buffers ⟨0, 2⟩] + 3) * 2
      < UNSIGNED_MOD ∧
    (frame_buffer_array.init ⟨2, 4⟩ 2).run
        [array_op.get_wr_buffers, array_op.push_buffers ⟨0, 2⟩]
      = some { frame_buffer_array.init ⟨2, 4⟩ 2 with
          ready_frames := [⟨0, 2⟩], write_position := ⟨2, 4⟩ } ∧
    (frame_buffer_array.init ⟨2, 4⟩ 2).run
        ([array_op.get_wr_buffers, array_op.push_buffers ⟨0, 2⟩] ++ [array_op.get_wr_buffers]
          ++ [array_op.push_buffers ⟨2, 2⟩, array_op.get_wr_buffers, array_op.clear_buffers])
      = some { frame_buffer_array.init ⟨2, 4⟩ 2 with
          ready_frames := [], write_position := ⟨6, 4⟩ } ∧
    ∃ a1 a3,
      ({ frame_buffer_array.init ⟨2, 4⟩ 2 with
          ready_frames := [⟨0, 2⟩], write_position := ⟨2, 4⟩ } : frame_buffer_array).get_wr_buffers
        = some (⟨(count_writes [array_op.get_wr_buffers, array_op.push_buffers ⟨0, 2⟩] % 2) * 2,
            2⟩, a1) ∧
      ({ frame_buffer_array.init ⟨2, 4⟩ 2 with
          ready_frames := [], write_position := ⟨6, 4⟩ } : frame_buffer_array).get_wr_buffers
        = some (⟨(count_writes [array_op.get_wr_buffers, array_op.push_buffers ⟨0, 2⟩] % 2) * 2,
            2⟩, a3) :=
  ⟨by decide, by decide, by decide, by decide, rfl, rfl,
    view_reused_after_two_cycles ⟨2, 4⟩ 2 (by decide) (by decide)
      [array_op.get_wr_buffers, array_op.push_buffers ⟨0, 2⟩]
      [array_op.push_buffers ⟨2, 2⟩, array_op.get_wr_buffers, array_op.clear_buffers]
      (by decide) (by decide) _ _ rfl rfl⟩

/-- C28: after `k ≥ 1` consecutive `push_buffers` calls on an array whose ready list was
empty, all calls have succeeded, the ready list has length 2 when `k` is even and 1 when `k`
is odd, and it consists of the last that-many pushed batches in push order. -/
theorem push_parity (a : frame_buffer_array) (h : a.ready_frames = []) (bs : List span)
    (hk : 1 ≤ bs.length) :
    ∃ a1, a.run (bs.map array_op.push_buffers) = some a1 ∧
      a1.get_rd_buffers.length = (if bs.length % 2 = 0 then 2 else 1) ∧
      a1.get_rd_buffers = bs.drop (bs.length - (if bs.length % 2 = 0 then 2 else 1)) := by
  obtain ⟨a1, hr, hready⟩ := run_pushes a h bs
  rw [if_neg (by omega)] at hready
  refine ⟨a1, hr, ?_, by rw [get_rd_buffers_eq, hready]⟩
  rw [get_rd_buffers_eq, hready, List.length_drop]
  by_cases hev : bs.length % 2 = 0
  · simp only [hev, if_true]; omega
  · simp only [hev, if_false]; omega

/-- Witness of C28: five pushes on a fresh array leave the fifth batch alone. -/
theorem push_parity_witness :
    (frame_buffer_array.init ⟨2, 4⟩ 2).ready_frames = [] ∧
    1 ≤ [(⟨0, 2⟩ : span), ⟨2, 2⟩, ⟨4, 2⟩, ⟨6, 2⟩, ⟨0, 2⟩].length ∧
    ∃ a1, (frame_buffer_array.init ⟨2, 4⟩ 2).run
        ([(⟨0, 2⟩ : span), ⟨2, 2⟩, ⟨4, 2⟩, ⟨6, 2⟩, ⟨0, 2⟩].map array_op.push_buffers) = some a1 ∧
      a1.get_rd_buffers.length
        = (if [(⟨0, 2⟩ : span), ⟨2, 2⟩, ⟨4, 2⟩, ⟨6, 2⟩, ⟨0, 2⟩].length % 2 = 0 then 2 else 1) ∧
      a1.get_rd_buffers = [(⟨0, 2⟩ : span), ⟨2, 2⟩, ⟨4, 2⟩, ⟨6, 2⟩, ⟨0, 2⟩].drop
        ([(⟨0, 2⟩ : span), ⟨2, 2⟩, ⟨4, 2⟩, ⟨6, 2⟩, ⟨0, 2⟩].length
          - (if [(⟨0, 2⟩ : span), ⟨2, 2⟩, ⟨4, 2⟩, ⟨6, 2⟩, ⟨0, 2⟩].length % 2 = 0 then 2 else 1)) :=
  ⟨rfl, by decide,
    push_parity (frame_buffer_array.init ⟨2, 4⟩ 2) rfl
      [⟨0, 2⟩, ⟨2, 2⟩, ⟨4, 2⟩, ⟨6, 2⟩, ⟨0, 2⟩] (by decide)⟩

/-! ## Frame buffer: emptiness and bytes kept by `set_size` -/

/-- C29: for every `n ≤ 9600`, zero included, `set_size(n)` succeeds and leaves a buffer that
is not empty, of size at least 64; `clear()` and default construction give an empty buffer;
and after any sequence of operations the buffer is empty exactly when the last operation was
`clear()`. -/
theorem set_size_not_empty (fb : frame_buffer) (n : Nat) (h : n ≤ 9600) :
    (∃ fb1, fb.set_size n = some fb1 ∧ fb1.empty = false ∧ 64 ≤ fb1.size) ∧
    fb.clear.empty = true ∧ frame_buffer.init.empty = true ∧
    ∀ (ops : List buffer_op) (op : buffer_op) (fb2 : frame_buffer),
      fb.run (ops ++ [op]) = some fb2 → (fb2.empty = true ↔ op = buffer_op.clear) := by
  refine ⟨?_, rfl, rfl, ?_⟩
  · have h2 : n ≤ MAX_ETH_FRAME_LENGTH := h
    obtain ⟨fb1, h1⟩ : ∃ fb1, fb.set_size n = some fb1 := by
      simp only [frame_buffer.set_size, h2, if_true]
      exact ⟨_, rfl⟩
    obtain ⟨_, h4⟩ := set_size_some_size fb fb1 n h1
    simp only [MIN_ETH_FRAME_LENGTH] at h4
    refine ⟨fb1, h1, ?_, h4⟩
    simp only [frame_buffer.empty, beq_eq_false_iff_ne, ne_eq]
    omega
  · intro ops op fb2 hr
    rw [frame_buffer_run_append] at hr
    cases h1 : fb.run ops with
    | none => simp [h1] at hr
    | some fb1 =>
      simp only [h1, Option.bind, frame_buffer.run] at hr
      cases op with
      | set_size m =>
        simp only [frame_buffer.step] at hr
        cases h3 : fb1.set_size m with
        | none => simp [h3] at hr
        | some fb3 =>
          simp only [h3, Option.some.injEq] at hr
          subst hr
          obtain ⟨_, h4⟩ := set_size_some_size fb1 fb3 m h3
          simp only [MIN_ETH_FRAME_LENGTH] at h4
          simp only [frame_buffer.empty, beq_iff_eq]
          constructor
          · intro h5; omega
          · intro h5; cases h5
      | clear =>
        simp only [frame_buffer.step, Option.some.injEq] at hr
        subst hr
        simp [frame_buffer.empty, frame_buffer.clear]

/-- Witness of C29: `set_size(0)` on a default-constructed buffer. -/
theorem set_size_not_empty_witness :
    0 ≤ 9600 ∧
    ((∃ fb1, frame_buffer.init.set_size 0 = some fb1 ∧ fb1.empty = false ∧ 64 ≤ fb1.size) ∧
    frame_buffer.init.clear.empty = true ∧ frame_buffer.init.empty = true ∧
    ∀ (ops : List buffer_op) (op : buffer_op) (fb2 : frame_buffer),
      frame_buffer.init.run (ops ++ [op]) = some fb2 →
        (fb2.empty = true ↔ op = buffer_op.clear)) :=
  ⟨by decide, set_size_not_empty frame_buffer.init 0 (by decide)⟩

/-- C30: for every `n ≤ 9600`, `set_size(n)` leaves every byte at an index outside `[n, 64)`
unchanged and keeps the length of the byte array; in particular the bytes below `min n 64` are
kept, and for `n ≥ 64` the byte array is not modified at all. -/
theorem set_size_keeps_other_bytes (fb : frame_buffer) (n : Nat) (h : n ≤ 9600) :
    ∃ fb1, fb.set_size n = some fb1 ∧
      fb1.buffer.length = fb.buffer.length ∧
      (∀ i : Nat, ¬ (n ≤ i ∧ i < 64) → fb1.buffer[i]? = fb.buffer[i]?) ∧
      (∀ i : Nat, i < min n 64 → fb1.buffer[i]? = fb.buffer[i]?) ∧
      (64 ≤ n → fb1.buffer = fb.buffer) := by
  have h2 : n ≤ MAX_ETH_FRAME_LENGTH := h
  by_cases hlt : n < 64
  · refine ⟨⟨64, fill fb.buffer n 0 (64 - n)⟩, ?_, fill_length _ _ _ _, ?_, ?_, ?_⟩
    · simp [frame_buffer.set_size, MIN_ETH_FRAME_LENGTH, h2, hlt]
    · intro i hi
      simp only [fill_getElem?]
      rw [if_neg (by omega)]
    · intro i hi
      simp only [fill_getElem?]
      rw [if_neg (by omega)]
    · intro h3
      omega
  · refine ⟨⟨n, fb.buffer⟩, ?_, rfl, fun _ _ => rfl, fun _ _ => rfl, fun _ => rfl⟩
    simp [frame_buffer.set_size, MIN_ETH_FRAME_LENGTH, h2, hlt]

/-- Witness of C30: `set_size(30)` on a buffer whose array is filled with the byte 255. -/
theorem set_size_keeps_other_bytes_witness :
    30 ≤ 9600 ∧
    ∃ fb1, (⟨100, List.replicate 9600 255⟩ : frame_buffer).set_size 30 = some fb1 ∧
      fb1.buffer.length = (⟨100, List.replicate 9600 255⟩ : frame_buffer).buffer.length ∧
      (∀ i : Nat, ¬ (30 ≤ i ∧ i < 64) →
        fb1.buffer[i]? = (⟨100, List.replicate 9600 255⟩ : frame_buffer).buffer[i]?) ∧
      (∀ i : Nat, i < min 30 64 →
        fb1.buffer[i]? = (⟨100, List.replicate 9600 255⟩ : frame_buffer).buffer[i]?) ∧
      (64 ≤ 30 → fb1.buffer = (⟨100, List.replicate 9600 255⟩ : frame_buffer).buffer) :=
  ⟨by decide, set_size_keeps_other_bytes ⟨100, List.replicate 9600 255⟩ 30 (by decide)⟩

/-! ## Independent buffering and refinement of the array operations -/

/-- Whenever it has a defined result, each of `get_frame_buffers`, `eth_frames_ready` and
`eth_frames_sent` called for `(slot, symbol, type)` changes at most the array of `type` in the
pool entry `(slot_index * 14 + symbol) % 280`: the pool keeps its entries, every other entry
is the same after the call, and in that entry the array of the other category is the same.
`get_frame_buffers` has a defined result exactly where its view lies inside the storage
(`get_frame_buffers_in_storage`, `get_write_buffers_outside_storage`). -/
theorem independent_buffering (p : eth_frame_pool) (slot : slot_point) (symbol : Nat)
    (type : message_type) :
    (∀ s p1, p.get_frame_buffers slot symbol type = some (s, p1) →
      only_array_changed p p1 ((slot.slot_index * 14 + symbol) % 280) type) ∧
    (∀ b p1, p.eth_frames_ready slot symbol type b = some p1 →
      only_array_changed p p1 ((slot.slot_index * 14 + symbol) % 280) type) ∧
    (∀ p1, p.eth_frames_sent slot symbol type = some p1 →
      only_array_changed p p1 ((slot.slot_index * 14 + symbol) % 280) type) := by
  have hidx : (slot.slot_index * 14 + symbol) % 280 = sym_index slot symbol := rfl
  rw [hidx]
  refine ⟨?_, ?_, ?_⟩
  · intro s p1 h
    obtain ⟨e, a, v, r, he, _, _, _, _, hp⟩ := get_frame_buffers_shape p p1 slot symbol type s h
    rw [hp]
    exact only_array_changed_set p e _ _ type he
  · intro b p1 h
    obtain ⟨e, a, a1, he, _, _, hp⟩ := eth_frames_ready_shape p p1 slot symbol type b h
    rw [hp]
    exact only_array_changed_set p e _ _ type he
  · intro p1 h
    obtain ⟨e, a, he, _, hp⟩ := eth_frames_sent_shape p p1 slot symbol type h
    rw [hp]
    exact only_array_changed_set p e _ _ type he

/-- C25: the pool operations are the operations of the circular array of the selected entry
and category: `eth_frames_ready`, `eth_frames_sent` and `read_frame_buffers` coincide with
`push_buffers`, `clear_buffers` and `get_rd_buffers` applied to the array number 0
(control-plane) or 1 (user-plane) of the pool entry `(slot_index * 14 + symbol) % 280`, and
the mutable and the immutable entry lookup return the same entry, the one at that index. -/
theorem pool_operations_refine (p : eth_frame_pool) (slot : slot_point) (symbol : Nat)
    (type : message_type) :
    (∀ b, p.eth_frames_ready slot symbol type b = spec_eth_frames_ready p slot symbol type b) ∧
    p.eth_frames_sent slot symbol type = spec_eth_frames_sent p slot symbol type ∧
    p.read_frame_buffers slot symbol type = spec_read_frame_buffers p slot symbol type ∧
    p.get_pool_entry_mut slot symbol = p.get_pool_entry slot symbol ∧
    p.get_pool_entry slot symbol = p.pool[(slot.slot_index * 14 + symbol) % 280]? ∧
    ∀ e : pool_entry, e.get_ofh_type_buffers type = e.buffers[spec_category_index type]? := by
  have hidx : sym_index slot symbol = spec_entry_index slot symbol := rfl
  have ht : type.toNat = spec_category_index type := by cases type <;> rfl
  refine ⟨?_, ?_, ?_, rfl, rfl, ?_⟩
  · intro b
    simp only [eth_frame_pool.eth_frames_ready, eth_frame_pool.get_pool_entry,
      spec_eth_frames_ready, spec_update_array, hidx]
    cases p.pool[spec_entry_index slot symbol]? with
    | none => rfl
    | some e =>
      simp only [pool_entry.push_buffers, pool_entry.get_ofh_type_buffers, ht]
      cases e.buffers[spec_category_index type]? with
      | none => rfl
      | some a =>
        simp only
        cases a.push_buffers b <;> rfl
  · simp only [eth_frame_pool.eth_frames_sent, eth_frame_pool.get_pool_entry,
      spec_eth_frames_sent, spec_update_array, hidx]
    cases p.pool[spec_entry_index slot symbol]? with
    | none => rfl
    | some e =>
      simp only [pool_entry.clear_buffers, pool_entry.get_ofh_type_buffers, ht]
      cases e.buffers[spec_category_index type]? <;> rfl
  · simp only [eth_frame_pool.read_frame_buffers, eth_frame_pool.get_pool_entry,
      spec_read_frame_buffers, hidx]
    cases p.pool[spec_entry_index slot symbol]? with
    | none => rfl
    | some e =>
      simp only [pool_entry.get_read_buffers, pool_entry.get_ofh_type_buffers, ht]
  · intro e
    simp only [pool_entry.get_ofh_type_buffers, ht]

/-! ## Effect of the write view of a pool entry, window of the index and counter overflow -/

/-- Where `pool_entry::get_write_buffers` has a defined result for a category, which is where
its view lies inside the storage, the array of the category has the same ready list,
increment, boundary and number of buffers as before, every buffer has the same bytes as
before, every buffer outside the returned view is the same as before, every buffer of the view
has logical size 0, and the arrays of the other categories are the same: only the count of the
write counter and the sizes of the returned buffers change. -/
theorem get_write_buffers_frame (e e1 : pool_entry) (type : message_type) (s : span)
    (a : frame_buffer_array) (h : e.get_write_buffers type = some (s, e1))
    (ha : e.get_ofh_type_buffers type = some a) :
    ∃ a1, e1.get_ofh_type_buffers type = some a1 ∧
      a1.ready_frames = a.ready_frames ∧ a1.increment_quant = a.increment_quant ∧
      a1.write_position.boundary = a.write_position.boundary ∧
      a1.buf_array.length = a.buf_array.length ∧
      s.size = a.increment_quant ∧
      (∀ (i : Nat) (fb : frame_buffer), a.buf_array[i]? = some fb →
        ∃ fb1, a1.buf_array[i]? = some fb1 ∧ fb1.buffer = fb.buffer ∧
          (¬ (s.data ≤ i ∧ i < s.data + s.size) → fb1 = fb) ∧
          ((s.data ≤ i ∧ i < s.data + s.size) → fb1.sz = 0)) ∧
      e1.buffers.length = e.buffers.length ∧
      ∀ t : Nat, t ≠ type.toNat → e1.buffers[t]? = e.buffers[t]? := by
  obtain ⟨a0, v, r, ha0, _, hc, hs, he1⟩ := pool_entry_get_write_buffers_shape e e1 type s h
  simp only [pool_entry.get_ofh_type_buffers] at ha
  rw [ha] at ha0
  simp only [Option.some.injEq] at ha0
  subst ha0
  obtain ⟨ht, _⟩ := List.getElem?_eq_some.mp ha
  obtain ⟨hlen, hget⟩ := clear_each_some_spec a.buf_array r v a.increment_quant hc
  subst hs he1
  refine ⟨frame_buffer_array.mk r a.ready_frames
      (a.write_position.increment a.increment_quant) a.increment_quant,
    ?_, rfl, rfl, rfl, hlen, rfl, ?_, List.length_set _ _ _, ?_⟩
  · simp only [pool_entry.get_ofh_type_buffers, List.getElem?_set_self ht]
  · intro i fb hfb
    simp only [hget i, hfb, Option.map]
    by_cases hin : v ≤ i ∧ i < v + a.increment_quant
    · rw [if_pos hin]
      exact ⟨fb.clear, rfl, rfl, fun hn => absurd hin hn, fun _ => rfl⟩
    · rw [if_neg hin]
      exact ⟨fb, rfl, rfl, fun _ => rfl, fun hy => absurd hy hin⟩
  · intro t hne
    exact List.getElem?_set_ne (fun hh => hne hh.symm)

/-- An instance of `get_write_buffers_frame`: an entry whose control-plane array, for one
packet, holds two buffers with stale sizes 100 and 64; the view is the first buffer, whose
size alone is reset. -/
theorem get_write_buffers_frame_witness :
    (pool_entry.mk [frame_buffer_array.mk [⟨100, [7]⟩, ⟨64, [8]⟩] [⟨1, 1⟩] ⟨0, 2⟩ 1,
        frame_buffer_array.mk [⟨70, [9]⟩] [] ⟨0, 2⟩ 1]).get_write_buffers
        message_type.control_plane
      = some (⟨0, 1⟩,
          pool_entry.mk [frame_buffer_array.mk [⟨0, [7]⟩, ⟨64, [8]⟩] [⟨1, 1⟩] ⟨1, 2⟩ 1,
            frame_buffer_array.mk [⟨70, [9]⟩] [] ⟨0, 2⟩ 1]) ∧
    (pool_entry.mk [frame_buffer_array.mk [⟨100, [7]⟩, ⟨64, [8]⟩] [⟨1, 1⟩] ⟨0, 2⟩ 1,
        frame_buffer_array.mk [⟨70, [9]⟩] [] ⟨0, 2⟩ 1]).get_ofh_type_buffers
        message_type.control_plane
      = some (frame_buffer_array.mk [⟨100, [7]⟩, ⟨64, [8]⟩] [⟨1, 1⟩] ⟨0, 2⟩ 1) ∧
    ∃ a1, (pool_entry.mk [frame_buffer_array.mk [⟨0, [7]⟩, ⟨64, [8]⟩] [⟨1, 1⟩] ⟨1, 2⟩ 1,
          frame_buffer_array.mk [⟨70, [9]⟩] [] ⟨0, 2⟩ 1]).get_ofh_type_buffers
          message_type.control_plane = some a1 ∧
      a1.ready_frames = [⟨1, 1⟩] ∧ a1.increment_quant = 1 ∧
      a1.write_position.boundary = 2 ∧
      a1.buf_array.length = 2 ∧
      (⟨0, 1⟩ : span).size = 1 ∧
      (∀ (i : Nat) (fb : frame_buffer),
        ([⟨100, [7]⟩, ⟨64, [8]⟩] : List frame_buffer)[i]? = some fb →
        ∃ fb1, a1.buf_array[i]? = some fb1 ∧ fb1.buffer = fb.buffer ∧
          (¬ ((⟨0, 1⟩ : span).data ≤ i ∧ i < (⟨0, 1⟩ : span).data + (⟨0, 1⟩ : span).size) →
            fb1 = fb) ∧
          (((⟨0, 1⟩ : span).data ≤ i ∧ i < (⟨0, 1⟩ : span).data + (⟨0, 1⟩ : span).size) →
            fb1.sz = 0)) ∧
      (pool_entry.mk [frame_buffer_array.mk [⟨0, [7]⟩, ⟨64, [8]⟩] [⟨1, 1⟩] ⟨1, 2⟩ 1,
          frame_buffer_array.mk [⟨70, [9]⟩] [] ⟨0, 2⟩ 1]).buffers.length = 2 ∧
      ∀ t : Nat, t ≠ message_type.control_plane.toNat →
        (pool_entry.mk [frame_buffer_array.mk [⟨0, [7]⟩, ⟨64, [8]⟩] [⟨1, 1⟩] ⟨1, 2⟩ 1,
          frame_buffer_array.mk [⟨70, [9]⟩] [] ⟨0, 2⟩ 1]).buffers[t]?
        = (pool_entry.mk [frame_buffer_array.mk [⟨100, [7]⟩, ⟨64, [8]⟩] [⟨1, 1⟩] ⟨0, 2⟩ 1,
          frame_buffer_array.mk [⟨70, [9]⟩] [] ⟨0, 2⟩ 1]).buffers[t]? :=
  ⟨by decide, by decide,
    get_write_buffers_frame
      (pool_entry.mk [frame_buffer_array.mk [⟨100, [7]⟩, ⟨64, [8]⟩] [⟨1, 1⟩] ⟨0, 2⟩ 1,
        frame_buffer_array.mk [⟨70, [9]⟩] [] ⟨0, 2⟩ 1])
      (pool_entry.mk [frame_buffer_array.mk [⟨0, [7]⟩, ⟨64, [8]⟩] [⟨1, 1⟩] ⟨1, 2⟩ 1,
        frame_buffer_array.mk [⟨70, [9]⟩] [] ⟨0, 2⟩ 1])
      message_type.control_plane ⟨0, 1⟩
      (frame_buffer_array.mk [⟨100, [7]⟩, ⟨64, [8]⟩] [⟨1, 1⟩] ⟨0, 2⟩ 1)
      (by decide) (by decide)⟩

/-- C32: inside the window, for slot indices below 20 and symbols below 14, two coordinates
with the same pool index `(slot_index * 14 + symbol) % 280` have the same slot index and the
same symbol: the index map is injective on the window. -/
theorem sym_index_injective_on_window (slot1 slot2 : slot_point) (symbol1 symbol2 : Nat)
    (h1 : slot1.slot_index < 20) (h2 : slot2.slot_index < 20)
    (h3 : symbol1 < 14) (h4 : symbol2 < 14)
    (h : sym_index slot1 symbol1 = sym_index slot2 symbol2) :
    slot1 = slot2 ∧ symbol1 = symbol2 ∧
      sym_index slot1 symbol1 = slot1.slot_index * 14 + symbol1 := by
  simp only [sym_index, NOF_OFDM_SYM_PER_SLOT_NORMAL_CP, NUM_ENTRIES] at *
  obtain ⟨i1⟩ := slot1
  obtain ⟨i2⟩ := slot2
  simp only at h1 h2 h
  simp only [slot_point.mk.injEq]
  omega

/-- Witness of C32 at slot index 19, symbol 13, the last entry of the window. -/
theorem sym_index_injective_on_window_witness :
    (⟨19⟩ : slot_point).slot_index < 20 ∧ (⟨19⟩ : slot_point).slot_index < 20 ∧
    13 < 14 ∧ 13 < 14 ∧ sym_index ⟨19⟩ 13 = sym_index ⟨19⟩ 13 ∧
    ((⟨19⟩ : slot_point) = ⟨19⟩ ∧ 13 = 13 ∧
      sym_index ⟨19⟩ 13 = (⟨19⟩ : slot_point).slot_index * 14 + 13) :=
  ⟨by decide, by decide, by decide, by decide, rfl,
    sym_index_injective_on_window ⟨19⟩ ⟨19⟩ 13 13 (by decide) (by decide) (by decide)
      (by decide) rfl⟩

/-- C33: with the 32-bit counter, for `N = 2 ^ e` with `e ≤ 30` and every number `k` of prior
`get_wr_buffers` calls, also after the counter has wrapped, the state after the `k` calls
exists, its counter is `k * N` modulo `2 ^ 32`, and the write cursor, the counter modulo
`2 * N`, is `(k % 2) * N`: the next call returns the view `((k % 2) * N, N)`. -/
theorem cursor_survives_overflow (c : ofh_constants) (N e k : Nat) (hN : N = 2 ^ e)
    (he : e ≤ 30) :
    ∃ ak ak1, (frame_buffer_array.init c N).after_writes k = some ak ∧
      ak.write_position.count = (k * N) % UNSIGNED_MOD ∧
      ak.write_position.value = some ((k % 2) * N) ∧
      ak.write_position.count % (2 * N) = (k % 2) * N ∧
      ak.get_wr_buffers = some (⟨(k % 2) * N, N⟩, ak1) := by
  have hpos : 1 ≤ N := by rw [hN]; exact Nat.one_le_two_pow
  have h2N : 2 * N = 2 ^ (e + 1) := by rw [hN, Nat.pow_succ, Nat.mul_comm]
  have hdvd : 2 * N ∣ UNSIGNED_MOD := by
    rw [h2N]
    exact Nat.pow_dvd_pow 2 (by omega)
  have hlt : 2 * N < UNSIGNED_MOD := by
    rw [h2N]
    exact Nat.pow_lt_pow_right (by decide) (by omega)
  have hb : (2 * N) % UNSIGNED_MOD ≠ 0 := by
    rw [Nat.mod_eq_of_lt hlt]; omega
  have hst := after_writes_init c N k hb
  have hview := get_wr_buffers_after_writes c N k hb
  rw [hst] at hview
  have hval : (k * N) % UNSIGNED_MOD % (2 * N) = (k % 2) * N := by
    rw [Nat.mod_mod_of_dvd _ hdvd, Nat.mul_mod_mul_right]
  rw [Nat.mod_eq_of_lt hlt] at hst hview
  rw [hval] at hview
  refine ⟨_, _, hst, rfl, ?_, hval, hview⟩
  have hn0 : 2 * N ≠ 0 := by omega
  simp only [rd_wr_counter.value, hn0, if_false, hval]

/-- Witness of C33: `N = 4` and `k = 2 ^ 31 + 1` calls, far beyond the wrap of the counter. -/
theorem cursor_survives_overflow_witness :
    4 = 2 ^ 2 ∧ 2 ≤ 30 ∧
    ∃ ak ak1, (frame_buffer_array.init ⟨4, 4⟩ 4).after_writes 2147483649 = some ak ∧
      ak.write_position.count = (2147483649 * 4) % UNSIGNED_MOD ∧
      ak.write_position.value = some ((2147483649 % 2) * 4) ∧
      ak.write_position.count % (2 * 4) = (2147483649 % 2) * 4 ∧
      ak.get_wr_buffers = some (⟨(2147483649 % 2) * 4, 4⟩, ak1) :=
  ⟨by decide, by decide,
    cursor_survives_overflow ⟨4, 4⟩ 4 2 2147483649 (by decide) (by decide)⟩

/-- C34 fails when the counter wraps and `2 * N` does not divide `2 ^ 32`: on an array
constructed for 3 packets in a storage of `MAX_ETH_FRAMES_PER_SYMBOL = 6` buffers, after
1431655766 calls the counter is 2 and the write cursor is 2, neither 0 nor 3, and the call
after the next one returns the view `(5, 3)`, which ends at the buffer 8, outside the 6
buffers of the storage. -/
theorem cursor_off_the_halves_after_wrap :
    MAX_ETH_FRAMES_PER_SYMBOL ⟨3, 3⟩ = 6 ∧
    ((frame_buffer_array.init ⟨3, 3⟩ 3).after_writes 1431655766).map
        (fun a => (a.write_position.count, a.write_position.value)) = some (2, some 2) ∧
    (((frame_buffer_array.init ⟨3, 3⟩ 3).after_writes 1431655767).bind
        frame_buffer_array.get_wr_buffers).map Prod.fst = some ⟨5, 3⟩ ∧
    ¬ (5 + 3 ≤ MAX_ETH_FRAMES_PER_SYMBOL ⟨3, 3⟩) := by
  have hb : (2 * 3) % UNSIGNED_MOD ≠ 0 := by decide
  refine ⟨by decide, ?_, ?_, by decide⟩
  · rw [after_writes_init ⟨3, 3⟩ 3 1431655766 hb]
    simp only [Option.map, rd_wr_counter.value, UNSIGNED_MOD]
    norm_num
  · rw [get_wr_buffers_after_writes ⟨3, 3⟩ 3 1431655767 hb]
    simp only [Option.map, UNSIGNED_MOD]
    norm_num

/-! ## The pool after the write counter wraps -/

/-- C6 fails when the write counter wraps and twice the capacity does not divide `2 ^ 32`: in
a pool with capacities 3 and 3, whose arrays have 6 buffers, the first 1431655767 calls of
`get_frame_buffers` for slot 0, symbol 0, control-plane all return and leave a well-formed
pool; there the control-plane array of the coordinate hands out the view that starts at
buffer 5 and has 3 buffers, while the array has only the buffers 0 to 5, so the call does not
return 3 cleared buffers of the pool: clearing the view leaves the array and
`get_frame_buffers` has no defined result. -/
theorem get_frame_buffers_view_outside_storage_after_wrap :
    (eth_frame_pool.init ⟨3, 3⟩).run
        (List.replicate 1431655767 (pool_op.get_frame_buffers ⟨0⟩ 0 message_type.control_plane))
      = some (pool_after_writes 1431655767) ∧
    (pool_after_writes 1431655767).wf ⟨3, 3⟩ ∧
    capacity ⟨3, 3⟩ message_type.control_plane = 3 ∧
    (((pool_after_writes 1431655767).array_at ⟨0⟩ 0 message_type.control_plane).bind
        frame_buffer_array.get_wr_buffers).map Prod.fst = some ⟨5, 3⟩ ∧
    ((pool_after_writes 1431655767).array_at ⟨0⟩ 0 message_type.control_plane).map
        (fun a => a.buf_array.length) = some 6 ∧
    (pool_after_writes 1431655767).get_frame_buffers ⟨0⟩ 0 message_type.control_plane
      = none := by
  have harr : (pool_after_writes 1431655767).array_at ⟨0⟩ 0 message_type.control_plane
      = some (frame_buffer_array.mk (List.replicate 6 frame_buffer.init) [] ⟨5, 6⟩ 3) := by
    rw [array_at_eq, pool_after_writes_entry]
    exact wrapped_entry_array
  have hnone : (entry_after_writes 1431655767).get_write_buffers message_type.control_plane
      = none :=
    get_write_buffers_outside_storage _ _ 5 _ wrapped_entry_array rfl
      (by rw [List.length_replicate]; decide) (by rw [List.length_replicate]; decide)
  refine ⟨wrapped_pool_reachable, wrapped_pool_wf, rfl, ?_, ?_, ?_⟩
  · rw [harr]
    rfl
  · rw [harr]
    simp only [Option.map, List.length_replicate]
  · simp only [eth_frame_pool.get_frame_buffers, eth_frame_pool.get_pool_entry,
      pool_after_writes_entry, hnone]

/-- C21 fails for `get_frame_buffers` at the state reached when the write counter has wrapped:
in a pool with capacities 3 and 3, after 1431655767 calls of `get_frame_buffers` for slot 0,
symbol 0, control-plane, the pool is well formed and the control-plane array of the coordinate
has the cursor 5 and the increment 3; the loop that clears the view of the next call clears
buffer 5 and then goes on to the positions 6 and 7, which are not buffers of the
control-plane array: what the call writes there is outside the one array it may change. The
loop has no result on the array and the sequence of 1431655768 calls does not return. -/
theorem clear_loop_leaves_array_after_wrap :
    (∃ p a, (eth_frame_pool.init ⟨3, 3⟩).run
          (List.replicate 1431655767
            (pool_op.get_frame_buffers ⟨0⟩ 0 message_type.control_plane)) = some p ∧
      p.wf ⟨3, 3⟩ ∧
      p.array_at ⟨0⟩ 0 message_type.control_plane = some a ∧
      a.write_position.value = some 5 ∧ a.increment_quant = 3 ∧
      (clear_each a.buf_array 5 1).isSome = true ∧
      a.buf_array[6]? = none ∧ a.buf_array[7]? = none ∧
      clear_each a.buf_array 5 3 = none) ∧
    (eth_frame_pool.init ⟨3, 3⟩).run
        (List.replicate 1431655768 (pool_op.get_frame_buffers ⟨0⟩ 0 message_type.control_plane))
      = none := by
  have hnone : (entry_after_writes 1431655767).get_write_buffers message_type.control_plane
      = none :=
    get_write_buffers_outside_storage _ _ 5 _ wrapped_entry_array rfl
      (by rw [List.length_replicate]; decide) (by rw [List.length_replicate]; decide)
  have hreach : (eth_frame_pool.init ⟨3, 3⟩).run
        (List.replicate 1431655767 (pool_op.get_frame_buffers ⟨0⟩ 0 message_type.control_plane))
      = some (pool_after_writes 1431655767) := wrapped_pool_reachable
  constructor
  · refine ⟨pool_after_writes 1431655767,
      frame_buffer_array.mk (List.replicate 6 frame_buffer.init) [] ⟨5, 6⟩ 3,
      wrapped_pool_reachable, wrapped_pool_wf, ?_, rfl, rfl, ?_, ?_, ?_, ?_⟩
    · rw [array_at_eq, pool_after_writes_entry]
      exact wrapped_entry_array
    · rw [clear_each_fresh 6 5 1 (by decide)]
      rfl
    · simp
    · simp
    · exact clear_each_eq_none _ 5 3 (by rw [List.length_replicate]; decide)
        (by rw [List.length_replicate]; decide)
  · show (eth_frame_pool.init ⟨3, 3⟩).run
        (List.replicate (1431655767 + 1)
          (pool_op.get_frame_buffers ⟨0⟩ 0 message_type.control_plane)) = none
    rw [List.replicate_succ', eth_frame_pool_run_append, hreach]
    simp only [Option.bind, eth_frame_pool.run, eth_frame_pool.step,
      eth_frame_pool.get_frame_buffers, eth_frame_pool.get_pool_entry,
      pool_after_writes_entry, hnone, Option.map]

/-- C31 fails at the entry reached when the write counter has wrapped: the entry of slot 0,
symbol 0 of a pool with capacities 3 and 3 after 1431655767 calls of `get_frame_buffers` for
the control-plane category is well formed, its control-plane array has 6 buffers, the
counter 5 and the increment 3, and `get_wr_buffers` returns on it the view that starts at
buffer 5 and has 3 buffers; `pool_entry::get_write_buffers` then clears what lies at the
positions 5, 6 and 7, of which the last two are outside the array, so the call does not
change only the cursor and the sizes of buffers of the category: it has no defined result. -/
theorem get_write_buffers_undefined_after_wrap :
    ((eth_frame_pool.init ⟨3, 3⟩).run
        (List.replicate 1431655767
          (pool_op.get_frame_buffers ⟨0⟩ 0 message_type.control_plane))).bind
        (fun p => p.get_pool_entry ⟨0⟩ 0) = some (entry_after_writes 1431655767) ∧
    (entry_after_writes 1431655767).wf ⟨3, 3⟩ ∧
    (entry_after_writes 1431655767).get_ofh_type_buffers message_type.control_plane
      = some (frame_buffer_array.mk (List.replicate 6 frame_buffer.init) [] ⟨5, 6⟩ 3) ∧
    (frame_buffer_array.mk (List.replicate 6 frame_buffer.init) [] ⟨5, 6⟩ 3).get_wr_buffers
      = some (⟨5, 3⟩, frame_buffer_array.mk (List.replicate 6 frame_buffer.init) [] ⟨8, 6⟩ 3) ∧
    (entry_after_writes 1431655767).get_write_buffers message_type.control_plane = none := by
  have hmem : entry_after_writes 1431655767 ∈ (pool_after_writes 1431655767).pool :=
    List.getElem?_mem (pool_after_writes_entry 1431655767)
  have hreach : (eth_frame_pool.init ⟨3, 3⟩).run
        (List.replicate 1431655767 (pool_op.get_frame_buffers ⟨0⟩ 0 message_type.control_plane))
      = some (pool_after_writes 1431655767) := wrapped_pool_reachable
  refine ⟨?_, wrapped_pool_wf.2 _ hmem, wrapped_entry_array, rfl, ?_⟩
  · rw [hreach]
    exact pool_after_writes_entry 1431655767
  · exact get_write_buffers_outside_storage _ _ 5 _ wrapped_entry_array rfl
      (by rw [List.length_replicate]; decide) (by rw [List.length_replicate]; decide)

end ether

/-! ## GTP-U NG-U receive -/

theorem handle_pdu_loop_have (psup_packer : psup_packing) (st : handle_pdu_state)
    (exts : List gtpu_extension_header) (h : st.have_pdu_session_info = true) :
    (handle_pdu_loop psup_packer st exts).have_pdu_session_info = true ∧
    (handle_pdu_loop psup_packer st exts).pdu_session_info = st.pdu_session_info ∧
    (handle_pdu_loop psup_packer st exts).unpacked = st.unpacked := by
  induction exts generalizing st with
  | nil => exact ⟨h, rfl, rfl⟩
  | cons e rest ih =>
    rw [handle_pdu_loop]
    have hstep : (handle_pdu_ext psup_packer st e).have_pdu_session_info = true ∧
        (handle_pdu_ext psup_packer st e).pdu_session_info = st.pdu_session_info ∧
        (handle_pdu_ext psup_packer st e).unpacked = st.unpacked := by
      unfold handle_pdu_ext
      cases e.extension_header_type <;> simp [h]
    obtain ⟨i1, i2, i3⟩ := ih (handle_pdu_ext psup_packer st e) hstep.1
    exact ⟨i1, i2.trans hstep.2.1, i3.trans hstep.2.2⟩

theorem handle_pdu_loop_spec (psup_packer : psup_packing)
    (hdet : psup_packer.decided_by_container) (st : handle_pdu_state)
    (exts : List gtpu_extension_header) (h : st.have_pdu_session_info = false) :
    ((handle_pdu_loop psup_packer st exts).have_pdu_session_info = true ↔
      ∃ e ∈ exts, e.extension_header_type = gtpu_extension_header_type.pdu_session_container ∧
        ∃ info, (psup_packer.unpack info e.container).1 = true) ∧
    ((handle_pdu_loop psup_packer st exts).have_pdu_session_info = true →
      ∃ e ∈ exts, e.extension_header_type = gtpu_extension_header_type.pdu_session_container ∧
        ∃ info, psup_packer.unpack info e.container =
          (true, (handle_pdu_loop psup_packer st exts).pdu_session_info)) := by
  induction exts generalizing st with
  | nil =>
    simp [handle_pdu_loop, h]
  | cons e rest ih =>
    rw [handle_pdu_loop]
    cases ht : e.extension_header_type with
    | pdu_session_container =>
      cases hu : (psup_packer.unpack st.pdu_session_info e.container).1 with
      | true =>
        have hst : (handle_pdu_ext psup_packer st e).have_pdu_session_info = true ∧
            (handle_pdu_ext psup_packer st e).pdu_session_info
              = (psup_packer.unpack st.pdu_session_info e.container).2 := by
          unfold handle_pdu_ext
          simp [ht, h, hu]
        obtain ⟨i1, i2, _⟩ := handle_pdu_loop_have psup_packer _ rest hst.1
        refine ⟨⟨fun _ => ⟨e, List.mem_cons_self _ _, ht, st.pdu_session_info, hu⟩, fun _ => i1⟩,
          fun _ => ⟨e, List.mem_cons_self _ _, ht, st.pdu_session_info, ?_⟩⟩
        rw [i2, hst.2, ← hu]
      | false =>
        have hst : (handle_pdu_ext psup_packer st e).have_pdu_session_info = false := by
          unfold handle_pdu_ext
          simp [ht, h, hu]
        obtain ⟨j1, j2⟩ := ih (handle_pdu_ext psup_packer st e) hst
        refine ⟨⟨fun hh => ?_, fun hh => ?_⟩, fun hh => ?_⟩
        · obtain ⟨e1, m1, t1, k1⟩ := j1.mp hh
          exact ⟨e1, List.mem_cons_of_mem _ m1, t1, k1⟩
        · obtain ⟨e1, m1, t1, info, k1⟩ := hh
          rcases List.mem_cons.mp m1 with heq | hin
          · subst heq
            rw [hdet info st.pdu_session_info e1.container, hu] at k1
            cases k1
          · exact j1.mpr ⟨e1, hin, t1, info, k1⟩
        · obtain ⟨e1, m1, t1, k1⟩ := j2 hh
          exact ⟨e1, List.mem_cons_of_mem _ m1, t1, k1⟩
    | other v =>
      have hst : (handle_pdu_ext psup_packer st e).have_pdu_session_info = false := by
        unfold handle_pdu_ext
        simp [ht, h]
      obtain ⟨j1, j2⟩ := ih (handle_pdu_ext psup_packer st e) hst
      refine ⟨⟨fun hh => ?_, fun hh => ?_⟩, fun hh => ?_⟩
      · obtain ⟨e1, m1, t1, k1⟩ := j1.mp hh
        exact ⟨e1, List.mem_cons_of_mem _ m1, t1, k1⟩
      · obtain ⟨e1, m1, t1, k1⟩ := hh
        rcases List.mem_cons.mp m1 with heq | hin
        · subst heq
          rw [ht] at t1
          cases t1
        · exact j1.mpr ⟨e1, hin, t1, k1⟩
      · obtain ⟨e1, m1, t1, k1⟩ := j2 hh
        exact ⟨e1, List.mem_cons_of_mem _ m1, t1, k1⟩

theorem example_psup_packing_decided : example_psup_packing.decided_by_container := by
  intro i1 i2 container
  simp only [example_psup_packing]
  split
  · split <;> rfl
  · rfl

/-- C24: with an `unpack` whose success is decided by the container, `handle_pdu` calls
`on_new_sdu` exactly when some extension header of type PDU session container in the
extension list of the header unpacks successfully; it then passes the received buffer
unchanged, with the QoS flow id of the PDU session information unpacked from such a
container; otherwise `on_new_sdu` is not called. -/
theorem handle_pdu_delivers_iff (psup_packer : psup_packing)
    (hdet : psup_packer.decided_by_container) (buf : List Nat) (hdr : gtpu_header) :
    (((gtpu_tunnel_ngu_rx.handle_pdu psup_packer buf hdr).on_new_sdu).isSome = true ↔
      ∃ e ∈ hdr.ext_list,
        e.extension_header_type = gtpu_extension_header_type.pdu_session_container ∧
        ∃ info, (psup_packer.unpack info e.container).1 = true) ∧
    (∀ sdu qfi, (gtpu_tunnel_ngu_rx.handle_pdu psup_packer buf hdr).on_new_sdu = some (sdu, qfi) →
      sdu = buf ∧ ∃ e ∈ hdr.ext_list,
        e.extension_header_type = gtpu_extension_header_type.pdu_session_container ∧
        ∃ info info1, psup_packer.unpack info e.container = (true, info1) ∧
          qfi = info1.qos_flow_id) ∧
    ((¬ ∃ e ∈ hdr.ext_list,
        e.extension_header_type = gtpu_extension_header_type.pdu_session_container ∧
        ∃ info, (psup_packer.unpack info e.container).1 = true) →
      (gtpu_tunnel_ngu_rx.handle_pdu psup_packer buf hdr).on_new_sdu = none) := by
  obtain ⟨j1, j2⟩ := handle_pdu_loop_spec psup_packer hdet
    { pdu_session_info := ⟨0⟩, have_pdu_session_info := false, log := [], unpacked := [] }
    hdr.ext_list rfl
  cases hh : (handle_pdu_loop psup_packer
    { pdu_session_info := ⟨0⟩, have_pdu_session_info := false, log := [], unpacked := [] }
    hdr.ext_list).have_pdu_session_info with
  | true =>
    have hex := j1.mp hh
    obtain ⟨e, m, t, info, k⟩ := j2 hh
    refine ⟨⟨fun _ => hex, fun _ => ?_⟩, ?_, fun hn => absurd hex hn⟩
    · simp [gtpu_tunnel_ngu_rx.handle_pdu, hh]
    · intro sdu qfi hs
      simp only [gtpu_tunnel_ngu_rx.handle_pdu, hh, Bool.not_true, Bool.false_eq_true, if_false,
        Option.some.injEq, Prod.mk.injEq] at hs
      exact ⟨hs.1.symm, e, m, t, info, _, k, hs.2.symm⟩
  | false =>
    have hnone : (gtpu_tunnel_ngu_rx.handle_pdu psup_packer buf hdr).on_new_sdu = none := by
      simp [gtpu_tunnel_ngu_rx.handle_pdu, hh]
    refine ⟨⟨fun h1 => ?_, fun h1 => ?_⟩, ?_, fun _ => hnone⟩
    · rw [hnone] at h1
      cases h1
    · have := j1.mpr h1
      rw [hh] at this
      cases this
    · intro sdu qfi hs
      rw [hnone] at hs
      cases hs

/-- Witness of C24: a PDU with TEID 2 whose header holds one PDU session container with the
bytes `0x00 0x01` (QoS flow id 1) is delivered unchanged with QoS flow id 1. -/
theorem handle_pdu_delivers_iff_witness :
    example_psup_packing.decided_by_container ∧
    (gtpu_tunnel_ngu_rx.handle_pdu example_psup_packing [69, 0, 0, 84]
        ⟨2, [⟨gtpu_extension_header_type.pdu_session_container, [0, 1]⟩]⟩).on_new_sdu
      = some ([69, 0, 0, 84], 1) ∧
    ((((gtpu_tunnel_ngu_rx.handle_pdu example_psup_packing [69, 0, 0, 84]
        ⟨2, [⟨gtpu_extension_header_type.pdu_session_container, [0, 1]⟩]⟩).on_new_sdu).isSome
        = true ↔
      ∃ e ∈ (⟨2, [⟨gtpu_extension_header_type.pdu_session_container, [0, 1]⟩]⟩
          : gtpu_header).ext_list,
        e.extension_header_type = gtpu_extension_header_type.pdu_session_container ∧
        ∃ info, (example_psup_packing.unpack info e.container).1 = true) ∧
    (∀ sdu qfi, (gtpu_tunnel_ngu_rx.handle_pdu example_psup_packing [69, 0, 0, 84]
        ⟨2, [⟨gtpu_extension_header_type.pdu_session_container, [0, 1]⟩]⟩).on_new_sdu
          = some (sdu, qfi) →
      sdu = [69, 0, 0, 84] ∧ ∃ e ∈ (⟨2, [⟨gtpu_extension_header_type.pdu_session_container,
          [0, 1]⟩]⟩ : gtpu_header).ext_list,
        e.extension_header_type = gtpu_extension_header_type.pdu_session_container ∧
        ∃ info info1, example_psup_packing.unpack info e.container = (true, info1) ∧
          qfi = info1.qos_flow_id) ∧
    ((¬ ∃ e ∈ (⟨2, [⟨gtpu_extension_header_type.pdu_session_container, [0, 1]⟩]⟩
          : gtpu_header).ext_list,
        e.extension_header_type = gtpu_extension_header_type.pdu_session_container ∧
        ∃ info, (example_psup_packing.unpack info e.container).1 = true) →
      (gtpu_tunnel_ngu_rx.handle_pdu example_psup_packing [69, 0, 0, 84]
        ⟨2, [⟨gtpu_extension_header_type.pdu_session_container, [0, 1]⟩]⟩).on_new_sdu
          = none)) :=
  ⟨example_psup_packing_decided, rfl,
    handle_pdu_delivers_iff example_psup_packing example_psup_packing_decided [69, 0, 0, 84]
      ⟨2, [⟨gtpu_extension_header_type.pdu_session_container, [0, 1]⟩]⟩⟩

/-! ## GTP-U NG-U receive with several extension headers -/

theorem handle_pdu_loop_append (psup_packer : psup_packing) (st : handle_pdu_state)
    (l1 l2 : List gtpu_extension_header) :
    handle_pdu_loop psup_packer st (l1 ++ l2)
      = handle_pdu_loop psup_packer (handle_pdu_loop psup_packer st l1) l2 := by
  induction l1 generalizing st with
  | nil => rfl
  | cons e l1 ih =>
    simp only [List.cons_append, handle_pdu_loop]
    exact ih _

/-- The loop over an extension list and the loop over its PDU session containers end with the
same PDU session information, the same flag and the same containers unpacked, from states that
agree on these. -/
theorem handle_pdu_loop_filter (psup_packer : psup_packing) (st st1 : handle_pdu_state)
    (exts : List gtpu_extension_header)
    (h : st.pdu_session_info = st1.pdu_session_info ∧
      st.have_pdu_session_info = st1.have_pdu_session_info ∧ st.unpacked = st1.unpacked) :
    (handle_pdu_loop psup_packer st exts).pdu_session_info
        = (handle_pdu_loop psup_packer st1 (pdu_session_containers exts)).pdu_session_info ∧
    (handle_pdu_loop psup_packer st exts).have_pdu_session_info
        = (handle_pdu_loop psup_packer st1 (pdu_session_containers exts)).have_pdu_session_info ∧
    (handle_pdu_loop psup_packer st exts).unpacked
        = (handle_pdu_loop psup_packer st1 (pdu_session_containers exts)).unpacked := by
  induction exts generalizing st st1 with
  | nil => exact h
  | cons e rest ih =>
    obtain ⟨h1, h2, h3⟩ := h
    cases ht : e.extension_header_type with
    | pdu_session_container =>
      have hp : e.is_pdu_session_container = true := by
        simp [gtpu_extension_header.is_pdu_session_container, ht]
      simp only [pdu_session_containers, List.filter_cons_of_pos hp, handle_pdu_loop]
      refine ih _ _ ?_
      unfold handle_pdu_ext
      simp only [ht, h1, h2, h3]
      cases st1.have_pdu_session_info <;> simp
    | other v =>
      have hp : ¬ (e.is_pdu_session_container = true) := by
        simp [gtpu_extension_header.is_pdu_session_container, ht]
      simp only [pdu_session_containers, List.filter_cons_of_neg hp, handle_pdu_loop]
      refine ih _ _ ?_
      unfold handle_pdu_ext
      simp only [ht]
      exact ⟨h1, h2, h3⟩

/-- PDU session containers that all fail to unpack are all passed to `unpack`, in order, and
leave the flag unset. -/
theorem handle_pdu_loop_failures (psup_packer : psup_packing)
    (pre : List gtpu_extension_header) (st : handle_pdu_state)
    (h : st.have_pdu_session_info = false)
    (hpre : ∀ x ∈ pre, x.is_pdu_session_container = true ∧
      ∀ info, (psup_packer.unpack info x.container).1 = false) :
    (handle_pdu_loop psup_packer st pre).have_pdu_session_info = false ∧
    (handle_pdu_loop psup_packer st pre).unpacked
      = st.unpacked ++ pre.map fun x => x.container := by
  induction pre generalizing st with
  | nil => simp [handle_pdu_loop, h]
  | cons e rest ih =>
    obtain ⟨hp, hf⟩ := hpre e (List.mem_cons_self _ _)
    have ht : e.extension_header_type = gtpu_extension_header_type.pdu_session_container := by
      unfold gtpu_extension_header.is_pdu_session_container at hp
      cases hh : e.extension_header_type with
      | pdu_session_container => rfl
      | other v => simp [hh] at hp
    have hst : (handle_pdu_ext psup_packer st e).have_pdu_session_info = false ∧
        (handle_pdu_ext psup_packer st e).unpacked = st.unpacked ++ [e.container] := by
      unfold handle_pdu_ext
      simp [ht, h, hf st.pdu_session_info]
    obtain ⟨i1, i2⟩ := ih (handle_pdu_ext psup_packer st e) hst.1
      (fun x hx => hpre x (List.mem_cons_of_mem _ hx))
    rw [handle_pdu_loop]
    refine ⟨i1, ?_⟩
    rw [i2, hst.2]
    simp

/-- C35: with an `unpack` whose success is decided by the container, `handle_pdu` passes to
`unpack` the PDU session containers of the extension list in order up to the first one that
unpacks, failed ones included, and none after it; it delivers the SDU with the QoS flow id
unpacked from that first container; when every PDU session container fails, each of them has
been tried and nothing is delivered; and two headers with the same PDU session containers,
whatever their other extension headers, give the same delivery and the same unpacked
containers. -/
theorem handle_pdu_first_container (psup_packer : psup_packing)
    (hdet : psup_packer.decided_by_container) (buf : List Nat) (hdr : gtpu_header) :
    (∀ pre e post, pdu_session_containers hdr.ext_list = pre ++ e :: post →
      (∀ x ∈ pre, ∀ info, (psup_packer.unpack info x.container).1 = false) →
      (∃ info, (psup_packer.unpack info e.container).1 = true) →
      (gtpu_tunnel_ngu_rx.handle_pdu psup_packer buf hdr).unpacked
          = (pre ++ [e]).map (fun x => x.container) ∧
        ∃ info info1, psup_packer.unpack info e.container = (true, info1) ∧
          (gtpu_tunnel_ngu_rx.handle_pdu psup_packer buf hdr).on_new_sdu
            = some (buf, info1.qos_flow_id)) ∧
    ((∀ x ∈ pdu_session_containers hdr.ext_list,
        ∀ info, (psup_packer.unpack info x.container).1 = false) →
      (gtpu_tunnel_ngu_rx.handle_pdu psup_packer buf hdr).unpacked
          = (pdu_session_containers hdr.ext_list).map (fun x => x.container) ∧
        (gtpu_tunnel_ngu_rx.handle_pdu psup_packer buf hdr).on_new_sdu = none) ∧
    (∀ hdr1 : gtpu_header,
      pdu_session_containers hdr1.ext_list = pdu_session_containers hdr.ext_list →
      (gtpu_tunnel_ngu_rx.handle_pdu psup_packer buf hdr1).on_new_sdu
          = (gtpu_tunnel_ngu_rx.handle_pdu psup_packer buf hdr).on_new_sdu ∧
        (gtpu_tunnel_ngu_rx.handle_pdu psup_packer buf hdr1).unpacked
          = (gtpu_tunnel_ngu_rx.handle_pdu psup_packer buf hdr).unpacked) := by
  have hmem : ∀ x ∈ pdu_session_containers hdr.ext_list, x.is_pdu_session_container = true :=
    fun x hx => (List.mem_filter.mp hx).2
  obtain ⟨f1, f2, f3⟩ := handle_pdu_loop_filter psup_packer
    { pdu_session_info := ⟨0⟩, have_pdu_session_info := false, log := [], unpacked := [] }
    { pdu_session_info := ⟨0⟩, have_pdu_session_info := false, log := [], unpacked := [] }
    hdr.ext_list ⟨rfl, rfl, rfl⟩
  refine ⟨?_, ?_, ?_⟩
  · intro pre e post hsplit hpre hok
    have hpre1 : ∀ x ∈ pre, x.is_pdu_session_container = true ∧
        ∀ info, (psup_packer.unpack info x.container).1 = false := by
      intro x hx
      refine ⟨hmem x ?_, hpre x hx⟩
      rw [hsplit]
      exact List.mem_append_left _ hx
    have he : e.extension_header_type = gtpu_extension_header_type.pdu_session_container := by
      have hp := hmem e (by rw [hsplit]; simp)
      unfold gtpu_extension_header.is_pdu_session_container at hp
      cases hh : e.extension_header_type with
      | pdu_session_container => rfl
      | other v => simp [hh] at hp
    obtain ⟨g1, g2⟩ := handle_pdu_loop_failures psup_packer pre
      { pdu_session_info := ⟨0⟩, have_pdu_session_info := false, log := [], unpacked := [] }
      rfl hpre1
    obtain ⟨info0, hinfo0⟩ := hok
    have hsucc : ∀ info, (psup_packer.unpack info e.container).1 = true := by
      intro info
      rw [hdet info info0 e.container]
      exact hinfo0
    rw [hsplit, handle_pdu_loop_append, handle_pdu_loop] at f1 f2 f3
    have hst : (handle_pdu_ext psup_packer (handle_pdu_loop psup_packer
          { pdu_session_info := ⟨0⟩, have_pdu_session_info := false, log := [], unpacked := [] }
          pre) e).have_pdu_session_info = true ∧
        (handle_pdu_ext psup_packer (handle_pdu_loop psup_packer
          { pdu_session_info := ⟨0⟩, have_pdu_session_info := false, log := [], unpacked := [] }
          pre) e).pdu_session_info
          = (psup_packer.unpack (handle_pdu_loop psup_packer
              { pdu_session_info := ⟨0⟩, have_pdu_session_info := false, log := [],
                unpacked := [] } pre).pdu_session_info e.container).2 ∧
        (handle_pdu_ext psup_packer (handle_pdu_loop psup_packer
          { pdu_session_info := ⟨0⟩, have_pdu_session_info := false, log := [], unpacked := [] }
          pre) e).unpacked = (pre ++ [e]).map (fun x => x.container) := by
      unfold handle_pdu_ext
      simp [he, g1, g2, hsucc]
    obtain ⟨k1, k2, k3⟩ := handle_pdu_loop_have psup_packer _ post hst.1
    rw [k1] at f2
    rw [k2, hst.2.1] at f1
    rw [k3, hst.2.2] at f3
    obtain ⟨infoP, hP⟩ : ∃ i, i = (handle_pdu_loop psup_packer
        { pdu_session_info := ⟨0⟩, have_pdu_session_info := false, log := [], unpacked := [] }
        pre).pdu_session_info := ⟨_, rfl⟩
    rw [← hP] at f1
    refine ⟨?_, infoP, (psup_packer.unpack infoP e.container).2,
      Prod.ext (hsucc infoP) rfl, ?_⟩
    · simp only [gtpu_tunnel_ngu_rx.handle_pdu, f2, Bool.not_true, Bool.false_eq_true, if_false]
      exact f3
    · simp only [gtpu_tunnel_ngu_rx.handle_pdu, f2, Bool.not_true, Bool.false_eq_true, if_false,
        f1]
  · intro hall
    obtain ⟨g1, g2⟩ := handle_pdu_loop_failures psup_packer (pdu_session_containers hdr.ext_list)
      { pdu_session_info := ⟨0⟩, have_pdu_session_info := false, log := [], unpacked := [] }
      rfl (fun x hx => ⟨hmem x hx, hall x hx⟩)
    rw [g1] at f2
    rw [g2] at f3
    simp only [gtpu_tunnel_ngu_rx.handle_pdu, f2, Bool.not_false, if_true, f3, List.nil_append,
      and_self]
  · intro hdr1 heq
    obtain ⟨e1, e2, e3⟩ := handle_pdu_loop_filter psup_packer
      { pdu_session_info := ⟨0⟩, have_pdu_session_info := false, log := [], unpacked := [] }
      { pdu_session_info := ⟨0⟩, have_pdu_session_info := false, log := [], unpacked := [] }
      hdr1.ext_list ⟨rfl, rfl, rfl⟩
    rw [heq, ← f1] at e1
    rw [heq, ← f2] at e2
    rw [heq, ← f3] at e3
    simp only [gtpu_tunnel_ngu_rx.handle_pdu, e1, e2, e3]
    cases (handle_pdu_loop psup_packer
      { pdu_session_info := ⟨0⟩, have_pdu_session_info := false, log := [], unpacked := [] }
      hdr.ext_list).have_pdu_session_info <;> simp

/-- Witness of C35 on the example header: the container of PDU type 1 fails and is followed
by the container with QoS flow id 7, which is used; the container with QoS flow id 9 is not
unpacked; the extension header of another type is only logged. -/
theorem handle_pdu_first_container_witness :
    example_psup_packing.decided_by_container ∧
    ((gtpu_tunnel_ngu_rx.handle_pdu example_psup_packing [69, 0, 0, 84]
        example_gtpu_header).on_new_sdu = some ([69, 0, 0, 84], 7) ∧
      (gtpu_tunnel_ngu_rx.handle_pdu example_psup_packing [69, 0, 0, 84]
        example_gtpu_header).unpacked = [[16, 5], [0, 7]] ∧
      (gtpu_tunnel_ngu_rx.handle_pdu example_psup_packing [69, 0, 0, 84]
        example_gtpu_header).log =
        [gtpu_log.warning_unexpected_extension (gtpu_extension_header_type.other 32),
         gtpu_log.error_failed_unpack, gtpu_log.warning_multiple_container,
         gtpu_log.info_rx_sdu 4 2 7]) ∧
    ((∀ pre e post, pdu_session_containers example_gtpu_header.ext_list = pre ++ e :: post →
      (∀ x ∈ pre, ∀ info, (example_psup_packing.unpack info x.container).1 = false) →
      (∃ info, (example_psup_packing.unpack info e.container).1 = true) →
      (gtpu_tunnel_ngu_rx.handle_pdu example_psup_packing [69, 0, 0, 84]
          example_gtpu_header).unpacked = (pre ++ [e]).map (fun x => x.container) ∧
        ∃ info info1, example_psup_packing.unpack info e.container = (true, info1) ∧
          (gtpu_tunnel_ngu_rx.handle_pdu example_psup_packing [69, 0, 0, 84]
            example_gtpu_header).on_new_sdu = some ([69, 0, 0, 84], info1.qos_flow_id)) ∧
    ((∀ x ∈ pdu_session_containers example_gtpu_header.ext_list,
        ∀ info, (example_psup_packing.unpack info x.container).1 = false) →
      (gtpu_tunnel_ngu_rx.handle_pdu example_psup_packing [69, 0, 0, 84]
          example_gtpu_header).unpacked
          = (pdu_session_containers example_gtpu_header.ext_list).map (fun x => x.container) ∧
        (gtpu_tunnel_ngu_rx.handle_pdu example_psup_packing [69, 0, 0, 84]
          example_gtpu_header).on_new_sdu = none) ∧
    (∀ hdr1 : gtpu_header,
      pdu_session_containers hdr1.ext_list
          = pdu_session_containers example_gtpu_header.ext_list →
      (gtpu_tunnel_ngu_rx.handle_pdu example_psup_packing [69, 0, 0, 84] hdr1).on_new_sdu
          = (gtpu_tunnel_ngu_rx.handle_pdu example_psup_packing [69, 0, 0, 84]
              example_gtpu_header).on_new_sdu ∧
        (gtpu_tunnel_ngu_rx.handle_pdu example_psup_packing [69, 0, 0, 84] hdr1).unpacked
          = (gtpu_tunnel_ngu_rx.handle_pdu example_psup_packing [69, 0, 0, 84]
              example_gtpu_header).unpacked)) :=
  ⟨example_psup_packing_decided, ⟨rfl, rfl, rfl⟩,
    handle_pdu_first_container example_psup_packing example_psup_packing_decided
      [69, 0, 0, 84] example_gtpu_header⟩

end srsran
